import Mathlib

/-!
# polygen: genetic representation and operators (polygon.go)

A shallow embedding of `polygon.go` and theorems about it.

Modelling conventions
* Go `int` values that can be negative (coordinates, width, height, fitness) are `Int`;
  lengths, indices and array identifiers are `Nat`.
* A `[]*Point` slice is a slice header (`Slice`) into a store of backing arrays (`St.cells`).
  Copying a `Polygon` struct copies the header only, so two polygons can share one backing
  array, exactly as in Go.  A `*Point` is modelled by the point it refers to (the package only
  ever stores addresses of freshly built points and never writes through a `*Point`), and a
  `*Polygon` by the polygon struct it refers to.
* `math/rand` is a stream of raw natural numbers (`Env.rnd`) read at a cursor (`St.pos`);
  every outcome of the random draws is some stream.
* A Go run-time panic is the `Except.error` result.
* `log.Printf` calls are not modelled.
* `image.NewRGBA(image.Rect(0, 0, w, h))` is external; it is modelled by when it fails
  (`newRGBAok`): the standard library panics when the byte length `4 * |w| * |h|` of the pixel
  buffer does not fit an `int`, and `make` fails when that length exceeds what the run time can
  allocate.
* The draw2d graphic context is external: the calls made on it are recorded in order
  (`GcCall`), and these calls are taken not to fail.
-/

set_option linter.dupNamespace false

namespace Polygen

/-! ## Constants -/

def MutationColor : Nat := 0
def MutationPoint : Nat := 1
def MutationAddOrDeletePoint : Nat := 2

def PopulationCount : Nat := 10
def PolygonsPerIndividual : Nat := 100
def MaxPolygonPoints : Nat := 6
def MinPolygonPoints : Nat := 3

def Mutations : List Nat := [MutationColor, MutationPoint, MutationAddOrDeletePoint]

/-! ## Data model -/

/-- Run-time panics the package can raise. -/
inductive Panic where
  | intnNonPositive
  | indexOutOfRange
  | newRGBA
deriving DecidableEq, Repr

structure Point where
  X : Int
  Y : Int
deriving DecidableEq, Repr

/-- The type `color.RGBA`: four bytes, alpha-premultiplied by convention. -/
structure RGBA where
  R : Nat
  G : Nat
  B : Nat
  A : Nat
deriving DecidableEq, Repr

/-- The type `color.NRGBA`: four bytes, not premultiplied. -/
structure NRGBA where
  R : Nat
  G : Nat
  B : Nat
  A : Nat
deriving DecidableEq, Repr

/-- All four channels are bytes. -/
def RGBA.isBytes (c : RGBA) : Prop := c.R < 256 ∧ c.G < 256 ∧ c.B < 256 ∧ c.A < 256

instance (c : RGBA) : Decidable c.isBytes := by
  unfold RGBA.isBytes
  infer_instance

/-- A Go slice header for `[]*Point`: backing array, offset of element 0 in it, length and
capacity. -/
structure Slice where
  arr : Nat
  off : Nat
  len : Nat
  cap : Nat
deriving DecidableEq, Repr

/-- A polygon struct: the `Points` slice header and the embedded colour (the package only ever
stores `color.RGBA` values in it). -/
structure Polygon where
  Points : Slice
  Color : RGBA
deriving DecidableEq, Repr

/-- The mutable state: the backing arrays of all point slices, the next unused array identifier
and the cursor of the random source. -/
structure St where
  cells : Nat → Nat → Point
  next : Nat
  pos : Nat

/-- What the program does not determine itself: the random stream, the surplus capacity the
run time gives a grown slice (old capacity, needed length), the helper `RandomInt`, which
`polygon.go` calls but does not define (lower bound, upper bound, raw draw), and the largest
byte length for which `make([]uint8, n)` succeeds in this run (available memory). -/
structure Env where
  rnd : Nat → Nat
  slack : Nat → Nat → Nat
  RandomInt : Int → Int → Nat → Int
  maxAlloc : Nat

/-- One call recorded on the draw2d graphic context. -/
inductive GcCall where
  | SetLineWidth (w : Nat)
  | SetStrokeColor (c : RGBA)
  | SetFillColor (c : RGBA)
  | MoveTo (x y : Int)
  | LineTo (x y : Int)
  | Close
  | FillStroke
deriving DecidableEq, Repr

/-- The rendered image, represented by what determines it: the rectangle `(0,0)-(w,h)` and the
sequence of calls made on its graphic context. -/
structure Image where
  w : Int
  h : Int
  calls : List GcCall
deriving DecidableEq, Repr

structure Candidate where
  w : Int
  h : Int
  Polygons : List Polygon
  Fitness : Int
  img : Option Image
deriving DecidableEq, Repr

/-! ## Slices and the store -/

/-- The points a slice header denotes in a state. -/
def St.view (s : St) (sl : Slice) : List Point :=
  (List.range sl.len).map (fun i => s.cells sl.arr (sl.off + i))

/-- Write the values `vs` into array `a` from cell `start` on. -/
def St.store (s : St) (a start : Nat) (vs : List Point) : St :=
  { s with cells := fun b j =>
      if b = a ∧ start ≤ j then
        match vs[j - start]? with
        | some v => v
        | none => s.cells b j
      else s.cells b j }

/-- The expression `sl[i]`. -/
def St.index (s : St) (sl : Slice) (i : Nat) : Except Panic Point :=
  if i < sl.len then .ok (s.cells sl.arr (sl.off + i)) else .error .indexOutOfRange

/-- The statement `sl[i] = v`. -/
def St.assign (s : St) (sl : Slice) (i : Nat) (v : Point) : Except Panic St :=
  if i < sl.len then .ok (s.store sl.arr (sl.off + i) [v]) else .error .indexOutOfRange

/-- The built-in `append(dst, src...)`, with `src` already read: in place when the capacity
suffices, into a fresh backing array otherwise. -/
def goAppend (env : Env) (dst : Slice) (src : List Point) (s : St) : Slice × St :=
  let need := dst.len + src.length
  if need ≤ dst.cap then
    ({ dst with len := need }, s.store dst.arr (dst.off + dst.len) src)
  else
    let s1 := s.store s.next 0 (s.view dst ++ src)
    ({ arr := s.next, off := 0, len := need, cap := need + env.slack dst.cap need },
     { s1 with next := s.next + 1 })

/-! ## The random source -/

/-- Consume one raw draw. -/
def St.advance (s : St) : St := { s with pos := s.pos + 1 }

/-- The call `rand.Intn(n)`: panics for `n <= 0`, otherwise a value in `[0, n)`. -/
def Intn (env : Env) (n : Int) (s : St) : Except Panic (Nat × St) :=
  if n ≤ 0 then .error .intnNonPositive
  else .ok (env.rnd s.pos % n.toNat, s.advance)

/-- The call `rand.Int()`: a non-negative 63-bit integer. -/
def randInt (env : Env) (s : St) : Nat × St :=
  (env.rnd s.pos % 2 ^ 63, s.advance)

/-- The function `shouldMutate`, `rand.Float32() < MutationChance`.  The value of
`rand.Float32()` in `[0, 1)` is read off the raw draw as the fraction `k / 2^24` with
`k = draw mod 2^24` (the resolution of a float32 mantissa), and the comparison with
`MutationChance = 0.15 = 15/100` is made exactly, by cross-multiplication. -/
def shouldMutate (env : Env) (s : St) : Bool × St :=
  (decide ((env.rnd s.pos % 2 ^ 24) * 100 < 15 * 2 ^ 24), s.advance)

def randomMutation (env : Env) (s : St) : Except Panic (Nat × St) :=
  let (r, s1) := randInt env s
  match Mutations[r % Mutations.length]? with
  | some k => .ok (k, s1)
  | none => .error .indexOutOfRange

/-! ## Colours (package `image/color`)

`MutateColor` calls `color.NRGBAModel.Convert` and `color.RGBAModel.Convert` of the Go standard
library; they are transcribed here for the dynamic types that occur (`color.RGBA` as input of the
first, `color.NRGBA` as input of the second), with `uint32` arithmetic as `Nat` modulo `2^32`.
-/

/-- The 16-bit widening `r |= r << 8` on `uint32`. -/
def widen (x : Nat) : Nat := (x ||| (x <<< 8)) % 2 ^ 32

/-- The conversion `uint8(x >> 8)`. -/
def hiByte (x : Nat) : Nat := (x >>> 8) % 256

/-- The method `color.RGBA.RGBA`. -/
def RGBA.RGBA (c : RGBA) : Nat × Nat × Nat × Nat :=
  (widen c.R, widen c.G, widen c.B, widen c.A)

/-- The method `color.NRGBA.RGBA`. -/
def NRGBA.RGBA (c : NRGBA) : Nat × Nat × Nat × Nat :=
  (widen c.R * c.A % 2 ^ 32 / 0xff, widen c.G * c.A % 2 ^ 32 / 0xff,
   widen c.B * c.A % 2 ^ 32 / 0xff, widen c.A)

/-- The conversion `color.NRGBAModel.Convert` applied to a `color.RGBA`. -/
def nrgbaModel (c : RGBA) : NRGBA :=
  match c.RGBA with
  | (r, g, b, a) =>
    if a = 0xffff then ⟨hiByte r, hiByte g, hiByte b, 0xff⟩
    else if a = 0 then ⟨0, 0, 0, 0⟩
    else
      ⟨hiByte (r * 0xffff % 2 ^ 32 / a), hiByte (g * 0xffff % 2 ^ 32 / a),
       hiByte (b * 0xffff % 2 ^ 32 / a), hiByte a⟩

/-- The conversion `color.RGBAModel.Convert` applied to a `color.NRGBA`. -/
def rgbaModel (c : NRGBA) : RGBA :=
  match c.RGBA with
  | (r, g, b, a) => ⟨hiByte r, hiByte g, hiByte b, hiByte a⟩

/-- The `switch i` of `MutateColor`: overwrite one field of the non-premultiplied value. -/
def setChannel (n : NRGBA) (i val : Nat) : NRGBA :=
  match i with
  | 0 => { n with R := val }
  | 1 => { n with G := val }
  | 2 => { n with B := val }
  | 3 => { n with A := val }
  | _ => n

/-- The body of `MutateColor` once the channel selector `i` and the replacement byte `val` are
drawn. -/
def MutateColorWith (c : RGBA) (i val : Nat) : RGBA :=
  rgbaModel (setChannel (nrgbaModel c) i val)

def MutateColor (env : Env) (c : RGBA) (s : St) : Except Panic (RGBA × St) :=
  match Intn env 4 s with
  | .error e => .error e
  | .ok (i, s1) =>
    match Intn env 256 s1 with
    | .error e => .error e
    | .ok (v, s2) => .ok (MutateColorWith c i (v % 256), s2)

/-! ## Points and polygons -/

/-- The function `RandomPoint`: the two draws are made left to right. -/
def RandomPoint (env : Env) (maxW maxH : Int) (s : St) : Except Panic (Point × St) :=
  match Intn env maxW s with
  | .error e => .error e
  | .ok (x, s1) =>
    match Intn env maxH s1 with
    | .error e => .error e
    | .ok (y, s2) => .ok (⟨(x : Int), (y : Int)⟩, s2)

/-- The method `AddPoint`: `p.Points = append(p.Points, point)`. -/
def AddPoint (env : Env) (p : Polygon) (point : Point) (s : St) : Polygon × St :=
  let (sl, s1) := goAppend env p.Points [point] s
  ({ p with Points := sl }, s1)

/-- The method `DeleteRandomPoint`: `p.Points = append(p.Points[:i], p.Points[i+1:]...)`.
The source operand `p.Points[i+1:]` is read before the destination is written (the run time
copies with memmove). -/
def DeleteRandomPoint (env : Env) (p : Polygon) (s : St) : Except Panic (Polygon × St) :=
  match Intn env (p.Points.len : Int) s with
  | .error e => .error e
  | .ok (i, s1) =>
    if i + 1 ≤ p.Points.len then
      let dst : Slice := { p.Points with len := i }
      let src : Slice :=
        { arr := p.Points.arr, off := p.Points.off + (i + 1), len := p.Points.len - (i + 1),
          cap := p.Points.cap - (i + 1) }
      let (sl, s2) := goAppend env dst (s1.view src) s1
      .ok ({ p with Points := sl }, s2)
    else .error .indexOutOfRange

/-- The function `MutatePoint`, which works on a copy of `p`. -/
def MutatePoint (env : Env) (p : Point) (maxW maxH : Int) (s : St) : Except Panic (Point × St) :=
  match Intn env 2 s with
  | .error e => .error e
  | .ok (i, s1) =>
    match i with
    | 0 =>
      match Intn env maxW s1 with
      | .error e => .error e
      | .ok (x, s2) => .ok ({ p with X := (x : Int) }, s2)
    | 1 =>
      match Intn env maxH s1 with
      | .error e => .error e
      | .ok (y, s2) => .ok ({ p with Y := (y : Int) }, s2)
    | _ => .ok (p, s1)

/-- The `MutationColor` case of `Mutate`. -/
def mutateColorCase (env : Env) (p : Polygon) (s : St) : Except Panic (Polygon × St) :=
  match MutateColor env p.Color s with
  | .error e => .error e
  | .ok (c, s1) => .ok ({ p with Color := c }, s1)

/-- The `MutationPoint` case of `Mutate`. -/
def mutatePointCase (env : Env) (p : Polygon) (maxW maxH : Int) (s : St) :
    Except Panic (Polygon × St) :=
  match Intn env (p.Points.len : Int) s with
  | .error e => .error e
  | .ok (i, s1) =>
    match s1.index p.Points i with
    | .error e => .error e
    | .ok orig =>
      match MutatePoint env orig maxW maxH s1 with
      | .error e => .error e
      | .ok (mutated, s2) =>
        match s2.assign p.Points i mutated with
        | .error e => .error e
        | .ok s3 => .ok (p, s3)

/-- The statement `p.AddPoint(RandomPoint(maxW, maxH))`. -/
def addRandomPoint (env : Env) (p : Polygon) (maxW maxH : Int) (s : St) :
    Except Panic (Polygon × St) :=
  match RandomPoint env maxW maxH s with
  | .error e => .error e
  | .ok (q, s1) => .ok (AddPoint env p q s1)

/-- The `MutationAddOrDeletePoint` case of `Mutate`. -/
def mutateAddOrDeleteCase (env : Env) (p : Polygon) (maxW maxH : Int) (s : St) :
    Except Panic (Polygon × St) :=
  if p.Points.len = MinPolygonPoints then
    addRandomPoint env p maxW maxH s
  else if p.Points.len = MaxPolygonPoints then
    DeleteRandomPoint env p s
  else
    match Intn env 2 s with
    | .error e => .error e
    | .ok (c, s1) =>
      match c with
      | 0 => addRandomPoint env p maxW maxH s1
      | 1 => DeleteRandomPoint env p s1
      | _ => .ok (p, s1)

/-- The method `Mutate`: the receiver is passed in and the updated polygon struct returned.
A kind outside the three cases falls through the `switch` without effect. -/
def Mutate (env : Env) (p : Polygon) (maxW maxH : Int) (s : St) : Except Panic (Polygon × St) :=
  match randomMutation env s with
  | .error e => .error e
  | .ok (k, s1) =>
    match k with
    | 0 => mutateColorCase env p s1
    | 1 => mutatePointCase env p maxW maxH s1
    | 2 => mutateAddOrDeleteCase env p maxW maxH s1
    | _ => .ok (p, s1)

/-- Repeated calls `p.Mutate(maxW, maxH)`, `n` times in a row on the same polygon. -/
def mutateTimes (env : Env) (maxW maxH : Int) : Nat → Polygon → St → Except Panic (Polygon × St)
  | 0, p, s => .ok (p, s)
  | n + 1, p, s =>
    match Mutate env p maxW maxH s with
    | .error e => .error e
    | .ok (p1, s1) => mutateTimes env maxW maxH n p1 s1

/-- The loop `for i := 0; i < numPoints; i++ { result.AddPoint(RandomPoint(maxW, maxH)) }`,
with `n` iterations left. -/
def addRandomPoints (env : Env) (maxW maxH : Int) : Nat → Polygon → St → Except Panic (Polygon × St)
  | 0, p, s => .ok (p, s)
  | n + 1, p, s =>
    match addRandomPoint env p maxW maxH s with
    | .error e => .error e
    | .ok (p1, s1) => addRandomPoints env maxW maxH n p1 s1

/-- The four draws `uint8(rand.Intn(0xff))` of `RandomPolygon`, left to right. -/
def randomColor (env : Env) (s : St) : Except Panic (RGBA × St) :=
  match Intn env 0xff s with
  | .error e => .error e
  | .ok (r, s1) =>
    match Intn env 0xff s1 with
    | .error e => .error e
    | .ok (g, s2) =>
      match Intn env 0xff s2 with
      | .error e => .error e
      | .ok (b, s3) =>
        match Intn env 0xff s3 with
        | .error e => .error e
        | .ok (a, s4) => .ok (⟨r % 256, g % 256, b % 256, a % 256⟩, s4)

/-- The function `RandomPolygon`.  The result starts as `&Polygon{}`, whose `Points` is the
nil slice (length and capacity zero). -/
def RandomPolygon (env : Env) (maxW maxH : Int) (s : St) : Except Panic (Polygon × St) :=
  match randomColor env s with
  | .error e => .error e
  | .ok (c, s1) =>
    let numPoints := env.RandomInt MinPolygonPoints MaxPolygonPoints (env.rnd s1.pos)
    addRandomPoints env maxW maxH numPoints.toNat ⟨⟨0, 0, 0, 0⟩, c⟩ s1.advance

/-! ## Rendering -/

/-- The calls `RenderImage` makes for one polygon; `polygon.Points[0]` panics on an empty point
sequence. -/
def renderPolygon (s : St) (polygon : Polygon) : Except Panic (List GcCall) :=
  match s.index polygon.Points 0 with
  | .error e => .error e
  | .ok firstPoint =>
    .ok ([GcCall.SetStrokeColor polygon.Color, GcCall.SetFillColor polygon.Color,
          GcCall.MoveTo firstPoint.X firstPoint.Y]
         ++ ((s.view polygon.Points).drop 1).map (fun point => GcCall.LineTo point.X point.Y)
         ++ [GcCall.Close, GcCall.FillStroke])

/-- The loop `for _, polygon := range cd.Polygons` of `RenderImage`. -/
def renderPolygons (s : St) : List Polygon → Except Panic (List GcCall)
  | [] => .ok []
  | polygon :: rest =>
    match renderPolygon s polygon with
    | .error e => .error e
    | .ok calls =>
      match renderPolygons s rest with
      | .error e => .error e
      | .ok more => .ok (calls ++ more)

/-- The byte length of the pixel buffer of `image.NewRGBA(image.Rect(0, 0, w, h))`: four bytes
per pixel of the rectangle, whose corners `image.Rect` puts in order, so that its sides are
`|w|` and `|h|`. -/
def pixelBytes (w h : Int) : Nat := 4 * w.natAbs * h.natAbs

/-- The call `image.NewRGBA(image.Rect(0, 0, w, h))` succeeds: the byte length fits an `int`
(otherwise the library panics, "Rectangle has huge or negative dimensions"), it is within the
run time's limit for `make` on 64-bit platforms (`2^48` bytes, otherwise "makeslice: len out of
range"), and within what this run can allocate. -/
def newRGBAok (env : Env) (w h : Int) : Prop :=
  pixelBytes w h < 2 ^ 63 ∧ pixelBytes w h ≤ 2 ^ 48 ∧ pixelBytes w h ≤ env.maxAlloc

instance (env : Env) (w h : Int) : Decidable (newRGBAok env w h) := by
  unfold newRGBAok
  infer_instance

/-- The method `RenderImage`: returns the candidate with its `img` field set.  The buffer is
allocated first, `cd.img = image.NewRGBA(image.Rect(0, 0, cd.w, cd.h))`, which can fail; then
the polygons are drawn. -/
def RenderImage (env : Env) (s : St) (cd : Candidate) : Except Panic Candidate :=
  if newRGBAok env cd.w cd.h then
    match renderPolygons s cd.Polygons with
    | .error e => .error e
    | .ok calls => .ok { cd with img := some ⟨cd.w, cd.h, GcCall.SetLineWidth 1 :: calls⟩ }
  else .error .newRGBA

/-! ## Candidates -/

/-- The loop of `RandomCandidate` with `n` polygons left to build. -/
def randomPolygons (env : Env) (w h : Int) : Nat → St → Except Panic (List Polygon × St)
  | 0, s => .ok ([], s)
  | n + 1, s =>
    match RandomPolygon env w h s with
    | .error e => .error e
    | .ok (p, s1) =>
      match randomPolygons env w h n s1 with
      | .error e => .error e
      | .ok (ps, s2) => .ok (p :: ps, s2)

/-- The function `RandomCandidate`; the `Fitness` field keeps its zero value. -/
def RandomCandidate (env : Env) (w h : Int) (s : St) : Except Panic (Candidate × St) :=
  match randomPolygons env w h PolygonsPerIndividual s with
  | .error e => .error e
  | .ok (ps, s1) =>
    match RenderImage env s1 ⟨w, h, ps, 0, none⟩ with
    | .error e => .error e
    | .ok cd => .ok (cd, s1)

/-- The polygon the loop of `Mate` copies at index `i`: `*m1.Polygons[i]` if `i <= crossover`,
else `*m2.Polygons[i]`; `none` when that index is out of range. -/
def mateSource (m1 m2 : Candidate) (crossover : Nat) (i : Nat) : Option Polygon :=
  if i ≤ crossover then m1.Polygons[i]? else m2.Polygons[i]?

/-- One iteration of the loop of `Mate` at index `i`: the copied and possibly mutated polygon,
together with the value `shouldMutate()` returned in this iteration. -/
def mateStep (env : Env) (m1 m2 : Candidate) (crossover : Nat) (i : Nat) (s : St) :
    Except Panic ((Bool × Polygon) × St) :=
  match mateSource m1 m2 crossover i with
  | none => .error .indexOutOfRange
  | some p =>
    match shouldMutate env s with
    | (true, s1) =>
      match Mutate env p m1.w m1.h s1 with
      | .error e => .error e
      | .ok (p1, s2) => .ok ((true, p1), s2)
    | (false, s1) => .ok ((false, p), s1)

/-- The loop `for i := 0; i < len(polygons); i++` of `Mate`, from index `i` with `n` iterations
left. -/
def mateLoop (env : Env) (m1 m2 : Candidate) (crossover : Nat) :
    Nat → Nat → St → Except Panic (List (Bool × Polygon) × St)
  | 0, _, s => .ok ([], s)
  | n + 1, i, s =>
    match mateStep env m1 m2 crossover i s with
    | .error e => .error e
    | .ok (bp, s1) =>
      match mateLoop env m1 m2 crossover n (i + 1) s1 with
      | .error e => .error e
      | .ok (rest, s2) => .ok (bp :: rest, s2)

/-- The method `Mate`, also returning for every index whether a mutation event fired there. -/
def MateTraced (env : Env) (m1 m2 : Candidate) (s : St) :
    Except Panic ((Candidate × List Bool) × St) :=
  match Intn env (m1.Polygons.length : Int) s with
  | .error e => .error e
  | .ok (crossover, s1) =>
    match mateLoop env m1 m2 crossover m1.Polygons.length 0 s1 with
    | .error e => .error e
    | .ok (bps, s2) =>
      match RenderImage env s2 ⟨m1.w, m1.h, bps.map Prod.snd, 0, none⟩ with
      | .error e => .error e
      | .ok result => .ok ((result, bps.map Prod.fst), s2)

/-- The method `Mate`: `m1.Mate(m2)`. -/
def Mate (env : Env) (m1 m2 : Candidate) (s : St) : Except Panic (Candidate × St) :=
  match MateTraced env m1 m2 s with
  | .error e => .error e
  | .ok ((result, _), s1) => .ok (result, s1)

/-! ## Population ranking -/

/-- The method `ByFitness.Len`. -/
def ByFitness.Len (cds : List Candidate) : Nat := cds.length

/-- The method `ByFitness.Less`; an index out of range panics. -/
def ByFitness.Less (cds : List Candidate) (i j : Nat) : Except Panic Bool :=
  match cds[i]?, cds[j]? with
  | some a, some b => .ok (decide (a.Fitness < b.Fitness))
  | _, _ => .error .indexOutOfRange

/-- The method `ByFitness.Swap`; an index out of range panics. -/
def ByFitness.Swap (cds : List Candidate) (i j : Nat) : Except Panic (List Candidate) :=
  match cds[i]?, cds[j]? with
  | some a, some b => .ok ((cds.set i b).set j a)
  | _, _ => .error .indexOutOfRange

/-! ## Auxiliary definitions used in the statements -/

/-- The slice header and state `DeleteRandomPoint` leaves when it removes index `i`. -/
def deleteAt (env : Env) (p : Polygon) (i : Nat) (s : St) : Polygon × St :=
  let r := goAppend env { p.Points with len := i }
    (s.view ⟨p.Points.arr, p.Points.off + (i + 1), p.Points.len - (i + 1),
      p.Points.cap - (i + 1)⟩) s
  ({ p with Points := r.1 }, r.2)

/-- Going from `s` to `t` writes no cell of an array that existed in `s` other than `arr`, and
frees no array identifier. -/
def Frame (arr : Nat) (s t : St) : Prop :=
  s.next ≤ t.next ∧ ∀ a j, a ≠ arr → a < s.next → t.cells a j = s.cells a j

/-- Channel `i` of a premultiplied colour: 0 is R, 1 is G, 2 is B, anything else A. -/
def RGBA.channel (c : Polygen.RGBA) (i : Nat) : Nat :=
  match i with
  | 0 => c.R
  | 1 => c.G
  | 2 => c.B
  | _ => c.A

/-- Channel `i` of a non-premultiplied colour: 0 is R, 1 is G, 2 is B, anything else A. -/
def NRGBA.channel (c : NRGBA) (i : Nat) : Nat :=
  match i with
  | 0 => c.R
  | 1 => c.G
  | 2 => c.B
  | _ => c.A

/-- In how many of the four channels two colours differ. -/
def channelsChanged (c d : RGBA) : Nat :=
  (if c.R = d.R then 0 else 1) + (if c.G = d.G then 0 else 1) + (if c.B = d.B then 0 else 1)
    + (if c.A = d.A then 0 else 1)

/-- The fitness values of a population, in order. -/
def fitnesses (cds : List Candidate) : List Int := cds.map (fun cd => cd.Fitness)

/-- No later element of the population is `Less` than an earlier one. -/
def Ranked (cds : List Candidate) : Prop :=
  ∀ j, j < cds.length → ∀ i, i < j → ByFitness.Less cds j i = .ok false

/-- A candidate without polygons that has the given fitness. -/
def withFitness (f : Int) : Candidate := ⟨1, 1, [], f, none⟩

/-! ## Concrete inputs used to evaluate the program -/

/-- A random source that replays the listed raw draws and then yields zeros; grown slices get no
surplus capacity; `RandomInt lo hi` is `lo + draw mod (hi - lo + 1)`; buffers of up to `2^26`
bytes (64 MiB) can be allocated. -/
def replay (draws : List Nat) : Env :=
  { rnd := fun n => draws.getD n 0
    slack := fun _ _ => 0
    RandomInt := fun lo hi r => lo + (r : Int) % (hi - lo + 1)
    maxAlloc := 2 ^ 26 }

/-- A store with four backing arrays: array 0 holds (1,1) (2,2) (3,3) (4,4), array 1 holds
(5,5) (6,6) (7,7) (8,8), array 2 holds (9,9) to (12,12), array 3 holds (13,13) to (16,16). -/
def fourArrays : St :=
  { cells := fun a j => ⟨4 * (a : Int) + (j : Int) + 1, 4 * (a : Int) + (j : Int) + 1⟩
    next := 4
    pos := 0 }

/-- A triangle on the first three cells of array 0. -/
def triangleA : Polygon := ⟨⟨0, 0, 3, 4⟩, ⟨10, 20, 30, 255⟩⟩

/-- A quadrilateral on array 1. -/
def quadB : Polygon := ⟨⟨1, 0, 4, 4⟩, ⟨40, 50, 60, 200⟩⟩

/-- A quadrilateral on array 0. -/
def quadA : Polygon := ⟨⟨0, 0, 4, 4⟩, ⟨10, 20, 30, 255⟩⟩

/-- A parent of size 10 x 10 with the single polygon `triangleA`. -/
def parentA : Candidate := ⟨10, 10, [triangleA], 0, none⟩

/-- A parent of size 10 x 10 with the single polygon `quadB`. -/
def parentB : Candidate := ⟨10, 10, [quadB], 0, none⟩

/-- A parent of size 10 x 10 with the single polygon `quadA`. -/
def parentA4 : Candidate := ⟨10, 10, [quadA], 0, none⟩

/-- A triangle on the first three cells of array 2. -/
def triangleC : Polygon := ⟨⟨2, 0, 3, 4⟩, ⟨1, 2, 3, 4⟩⟩

/-- A quadrilateral on array 3. -/
def quadD : Polygon := ⟨⟨3, 0, 4, 4⟩, ⟨0, 0, 0, 0⟩⟩

/-- A parent of size 10 x 10 with the polygons `triangleA` and `triangleC`. -/
def parentAC : Candidate := ⟨10, 10, [triangleA, triangleC], 0, none⟩

/-- A parent of size 10 x 10 with the polygons `quadB` and `quadD`. -/
def parentBD : Candidate := ⟨10, 10, [quadB, quadD], 0, none⟩

/-- The value a run returned, or `d` if it panicked. -/
def returned {α : Type} (run : Except Panic α) (d : α) : α :=
  match run with
  | .ok r => r
  | .error _ => d

/-- A run of `parentAC.Mate(parentBD)`: crossover 0, a colour mutation (channel G, byte 77) at
index 0, no mutation at index 1. -/
def mateRun : (Candidate × List Bool) × St :=
  returned (MateTraced (replay [0, 0, 0, 1, 77, 16777215]) parentAC parentBD fourArrays)
    ((⟨0, 0, [], 0, none⟩, []), fourArrays)

/-- A parent of size 20 x 30 with the single polygon `quadB`. -/
def parentWide : Candidate := ⟨20, 30, [quadB], 0, none⟩

/-- A population whose fitness values are 1, 3, 5. -/
def rankedThree : List Candidate := [withFitness 1, withFitness 3, withFitness 5]

/-- A run of `RandomPolygon(10, 10)` whose four colour draws are all 255. -/
def polygonRun : Polygon × St :=
  returned (RandomPolygon (replay [255, 255, 255, 255, 0, 1, 2, 3, 4, 5, 6]) 10 10 fourArrays)
    (triangleA, fourArrays)

/-- The points of polygon `p` as seen after running `run`, or the empty list if it panicked. -/
def pointsAfter {α : Type} (run : Except Panic (α × St)) (p : Polygon) : List Point :=
  match run with
  | .ok (_, s) => s.view p.Points
  | .error _ => []

/-- The point lies in `[0, maxW) x [0, maxH)`. -/
def inBounds (maxW maxH : Int) (q : Point) : Prop :=
  0 ≤ q.X ∧ q.X < maxW ∧ 0 ≤ q.Y ∧ q.Y < maxH

instance (maxW maxH : Int) (q : Point) : Decidable (inBounds maxW maxH q) := by
  unfold inBounds
  infer_instance

/-- The commands the specification lists for one polygon of colour `c` whose points are `first`
followed by `rest`: both colours, `MoveTo` the first point, `LineTo` each remaining point, then
`Close` and `FillStroke`. -/
def polygonCommands (c : RGBA) (first : Point) (rest : List Point) : List GcCall :=
  [GcCall.SetStrokeColor c, GcCall.SetFillColor c, GcCall.MoveTo first.X first.Y]
    ++ rest.map (fun q => GcCall.LineTo q.X q.Y) ++ [GcCall.Close, GcCall.FillStroke]

/-- The commands the specification lists for a sequence of polygons given by colour and points,
in order; a polygon without points has no entry. -/
def commandsOf : List (RGBA × List Point) → List GcCall
  | [] => []
  | (_, []) :: more => commandsOf more
  | (c, first :: rest) :: more => polygonCommands c first rest ++ commandsOf more

/-- A polygon sequence by value: colour and points of each polygon, in order. -/
def contents (s : St) (ps : List Polygon) : List (RGBA × List Point) :=
  ps.map (fun p => (p.Color, s.view p.Points))

/-- A candidate of size 10 x 10 whose single polygon has the one point (13,13). -/
def onePointCandidate : Candidate := ⟨10, 10, [⟨⟨3, 0, 1, 4⟩, ⟨9, 8, 7, 255⟩⟩], 0, none⟩

/-- A candidate of size 10 x 10 whose second polygon has no points. -/
def emptyPolygonCandidate : Candidate := ⟨10, 10, [triangleA, ⟨⟨1, 0, 0, 4⟩, ⟨9, 8, 7, 255⟩⟩], 0, none⟩

/-- A run of `parentAC.Mate(parentBD)` with crossover 0 and no mutation at either index. -/
def plainRun : (Candidate × List Bool) × St :=
  returned (MateTraced (replay [0, 16777215, 16777215]) parentAC parentBD fourArrays)
    ((⟨0, 0, [], 0, none⟩, []), fourArrays)

/-- The side 2^40 of an image whose pixel buffer would need 2^82 bytes. -/
def hugeSide : Int := 1099511627776

/-- A candidate of size 2^40 x 2^40 with the single polygon `triangleA`. -/
def hugeTriangle : Candidate := ⟨hugeSide, hugeSide, [triangleA], 0, none⟩

/-- A candidate of size 2^40 x 2^40 with the single polygon `quadB`. -/
def hugeQuad : Candidate := ⟨hugeSide, hugeSide, [quadB], 0, none⟩

/-- A candidate of size 2^40 x 2^40 whose second polygon has no points. -/
def hugeEmpty : Candidate :=
  ⟨hugeSide, hugeSide, [triangleA, ⟨⟨1, 0, 0, 4⟩, ⟨9, 8, 7, 255⟩⟩], 0, none⟩

/-- A candidate of size 10 x 10 without polygons. -/
def noPolygons : Candidate := ⟨10, 10, [], 0, none⟩

/-! ## Basic facts about the random source and the store -/

theorem Intn_pos (env : Env) (n : Int) (s : St) (h : 0 < n) :
    Intn env n s = .ok (env.rnd s.pos % n.toNat, s.advance) := by
  unfold Intn
  rw [if_neg (by omega)]

theorem Intn_nonpos (env : Env) (n : Int) (s : St) (h : n ≤ 0) :
    Intn env n s = .error .intnNonPositive := by
  unfold Intn
  rw [if_pos h]

theorem Intn_len (env : Env) (n : Nat) (s : St) (h : 0 < n) :
    Intn env (n : Int) s = .ok (env.rnd s.pos % n, s.advance) := by
  rw [Intn_pos env _ s (by exact_mod_cast h)]
  simp

theorem randomMutation_eq (env : Env) (s : St) :
    randomMutation env s = .ok (env.rnd s.pos % 2 ^ 63 % 3, s.advance) := by
  unfold randomMutation randInt
  have h3 : Mutations.length = 3 := rfl
  simp only [h3]
  have h : env.rnd s.pos % 2 ^ 63 % 3 = 0 ∨ env.rnd s.pos % 2 ^ 63 % 3 = 1
      ∨ env.rnd s.pos % 2 ^ 63 % 3 = 2 := by omega
  rcases h with h | h | h <;> rw [h] <;> rfl

theorem view_length (s : St) (sl : Slice) : (s.view sl).length = sl.len := by
  simp [St.view]

theorem goAppend_len (env : Env) (dst : Slice) (src : List Point) (s : St) :
    (goAppend env dst src s).1.len = dst.len + src.length := by
  unfold goAppend
  by_cases h : dst.len + src.length ≤ dst.cap <;> simp [h]

theorem AddPoint_len (env : Env) (p : Polygon) (q : Point) (s : St) :
    (AddPoint env p q s).1.Points.len = p.Points.len + 1 := by
  simp [AddPoint, goAppend_len]

theorem AddPoint_Color (env : Env) (p : Polygon) (q : Point) (s : St) :
    (AddPoint env p q s).1.Color = p.Color := by
  simp [AddPoint]

theorem RandomPoint_eq (env : Env) (maxW maxH : Int) (s : St) (hW : 0 < maxW) (hH : 0 < maxH) :
    RandomPoint env maxW maxH s
      = .ok (⟨((env.rnd s.pos % maxW.toNat : Nat) : Int),
              ((env.rnd (s.pos + 1) % maxH.toNat : Nat) : Int)⟩, s.advance.advance) := by
  unfold RandomPoint
  rw [Intn_pos env maxW s hW]
  simp only
  rw [Intn_pos env maxH _ hH]
  rfl

theorem addRandomPoint_eq (env : Env) (p : Polygon) (maxW maxH : Int) (s : St)
    (hW : 0 < maxW) (hH : 0 < maxH) :
    addRandomPoint env p maxW maxH s
      = .ok (AddPoint env p ⟨((env.rnd s.pos % maxW.toNat : Nat) : Int),
              ((env.rnd (s.pos + 1) % maxH.toNat : Nat) : Int)⟩ s.advance.advance) := by
  unfold addRandomPoint
  rw [RandomPoint_eq env maxW maxH s hW hH]

theorem DeleteRandomPoint_eq (env : Env) (p : Polygon) (s : St) (h : 0 < p.Points.len) :
    DeleteRandomPoint env p s
      = .ok (deleteAt env p (env.rnd s.pos % p.Points.len) s.advance) := by
  unfold DeleteRandomPoint
  rw [Intn_len env _ s h]
  have hi : env.rnd s.pos % p.Points.len < p.Points.len := Nat.mod_lt _ h
  simp only
  rw [if_pos (by omega)]
  rfl

theorem deleteAt_len (env : Env) (p : Polygon) (i : Nat) (s : St) (h : i < p.Points.len) :
    (deleteAt env p i s).1.Points.len + 1 = p.Points.len := by
  simp only [deleteAt, goAppend_len, view_length]
  omega

theorem deleteAt_Color (env : Env) (p : Polygon) (i : Nat) (s : St) :
    (deleteAt env p i s).1.Color = p.Color := by
  simp [deleteAt]

theorem Intn_two (env : Env) (s : St) :
    Intn env 2 s = .ok (env.rnd s.pos % 2, s.advance) := by
  rw [Intn_pos env 2 s (by norm_num)]
  rfl

/-- The point `MutatePoint` returns for axis draw `a` and coordinate draw `v`. -/
theorem MutatePoint_eq (env : Env) (p : Point) (maxW maxH : Int) (s : St)
    (hW : 0 < maxW) (hH : 0 < maxH) :
    MutatePoint env p maxW maxH s
      = .ok (if env.rnd s.pos % 2 = 0
              then { p with X := ((env.rnd (s.pos + 1) % maxW.toNat : Nat) : Int) }
              else { p with Y := ((env.rnd (s.pos + 1) % maxH.toNat : Nat) : Int) },
             s.advance.advance) := by
  unfold MutatePoint
  rw [Intn_two]
  have h : env.rnd s.pos % 2 = 0 ∨ env.rnd s.pos % 2 = 1 := by omega
  rcases h with h | h
  · rw [h]
    simp only
    rw [Intn_pos env maxW _ hW]
    rfl
  · rw [h]
    simp only
    rw [Intn_pos env maxH _ hH]
    rfl

theorem MutateColor_eq (env : Env) (c : RGBA) (s : St) :
    MutateColor env c s
      = .ok (MutateColorWith c (env.rnd s.pos % 4) (env.rnd (s.pos + 1) % 256 % 256),
             s.advance.advance) := by
  unfold MutateColor
  rw [Intn_pos env 4 s (by norm_num)]
  simp only
  rw [Intn_pos env 256 _ (by norm_num)]
  rfl

theorem mutateColorCase_eq (env : Env) (p : Polygon) (s : St) :
    mutateColorCase env p s
      = .ok (⟨p.Points, MutateColorWith p.Color (env.rnd s.pos % 4)
                (env.rnd (s.pos + 1) % 256 % 256)⟩, s.advance.advance) := by
  unfold mutateColorCase
  rw [MutateColor_eq]

theorem mutatePointCase_eq (env : Env) (p : Polygon) (maxW maxH : Int) (s : St)
    (hn : 0 < p.Points.len) (hW : 0 < maxW) (hH : 0 < maxH) :
    ∃ q, mutatePointCase env p maxW maxH s
      = .ok (p, s.advance.advance.advance.store p.Points.arr
              (p.Points.off + env.rnd s.pos % p.Points.len) [q])
      ∧ MutatePoint env (s.cells p.Points.arr (p.Points.off + env.rnd s.pos % p.Points.len))
          maxW maxH s.advance = .ok (q, s.advance.advance.advance) := by
  unfold mutatePointCase
  rw [Intn_len env _ s hn]
  have hi : env.rnd s.pos % p.Points.len < p.Points.len := Nat.mod_lt _ hn
  simp only [St.index, if_pos hi]
  rw [MutatePoint_eq env _ maxW maxH _ hW hH]
  simp only [St.assign, if_pos hi]
  refine ⟨_, rfl, ?_⟩
  rw [MutatePoint_eq env _ maxW maxH _ hW hH]
  rfl

@[simp] theorem advance_cells (s : St) : s.advance.cells = s.cells := rfl

@[simp] theorem advance_next (s : St) : s.advance.next = s.next := rfl

@[simp] theorem advance_pos (s : St) : s.advance.pos = s.pos + 1 := rfl

theorem toNat_mod_lt (r : Nat) (m : Int) (h : 0 < m) : ((r % m.toNat : Nat) : Int) < m := by
  have h1 : r % m.toNat < m.toNat := Nat.mod_lt _ (by omega)
  omega

/-- What the add-or-delete case does on a polygon with at least 3 points: it appends one in-bounds
point (never at 6 points) or removes one index (never at 3 points). -/
theorem mutateAddOrDeleteCase_outcome (env : Env) (p : Polygon) (maxW maxH : Int) (s : St)
    (hlo : MinPolygonPoints ≤ p.Points.len) (hW : 0 < maxW) (hH : 0 < maxH) :
    ∃ r : Polygon × St, mutateAddOrDeleteCase env p maxW maxH s = .ok r ∧
      ((p.Points.len ≠ MaxPolygonPoints ∧ ∃ q s0, 0 ≤ q.X ∧ q.X < maxW ∧ 0 ≤ q.Y ∧ q.Y < maxH ∧
          s0.cells = s.cells ∧ s0.next = s.next ∧ r = AddPoint env p q s0) ∨
       (p.Points.len ≠ MinPolygonPoints ∧ ∃ i s0, i < p.Points.len ∧
          s0.cells = s.cells ∧ s0.next = s.next ∧ r = deleteAt env p i s0)) := by
  have h36 : MinPolygonPoints ≠ MaxPolygonPoints := by decide
  have hpos : 0 < p.Points.len := by
    have : MinPolygonPoints = 3 := rfl
    omega
  have hadd : ∀ s1 : St, s1.cells = s.cells → s1.next = s.next →
      p.Points.len ≠ MaxPolygonPoints →
      ∃ r : Polygon × St, addRandomPoint env p maxW maxH s1 = .ok r ∧
      ((p.Points.len ≠ MaxPolygonPoints ∧ ∃ q s0, 0 ≤ q.X ∧ q.X < maxW ∧ 0 ≤ q.Y ∧ q.Y < maxH ∧
          s0.cells = s.cells ∧ s0.next = s.next ∧ r = AddPoint env p q s0) ∨
       (p.Points.len ≠ MinPolygonPoints ∧ ∃ i s0, i < p.Points.len ∧
          s0.cells = s.cells ∧ s0.next = s.next ∧ r = deleteAt env p i s0)) := by
    intro s1 hc hn hne
    refine ⟨_, addRandomPoint_eq env p maxW maxH s1 hW hH, Or.inl ⟨hne, _, _, ?_, ?_, ?_, ?_,
      ?_, ?_, rfl⟩⟩
    · exact Int.ofNat_nonneg _
    · exact toNat_mod_lt _ _ hW
    · exact Int.ofNat_nonneg _
    · exact toNat_mod_lt _ _ hH
    · simpa using hc
    · simpa using hn
  have hdel : ∀ s1 : St, s1.cells = s.cells → s1.next = s.next →
      p.Points.len ≠ MinPolygonPoints →
      ∃ r : Polygon × St, DeleteRandomPoint env p s1 = .ok r ∧
      ((p.Points.len ≠ MaxPolygonPoints ∧ ∃ q s0, 0 ≤ q.X ∧ q.X < maxW ∧ 0 ≤ q.Y ∧ q.Y < maxH ∧
          s0.cells = s.cells ∧ s0.next = s.next ∧ r = AddPoint env p q s0) ∨
       (p.Points.len ≠ MinPolygonPoints ∧ ∃ i s0, i < p.Points.len ∧
          s0.cells = s.cells ∧ s0.next = s.next ∧ r = deleteAt env p i s0)) := by
    intro s1 hc hn hne
    refine ⟨_, DeleteRandomPoint_eq env p s1 hpos, Or.inr ⟨hne, _, _, Nat.mod_lt _ hpos, ?_,
      ?_, rfl⟩⟩
    · simpa using hc
    · simpa using hn
  unfold mutateAddOrDeleteCase
  by_cases h3 : p.Points.len = MinPolygonPoints
  · rw [if_pos h3]
    exact hadd s rfl rfl (by rw [h3]; exact h36)
  · rw [if_neg h3]
    by_cases h6 : p.Points.len = MaxPolygonPoints
    · rw [if_pos h6]
      exact hdel s rfl rfl h3
    · rw [if_neg h6, Intn_two]
      have h : env.rnd s.pos % 2 = 0 ∨ env.rnd s.pos % 2 = 1 := by omega
      rcases h with h | h
      · rw [h]
        exact hadd s.advance rfl rfl h6
      · rw [h]
        exact hdel s.advance rfl rfl h3

/-- The add-or-delete case changes the point count by exactly one, upwards at the minimum and
downwards at the maximum, and keeps the colour. -/
theorem mutateAddOrDeleteCase_count (env : Env) (p : Polygon) (maxW maxH : Int) (s : St)
    (hlo : MinPolygonPoints ≤ p.Points.len) (hW : 0 < maxW) (hH : 0 < maxH) :
    ∃ r : Polygon × St, mutateAddOrDeleteCase env p maxW maxH s = .ok r ∧
      r.1.Color = p.Color ∧
      ((p.Points.len ≠ MaxPolygonPoints ∧ r.1.Points.len = p.Points.len + 1) ∨
       (p.Points.len ≠ MinPolygonPoints ∧ r.1.Points.len + 1 = p.Points.len)) := by
  obtain ⟨r, hr, h⟩ := mutateAddOrDeleteCase_outcome env p maxW maxH s hlo hW hH
  refine ⟨r, hr, ?_⟩
  rcases h with ⟨hne, q, s0, -, -, -, -, -, -, rfl⟩ | ⟨hne, i, s0, hi, -, -, rfl⟩
  · exact ⟨AddPoint_Color _ _ _ _, Or.inl ⟨hne, AddPoint_len _ _ _ _⟩⟩
  · exact ⟨deleteAt_Color _ _ _ _, Or.inr ⟨hne, deleteAt_len _ _ _ _ hi⟩⟩

/-- One `Mutate` call on a polygon with 3 to 6 points returns, with 3 to 6 points. -/
theorem Mutate_count (env : Env) (p : Polygon) (maxW maxH : Int) (s : St)
    (hlo : MinPolygonPoints ≤ p.Points.len) (hhi : p.Points.len ≤ MaxPolygonPoints)
    (hW : 0 < maxW) (hH : 0 < maxH) :
    ∃ r : Polygon × St, Mutate env p maxW maxH s = .ok r ∧
      MinPolygonPoints ≤ r.1.Points.len ∧ r.1.Points.len ≤ MaxPolygonPoints := by
  have hmin : MinPolygonPoints = 3 := rfl
  have hmax : MaxPolygonPoints = 6 := rfl
  unfold Mutate
  rw [randomMutation_eq]
  have h : env.rnd s.pos % 2 ^ 63 % 3 = 0 ∨ env.rnd s.pos % 2 ^ 63 % 3 = 1
      ∨ env.rnd s.pos % 2 ^ 63 % 3 = 2 := by omega
  rcases h with h | h | h
  · rw [h]
    exact ⟨_, mutateColorCase_eq env p _, hlo, hhi⟩
  · rw [h]
    obtain ⟨q, hq, -⟩ := mutatePointCase_eq env p maxW maxH s.advance (by omega) hW hH
    exact ⟨_, hq, hlo, hhi⟩
  · rw [h]
    obtain ⟨r, hr, -, hc⟩ := mutateAddOrDeleteCase_count env p maxW maxH s.advance hlo hW hH
    refine ⟨r, hr, ?_⟩
    omega

theorem mutateTimes_count (env : Env) (maxW maxH : Int) (hW : 0 < maxW) (hH : 0 < maxH) :
    ∀ (n : Nat) (p : Polygon) (s : St),
      MinPolygonPoints ≤ p.Points.len → p.Points.len ≤ MaxPolygonPoints →
      ∃ r : Polygon × St, mutateTimes env maxW maxH n p s = .ok r ∧
        MinPolygonPoints ≤ r.1.Points.len ∧ r.1.Points.len ≤ MaxPolygonPoints := by
  intro n
  induction n with
  | zero =>
    intro p s hlo hhi
    exact ⟨(p, s), rfl, hlo, hhi⟩
  | succ n ih =>
    intro p s hlo hhi
    obtain ⟨r, hr, hlo1, hhi1⟩ := Mutate_count env p maxW maxH s hlo hhi hW hH
    obtain ⟨r2, hr2, h2⟩ := ih r.1 r.2 hlo1 hhi1
    refine ⟨r2, ?_, h2⟩
    rw [mutateTimes, hr]
    exact hr2

/-! ## Which cells an operation can write -/

theorem Frame.refl (arr : Nat) (s : St) : Frame arr s s := ⟨le_refl _, fun _ _ _ _ => rfl⟩

theorem Frame.trans {arr : Nat} {s t u : St} (h1 : Frame arr s t) (h2 : Frame arr t u) :
    Frame arr s u :=
  ⟨le_trans h1.1 h2.1, fun a j ha hlt =>
    (h2.2 a j ha (lt_of_lt_of_le hlt h1.1)).trans (h1.2 a j ha hlt)⟩

theorem Frame.advance (arr : Nat) (s : St) : Frame arr s s.advance :=
  ⟨le_refl _, fun _ _ _ _ => rfl⟩

theorem store_cells_other (s : St) (a start : Nat) (vs : List Point) (b j : Nat) (h : b ≠ a) :
    (s.store a start vs).cells b j = s.cells b j := by
  simp [St.store, h]

theorem Frame.store (s : St) (a start : Nat) (vs : List Point) : Frame a s (s.store a start vs) :=
  ⟨le_refl _, fun b j hb _ => store_cells_other s a start vs b j hb⟩

theorem Frame.goAppend (env : Env) (dst : Slice) (src : List Point) (s : St) :
    Frame dst.arr s (goAppend env dst src s).2 := by
  unfold Polygen.goAppend
  by_cases h : dst.len + src.length ≤ dst.cap
  · simp only [h, if_true]
    exact Frame.store s _ _ _
  · simp only [h, if_false]
    refine ⟨Nat.le_succ _, fun a j _ hlt => ?_⟩
    exact store_cells_other s _ _ _ a j (by omega)

theorem Intn_ok {env : Env} {n : Int} {s : St} {r : Nat × St}
    (h : Intn env n s = .ok r) : 0 < n ∧ r = (env.rnd s.pos % n.toNat, s.advance) := by
  unfold Intn at h
  split at h
  · cases h
  · cases h
    exact ⟨by omega, rfl⟩

theorem RandomPoint_ok {env : Env} {maxW maxH : Int} {s : St} {r : Point × St}
    (h : RandomPoint env maxW maxH s = .ok r) : 0 < maxW ∧ 0 < maxH := by
  unfold RandomPoint at h
  split at h
  · cases h
  · rename_i x s1 h1
    split at h
    · cases h
    · rename_i y s2 h2
      exact ⟨(Intn_ok h1).1, (Intn_ok h2).1⟩

theorem addRandomPoint_frame {env : Env} {p : Polygon} {maxW maxH : Int} {s : St}
    {r : Polygon × St} (h : addRandomPoint env p maxW maxH s = .ok r) :
    Frame p.Points.arr s r.2 := by
  unfold addRandomPoint at h
  split at h
  · cases h
  · rename_i q s1 h1
    obtain ⟨hW, hH⟩ := RandomPoint_ok h1
    rw [RandomPoint_eq env maxW maxH s hW hH] at h1
    cases h1
    cases h
    exact Frame.trans (Frame.trans (Frame.advance _ _) (Frame.advance _ _))
      (Frame.goAppend env p.Points _ _)

theorem DeleteRandomPoint_frame {env : Env} {p : Polygon} {s : St}
    {r : Polygon × St} (h : DeleteRandomPoint env p s = .ok r) :
    Frame p.Points.arr s r.2 := by
  unfold DeleteRandomPoint at h
  split at h
  · cases h
  · rename_i i s1 h1
    obtain ⟨-, h1⟩ := Intn_ok h1
    cases h1
    split at h
    · cases h
      exact Frame.trans (Frame.advance _ _)
        (Frame.goAppend env { p.Points with len := _ } _ _)
    · cases h

theorem MutatePoint_ok {env : Env} {q : Point} {maxW maxH : Int} {s : St} {r : Point × St}
    (h : MutatePoint env q maxW maxH s = .ok r) :
    r.2.cells = s.cells ∧ r.2.next = s.next := by
  unfold MutatePoint at h
  rw [Intn_two] at h
  simp only at h
  split at h
  · split at h
    · cases h
    · rename_i x s2 h2
      obtain ⟨-, h2⟩ := Intn_ok h2
      cases h2
      cases h
      exact ⟨rfl, rfl⟩
  · split at h
    · cases h
    · rename_i x s2 h2
      obtain ⟨-, h2⟩ := Intn_ok h2
      cases h2
      cases h
      exact ⟨rfl, rfl⟩
  · cases h
    exact ⟨rfl, rfl⟩

theorem mutatePointCase_frame {env : Env} {p : Polygon} {maxW maxH : Int} {s : St}
    {r : Polygon × St} (h : mutatePointCase env p maxW maxH s = .ok r) :
    Frame p.Points.arr s r.2 := by
  unfold mutatePointCase at h
  split at h
  · cases h
  · rename_i i s1 h1
    obtain ⟨-, h1⟩ := Intn_ok h1
    cases h1
    split at h
    · cases h
    · rename_i orig ho
      split at h
      · cases h
      · rename_i mutated s2 hm
        obtain ⟨hc, hn⟩ := MutatePoint_ok hm
        split at h
        · cases h
        · rename_i s3 ha
          cases h
          unfold St.assign at ha
          split at ha
          · cases ha
            simp only [advance_cells, advance_next] at hc hn
            refine ⟨by simp [St.store, hn], fun a j hne _ => ?_⟩
            rw [store_cells_other _ _ _ _ a j hne, hc]
          · cases ha

theorem mutateColorCase_frame {env : Env} {p : Polygon} {s : St}
    {r : Polygon × St} (h : mutateColorCase env p s = .ok r) :
    Frame p.Points.arr s r.2 := by
  rw [mutateColorCase_eq] at h
  cases h
  exact Frame.trans (Frame.advance _ _) (Frame.advance _ _)

theorem mutateAddOrDeleteCase_frame {env : Env} {p : Polygon} {maxW maxH : Int} {s : St}
    {r : Polygon × St} (h : mutateAddOrDeleteCase env p maxW maxH s = .ok r) :
    Frame p.Points.arr s r.2 := by
  unfold mutateAddOrDeleteCase at h
  split at h
  · exact addRandomPoint_frame h
  · split at h
    · exact DeleteRandomPoint_frame h
    · rw [Intn_two] at h
      simp only at h
      split at h
      · exact Frame.trans (Frame.advance _ _) (addRandomPoint_frame h)
      · exact Frame.trans (Frame.advance _ _) (DeleteRandomPoint_frame h)
      · cases h
        exact Frame.advance _ _

/-- A `Mutate` call on polygon `p` writes only into the backing array of `p` or into arrays it
allocates itself. -/
theorem Mutate_frame {env : Env} {p : Polygon} {maxW maxH : Int} {s : St}
    {r : Polygon × St} (h : Mutate env p maxW maxH s = .ok r) :
    Frame p.Points.arr s r.2 := by
  unfold Mutate at h
  rw [randomMutation_eq] at h
  simp only at h
  split at h
  · exact Frame.trans (Frame.advance _ _) (mutateColorCase_frame h)
  · exact Frame.trans (Frame.advance _ _) (mutatePointCase_frame h)
  · exact Frame.trans (Frame.advance _ _) (mutateAddOrDeleteCase_frame h)
  · cases h
    exact Frame.advance _ _

/-! ## The loop of `Mate` -/

theorem mateStep_ok {env : Env} {m1 m2 : Candidate} {c i : Nat} {s : St}
    {r : (Bool × Polygon) × St} (h : mateStep env m1 m2 c i s = .ok r) :
    ∃ p, mateSource m1 m2 c i = some p ∧
      ((r.1.1 = false ∧ r.1.2 = p ∧ r.2 = s.advance) ∨
       (r.1.1 = true ∧ Mutate env p m1.w m1.h s.advance = .ok (r.1.2, r.2))) := by
  unfold mateStep at h
  split at h
  · cases h
  · rename_i p hp
    refine ⟨p, hp, ?_⟩
    split at h
    · rename_i s1 hs
      have hs1 : s1 = s.advance := by
        have := congrArg Prod.snd hs
        exact this.symm
      subst hs1
      split at h
      · cases h
      · rename_i p1 s2 hm
        cases h
        exact Or.inr ⟨rfl, hm⟩
    · rename_i s1 hs
      have hs1 : s1 = s.advance := by
        have := congrArg Prod.snd hs
        exact this.symm
      subst hs1
      cases h
      exact Or.inl ⟨rfl, rfl, rfl⟩

theorem mateStep_frame {env : Env} {m1 m2 : Candidate} {c i : Nat} {s : St}
    {r : (Bool × Polygon) × St} (h : mateStep env m1 m2 c i s = .ok r) :
    s.next ≤ r.2.next ∧ ∀ a, a < s.next →
      (∀ p, r.1.1 = true → mateSource m1 m2 c i = some p → p.Points.arr ≠ a) →
      ∀ j, r.2.cells a j = s.cells a j := by
  obtain ⟨p, hp, h1 | h1⟩ := mateStep_ok h
  · obtain ⟨-, -, hs⟩ := h1
    rw [hs]
    exact ⟨le_refl _, fun _ _ _ _ => rfl⟩
  · obtain ⟨hb, hm⟩ := h1
    have hf := Frame.trans (Frame.advance p.Points.arr s) (Mutate_frame hm)
    refine ⟨hf.1, fun a ha hne j => ?_⟩
    exact hf.2 a j (fun e => hne p hb hp e.symm) ha

/-- The loop of `Mate` from index `i`: it runs `n` iterations; where no mutation fired the stored
polygon is the copied struct; and an existing array is left untouched unless it backs the source
polygon of an index at which a mutation fired. -/
theorem mateLoop_spec (env : Env) (m1 m2 : Candidate) (c : Nat) :
    ∀ (n i : Nat) (s : St) (r : List (Bool × Polygon) × St),
      mateLoop env m1 m2 c n i s = .ok r →
      r.1.length = n ∧
      (∀ k q, r.1[k]? = some (false, q) → mateSource m1 m2 c (i + k) = some q) ∧
      s.next ≤ r.2.next ∧
      (∀ a, a < s.next →
        (∀ k q p, r.1[k]? = some (true, q) → mateSource m1 m2 c (i + k) = some p →
          p.Points.arr ≠ a) →
        ∀ j, r.2.cells a j = s.cells a j) := by
  intro n
  induction n with
  | zero =>
    intro i s r h
    cases h
    exact ⟨rfl, fun k q hk => by simp at hk, le_refl _, fun _ _ _ _ => rfl⟩
  | succ n ih =>
    intro i s r h
    rw [mateLoop] at h
    split at h
    · cases h
    · rename_i bp s1 hstep
      split at h
      · cases h
      · rename_i rest s2 hrest
        cases h
        obtain ⟨hlen, hsrc, hnext, hcells⟩ := ih (i + 1) s1 (rest, s2) hrest
        obtain ⟨p, hp, hcase⟩ := mateStep_ok hstep
        obtain ⟨hn1, hfr1⟩ := mateStep_frame hstep
        refine ⟨by simp [hlen], ?_, le_trans hn1 hnext, ?_⟩
        · intro k q hk
          cases k with
          | zero =>
            simp only [List.getElem?_cons_zero, Option.some.injEq] at hk
            rcases hcase with ⟨-, hq, -⟩ | ⟨hb, -⟩
            · rw [hk] at hq
              simp only at hq
              rw [Nat.add_zero, hp, hq]
            · rw [hk] at hb
              cases hb
          | succ k =>
            simp only [List.getElem?_cons_succ] at hk
            have := hsrc k q hk
            rw [show i + (k + 1) = i + 1 + k by omega]
            exact this
        · intro a ha hne j
          have h2 := hcells a (lt_of_lt_of_le ha hn1) (fun k q p hk hs => by
            apply hne (k + 1) q p
            · simpa using hk
            · rw [show i + (k + 1) = i + 1 + k by omega]
              exact hs) j
          have h1 := hfr1 a ha (fun p0 hb hs => by
            apply hne 0 bp.2 p0
            · simp only [List.getElem?_cons_zero, Option.some.injEq]
              exact Prod.ext hb rfl
            · simpa using hs) j
          exact h2.trans h1

theorem RenderImage_ok {env : Env} {s : St} {cd result : Candidate}
    (h : RenderImage env s cd = .ok result) :
    result.w = cd.w ∧ result.h = cd.h ∧ result.Polygons = cd.Polygons ∧
      result.Fitness = cd.Fitness := by
  unfold RenderImage at h
  split at h
  · split at h
    · cases h
    · cases h
      exact ⟨rfl, rfl, rfl, rfl⟩
  · cases h

/-- A call of `RenderImage` that returns has allocated its buffer. -/
theorem RenderImage_ok_alloc {env : Env} {s : St} {cd result : Candidate}
    (h : RenderImage env s cd = .ok result) : newRGBAok env cd.w cd.h := by
  unfold RenderImage at h
  split at h
  · assumption
  · cases h

/-- When the buffer cannot be allocated `RenderImage` panics in `image.NewRGBA`. -/
theorem RenderImage_refused (env : Env) (s : St) (cd : Candidate)
    (h : ¬ newRGBAok env cd.w cd.h) : RenderImage env s cd = .error .newRGBA := by
  unfold RenderImage
  rw [if_neg h]

theorem MateTraced_ok {env : Env} {m1 m2 : Candidate} {s : St}
    {r : (Candidate × List Bool) × St} (h : MateTraced env m1 m2 s = .ok r) :
    0 < m1.Polygons.length ∧
    ∃ bps, mateLoop env m1 m2 (env.rnd s.pos % m1.Polygons.length) m1.Polygons.length 0
        s.advance = .ok (bps, r.2) ∧
      r.1.1.Polygons = bps.map Prod.snd ∧ r.1.2 = bps.map Prod.fst ∧
      r.1.1.w = m1.w ∧ r.1.1.h = m1.h := by
  unfold MateTraced at h
  split at h
  · cases h
  · rename_i c s1 hc
    obtain ⟨hpos, hc⟩ := Intn_ok hc
    have hlen : 0 < m1.Polygons.length := by exact_mod_cast hpos
    cases hc
    split at h
    · cases h
    · rename_i bps s2 hl
      split at h
      · cases h
      · rename_i result hr
        cases h
        obtain ⟨hw, hh, hp, -⟩ := RenderImage_ok hr
        simp only [Int.toNat_ofNat] at hl
        exact ⟨hlen, bps, hl, hp, rfl, hw, hh⟩

theorem Mate_ok {env : Env} {m1 m2 : Candidate} {s : St} {r : Candidate × St}
    (h : Mate env m1 m2 s = .ok r) :
    ∃ fired, MateTraced env m1 m2 s = .ok ((r.1, fired), r.2) := by
  unfold Mate at h
  split at h
  · cases h
  · rename_i result fired s1 ht
    cases h
    exact ⟨fired, ht⟩

theorem view_congr (s t : St) (sl : Slice) (h : ∀ j, t.cells sl.arr j = s.cells sl.arr j) :
    t.view sl = s.view sl := by
  simp [St.view, h]

/-! ## Colour conversions -/

theorem widen_eq (x : Nat) (h : x < 256) : widen x = x * 257 := by
  unfold widen
  have h1 : x <<< 8 = 2 ^ 8 * x := by rw [Nat.shiftLeft_eq, Nat.mul_comm]
  rw [Nat.lor_comm, h1, ← Nat.mul_add_lt_is_or (by simpa using h)]
  omega

theorem hiByte_eq (x : Nat) : hiByte x = x / 256 % 256 := by
  unfold hiByte
  rw [Nat.shiftRight_eq_div_pow]

theorem hiByte_widen (x : Nat) (h : x < 256) : hiByte (widen x) = x := by
  rw [widen_eq x h, hiByte_eq]
  have h1 : x * 257 / 256 = x := by omega
  rw [h1]
  omega

theorem premultiply_alpha255 (x : Nat) (h : x < 256) :
    hiByte (widen x * 255 % 2 ^ 32 / 0xff) = x := by
  rw [widen_eq x h]
  have h1 : x * 257 * 255 % 2 ^ 32 = x * 257 * 255 := Nat.mod_eq_of_lt (by omega)
  have h2 : x * 257 * 255 / 0xff = x * 257 := by omega
  rw [h1, h2, ← widen_eq x h]
  exact hiByte_widen x h

/-- An opaque colour converts to non-premultiplied form without change. -/
theorem nrgbaModel_alpha255 (c : RGBA) (hb : c.isBytes) (hA : c.A = 255) :
    nrgbaModel c = ⟨c.R, c.G, c.B, 255⟩ := by
  obtain ⟨hR, hG, hB, -⟩ := hb
  unfold nrgbaModel RGBA.RGBA
  simp only [hA]
  rw [if_pos (by rw [widen_eq 255 (by norm_num)]), hiByte_widen _ hR, hiByte_widen _ hG,
    hiByte_widen _ hB]

/-- An opaque non-premultiplied colour converts to premultiplied form without change. -/
theorem rgbaModel_alpha255 (r g b : Nat) (hR : r < 256) (hG : g < 256) (hB : b < 256) :
    rgbaModel ⟨r, g, b, 255⟩ = ⟨r, g, b, 255⟩ := by
  unfold rgbaModel NRGBA.RGBA
  simp only
  rw [premultiply_alpha255 r hR, premultiply_alpha255 g hG, premultiply_alpha255 b hB,
    hiByte_widen 255 (by norm_num)]

theorem setChannel_channel (n : NRGBA) (i val : Nat) (hi : i < 4) :
    (setChannel n i val).channel i = val ∧
      ∀ k, k < 4 → k ≠ i → (setChannel n i val).channel k = n.channel k := by
  have h : i = 0 ∨ i = 1 ∨ i = 2 ∨ i = 3 := by omega
  rcases h with h | h | h | h <;> subst h <;> refine ⟨rfl, fun k hk hne => ?_⟩ <;>
    (have hk4 : k = 0 ∨ k = 1 ∨ k = 2 ∨ k = 3 := by omega) <;>
    rcases hk4 with e | e | e | e <;> subst e <;> first | rfl | exact absurd rfl hne

/-- On an opaque colour a mutation of R, G or B replaces that channel and nothing else. -/
theorem MutateColorWith_alpha255 (c : RGBA) (i val : Nat) (hb : c.isBytes) (hA : c.A = 255)
    (hi : i < 3) (hv : val < 256) :
    MutateColorWith c i val
      = ⟨if i = 0 then val else c.R, if i = 1 then val else c.G, if i = 2 then val else c.B,
         c.A⟩ := by
  have hb2 := hb
  obtain ⟨hR, hG, hB, -⟩ := hb2
  unfold MutateColorWith
  rw [nrgbaModel_alpha255 c hb hA, hA]
  have h : i = 0 ∨ i = 1 ∨ i = 2 := by omega
  rcases h with h | h | h <;> subst h <;> simp only [setChannel]
  · rw [rgbaModel_alpha255 _ _ _ hv hG hB]
    simp
  · rw [rgbaModel_alpha255 _ _ _ hR hv hB]
    simp
  · rw [rgbaModel_alpha255 _ _ _ hR hG hv]
    simp

/-! ## Population ranking -/

theorem Less_eq (cds : List Candidate) (i j : Nat) (hi : i < cds.length) (hj : j < cds.length) :
    ByFitness.Less cds i j = .ok (decide (cds[i].Fitness < cds[j].Fitness)) := by
  unfold ByFitness.Less
  rw [List.getElem?_eq_getElem hi, List.getElem?_eq_getElem hj]

theorem Less_true_iff (cds : List Candidate) (i j : Nat) (hi : i < cds.length)
    (hj : j < cds.length) :
    ByFitness.Less cds i j = .ok true ↔ cds[i].Fitness < cds[j].Fitness := by
  rw [Less_eq cds i j hi hj]
  simp

theorem Less_false_iff (cds : List Candidate) (i j : Nat) (hi : i < cds.length)
    (hj : j < cds.length) :
    ByFitness.Less cds i j = .ok false ↔ cds[j].Fitness ≤ cds[i].Fitness := by
  rw [Less_eq cds i j hi hj]
  simp

theorem Ranked_sorted (cds : List Candidate) (h : Ranked cds) :
    List.Sorted (fun x y : Int => x ≤ y) (fitnesses cds) := by
  unfold List.Sorted fitnesses
  rw [List.pairwise_iff_getElem]
  intro i j hi hj hij
  simp only [List.length_map] at hi hj
  simp only [List.getElem_map]
  exact (Less_false_iff cds j i hj hi).1 (h j hj i hij)

/-! ## Runs that return -/

theorem renderPolygons_total (s : St) :
    ∀ ps : List Polygon, (∀ p ∈ ps, 0 < p.Points.len) →
      ∃ calls, renderPolygons s ps = .ok calls := by
  intro ps
  induction ps with
  | nil => exact fun _ => ⟨[], rfl⟩
  | cons p rest ih =>
    intro h
    obtain ⟨more, hm⟩ := ih (fun q hq => h q (List.mem_cons_of_mem _ hq))
    have hp : 0 < p.Points.len := h p (List.mem_cons_self _ _)
    rw [renderPolygons, renderPolygon, St.index, if_pos hp]
    simp only
    rw [hm]
    exact ⟨_, rfl⟩

theorem RenderImage_total (env : Env) (s : St) (cd : Candidate)
    (halloc : newRGBAok env cd.w cd.h) (h : ∀ p ∈ cd.Polygons, 0 < p.Points.len) :
    ∃ result, RenderImage env s cd = .ok result := by
  obtain ⟨calls, hc⟩ := renderPolygons_total s cd.Polygons h
  rw [RenderImage, if_pos halloc, hc]
  exact ⟨_, rfl⟩

theorem shouldMutate_snd (env : Env) (s : St) : (shouldMutate env s).2 = s.advance := rfl

theorem mateStep_total (env : Env) (m1 m2 : Candidate) (c i : Nat) (s : St) (p : Polygon)
    (hsrc : mateSource m1 m2 c i = some p)
    (hlo : MinPolygonPoints ≤ p.Points.len) (hhi : p.Points.len ≤ MaxPolygonPoints)
    (hW : 0 < m1.w) (hH : 0 < m1.h) :
    ∃ r, mateStep env m1 m2 c i s = .ok r ∧
      MinPolygonPoints ≤ r.1.2.Points.len ∧ r.1.2.Points.len ≤ MaxPolygonPoints := by
  unfold mateStep
  rw [hsrc]
  simp only [shouldMutate]
  by_cases hd : (env.rnd s.pos % 2 ^ 24) * 100 < 15 * 2 ^ 24
  · simp only [hd, decide_True]
    obtain ⟨r, hr, hb⟩ := Mutate_count env p m1.w m1.h s.advance hlo hhi hW hH
    rw [hr]
    exact ⟨_, rfl, hb⟩
  · simp only [hd, decide_False]
    exact ⟨_, rfl, hlo, hhi⟩

theorem mateLoop_total (env : Env) (m1 m2 : Candidate) (c : Nat) (hW : 0 < m1.w)
    (hH : 0 < m1.h) :
    ∀ (n i : Nat) (s : St),
      (∀ k, k < n → ∃ p, mateSource m1 m2 c (i + k) = some p ∧
        MinPolygonPoints ≤ p.Points.len ∧ p.Points.len ≤ MaxPolygonPoints) →
      ∃ r, mateLoop env m1 m2 c n i s = .ok r ∧
        ∀ bp ∈ r.1, MinPolygonPoints ≤ bp.2.Points.len ∧ bp.2.Points.len ≤ MaxPolygonPoints := by
  intro n
  induction n with
  | zero =>
    intro i s _
    exact ⟨([], s), rfl, fun bp hbp => by simp at hbp⟩
  | succ n ih =>
    intro i s h
    obtain ⟨p, hp, hlo, hhi⟩ := h 0 (Nat.succ_pos _)
    obtain ⟨r1, hr1, hb1⟩ := mateStep_total env m1 m2 c i s p hp hlo hhi hW hH
    obtain ⟨r2, hr2, hb2⟩ := ih (i + 1) r1.2 (fun k hk => by
      have := h (k + 1) (by omega)
      rw [show i + (k + 1) = i + 1 + k by omega] at this
      exact this)
    refine ⟨(r1.1 :: r2.1, r2.2), ?_, ?_⟩
    · rw [mateLoop, hr1]
      simp only
      rw [hr2]
    · intro bp hbp
      rcases List.mem_cons.1 hbp with e | e
      · rw [e]
        exact hb1
      · exact hb2 bp e

/-- Parents with at least one polygon, the second with at least as many as the first, all of
whose polygons have 3 to 6 points, and a positive size whose buffer can be allocated: `Mate`
returns. -/
theorem MateTraced_total (env : Env) (m1 m2 : Candidate) (s : St)
    (hn : 0 < m1.Polygons.length) (hlen : m1.Polygons.length ≤ m2.Polygons.length)
    (h1 : ∀ p ∈ m1.Polygons, MinPolygonPoints ≤ p.Points.len ∧ p.Points.len ≤ MaxPolygonPoints)
    (h2 : ∀ p ∈ m2.Polygons, MinPolygonPoints ≤ p.Points.len ∧ p.Points.len ≤ MaxPolygonPoints)
    (hW : 0 < m1.w) (hH : 0 < m1.h) (halloc : newRGBAok env m1.w m1.h) :
    ∃ r, MateTraced env m1 m2 s = .ok r := by
  have hmin : MinPolygonPoints = 3 := rfl
  obtain ⟨r, hr, hb⟩ := mateLoop_total env m1 m2 (env.rnd s.pos % m1.Polygons.length) hW hH
    m1.Polygons.length 0 s.advance (fun k hk => by
      rw [Nat.zero_add]
      unfold mateSource
      by_cases hc : k ≤ env.rnd s.pos % m1.Polygons.length
      · rw [if_pos hc, List.getElem?_eq_getElem hk]
        exact ⟨_, rfl, h1 _ (List.getElem_mem _)⟩
      · rw [if_neg hc, List.getElem?_eq_getElem (lt_of_lt_of_le hk hlen)]
        exact ⟨_, rfl, h2 _ (List.getElem_mem _)⟩)
  obtain ⟨result, hres⟩ := RenderImage_total env r.2 ⟨m1.w, m1.h, r.1.map Prod.snd, 0, none⟩
    halloc (fun p hp => by
      obtain ⟨bp, hbp, rfl⟩ := List.mem_map.1 hp
      have := (hb bp hbp).1
      omega)
  refine ⟨((result, r.1.map Prod.fst), r.2), ?_⟩
  unfold MateTraced
  rw [Intn_len env _ s hn]
  simp only
  rw [hr]
  simp only
  rw [hres]

theorem Mate_total (env : Env) (m1 m2 : Candidate) (s : St)
    (hn : 0 < m1.Polygons.length) (hlen : m1.Polygons.length ≤ m2.Polygons.length)
    (h1 : ∀ p ∈ m1.Polygons, MinPolygonPoints ≤ p.Points.len ∧ p.Points.len ≤ MaxPolygonPoints)
    (h2 : ∀ p ∈ m2.Polygons, MinPolygonPoints ≤ p.Points.len ∧ p.Points.len ≤ MaxPolygonPoints)
    (hW : 0 < m1.w) (hH : 0 < m1.h) (halloc : newRGBAok env m1.w m1.h) :
    ∃ r, Mate env m1 m2 s = .ok r := by
  obtain ⟨r, hr⟩ := MateTraced_total env m1 m2 s hn hlen h1 h2 hW hH halloc
  refine ⟨(r.1.1, r.2), ?_⟩
  unfold Mate
  rw [hr]

theorem Mate_shape {env : Env} {m1 m2 : Candidate} {s : St} {r : Candidate × St}
    (h : Mate env m1 m2 s = .ok r) :
    r.1.Polygons.length = m1.Polygons.length ∧ r.1.w = m1.w ∧ r.1.h = m1.h := by
  obtain ⟨fired, ht⟩ := Mate_ok h
  obtain ⟨-, bps, hl, hP, -, hw, hh⟩ := MateTraced_ok ht
  simp only at hl hP hw hh
  obtain ⟨hlen, -, -, -⟩ := mateLoop_spec env m1 m2 _ _ _ _ _ hl
  simp only at hlen
  refine ⟨?_, hw, hh⟩
  rw [hP, List.length_map, hlen]

/-! ## Random construction -/

theorem randomColor_eq (env : Env) (s : St) :
    randomColor env s
      = .ok (⟨env.rnd s.pos % 255 % 256, env.rnd (s.pos + 1) % 255 % 256,
              env.rnd (s.pos + 2) % 255 % 256, env.rnd (s.pos + 3) % 255 % 256⟩,
             s.advance.advance.advance.advance) := by
  unfold randomColor
  rw [Intn_pos env 0xff s (by norm_num)]
  simp only
  rw [Intn_pos env 0xff _ (by norm_num)]
  simp only
  rw [Intn_pos env 0xff _ (by norm_num)]
  simp only
  rw [Intn_pos env 0xff _ (by norm_num)]
  rfl

theorem addRandomPoint_Color {env : Env} {p : Polygon} {maxW maxH : Int} {s : St}
    {r : Polygon × St} (h : addRandomPoint env p maxW maxH s = .ok r) :
    r.1.Color = p.Color ∧ r.1.Points.len = p.Points.len + 1 := by
  unfold addRandomPoint at h
  split at h
  · cases h
  · cases h
    exact ⟨AddPoint_Color _ _ _ _, AddPoint_len _ _ _ _⟩

theorem addRandomPoints_shape (env : Env) (maxW maxH : Int) :
    ∀ (n : Nat) (p : Polygon) (s : St) (r : Polygon × St),
      addRandomPoints env maxW maxH n p s = .ok r →
      r.1.Color = p.Color ∧ r.1.Points.len = p.Points.len + n := by
  intro n
  induction n with
  | zero =>
    intro p s r h
    cases h
    exact ⟨rfl, rfl⟩
  | succ n ih =>
    intro p s r h
    rw [addRandomPoints] at h
    split at h
    · cases h
    · rename_i p1 s1 h1
      obtain ⟨hc1, hl1⟩ := addRandomPoint_Color h1
      obtain ⟨hc2, hl2⟩ := ih p1 s1 r h
      simp only at hc1 hl1
      exact ⟨hc2.trans hc1, by omega⟩

theorem addRandomPoints_total (env : Env) (maxW maxH : Int) (hW : 0 < maxW) (hH : 0 < maxH) :
    ∀ (n : Nat) (p : Polygon) (s : St),
      ∃ r, addRandomPoints env maxW maxH n p s = .ok r := by
  intro n
  induction n with
  | zero => exact fun p s => ⟨(p, s), rfl⟩
  | succ n ih =>
    intro p s
    rw [addRandomPoints, addRandomPoint_eq env p maxW maxH s hW hH]
    exact ih _ _

/-- What `RandomPolygon` returns: the colour is made of the first four draws reduced modulo 255,
and the number of points is the value of `RandomInt`. -/
theorem RandomPolygon_shape {env : Env} {maxW maxH : Int} {s : St} {r : Polygon × St}
    (h : RandomPolygon env maxW maxH s = .ok r) :
    r.1.Color = ⟨env.rnd s.pos % 255 % 256, env.rnd (s.pos + 1) % 255 % 256,
                 env.rnd (s.pos + 2) % 255 % 256, env.rnd (s.pos + 3) % 255 % 256⟩ ∧
    r.1.Points.len
      = (env.RandomInt MinPolygonPoints MaxPolygonPoints (env.rnd (s.pos + 4))).toNat := by
  unfold RandomPolygon at h
  rw [randomColor_eq] at h
  simp only at h
  obtain ⟨hc, hl⟩ := addRandomPoints_shape env maxW maxH _ _ _ _ h
  simp only [Nat.zero_add] at hl
  exact ⟨hc, hl⟩

theorem RandomPolygon_total (env : Env) (maxW maxH : Int) (s : St) (hW : 0 < maxW)
    (hH : 0 < maxH) : ∃ r, RandomPolygon env maxW maxH s = .ok r := by
  unfold RandomPolygon
  rw [randomColor_eq]
  exact addRandomPoints_total env maxW maxH hW hH _ _ _

theorem randomPolygons_length (env : Env) (w h : Int) :
    ∀ (n : Nat) (s : St) (r : List Polygon × St),
      randomPolygons env w h n s = .ok r → r.1.length = n := by
  intro n
  induction n with
  | zero =>
    intro s r hr
    cases hr
    rfl
  | succ n ih =>
    intro s r hr
    rw [randomPolygons] at hr
    split at hr
    · cases hr
    · rename_i p s1 hp
      split at hr
      · cases hr
      · rename_i ps s2 hps
        cases hr
        simp [ih s1 _ hps]

theorem randomPolygons_total (env : Env) (w h : Int) (hW : 0 < w) (hH : 0 < h)
    (hR : ∀ d, (MinPolygonPoints : Int) ≤ env.RandomInt MinPolygonPoints MaxPolygonPoints d ∧
      env.RandomInt MinPolygonPoints MaxPolygonPoints d ≤ (MaxPolygonPoints : Int)) :
    ∀ (n : Nat) (s : St),
      ∃ r, randomPolygons env w h n s = .ok r ∧
        ∀ p ∈ r.1, MinPolygonPoints ≤ p.Points.len ∧ p.Points.len ≤ MaxPolygonPoints := by
  intro n
  induction n with
  | zero => exact fun s => ⟨([], s), rfl, fun p hp => by simp at hp⟩
  | succ n ih =>
    intro s
    obtain ⟨r1, hr1⟩ := RandomPolygon_total env w h s hW hH
    obtain ⟨-, hl⟩ := RandomPolygon_shape hr1
    obtain ⟨r2, hr2, hb⟩ := ih r1.2
    refine ⟨(r1.1 :: r2.1, r2.2), ?_, ?_⟩
    · rw [randomPolygons, hr1]
      simp only
      rw [hr2]
    · intro p hp
      rcases List.mem_cons.1 hp with e | e
      · have := hR (env.rnd (s.pos + 4))
        rw [e, hl]
        omega
      · exact hb p e

theorem RandomCandidate_shape {env : Env} {w h : Int} {s : St} {r : Candidate × St}
    (hr : RandomCandidate env w h s = .ok r) :
    r.1.Polygons.length = PolygonsPerIndividual ∧ r.1.w = w ∧ r.1.h = h := by
  unfold RandomCandidate at hr
  split at hr
  · cases hr
  · rename_i ps s1 hps
    split at hr
    · cases hr
    · rename_i cd hcd
      cases hr
      obtain ⟨hw, hh, hp, -⟩ := RenderImage_ok hcd
      simp only at hw hh hp
      refine ⟨?_, hw, hh⟩
      rw [hp]
      exact randomPolygons_length env w h _ _ _ hps

theorem RandomCandidate_total (env : Env) (w h : Int) (s : St) (hW : 0 < w) (hH : 0 < h)
    (hR : ∀ d, (MinPolygonPoints : Int) ≤ env.RandomInt MinPolygonPoints MaxPolygonPoints d ∧
      env.RandomInt MinPolygonPoints MaxPolygonPoints d ≤ (MaxPolygonPoints : Int))
    (halloc : newRGBAok env w h) :
    ∃ r, RandomCandidate env w h s = .ok r := by
  have hmin : MinPolygonPoints = 3 := rfl
  obtain ⟨r, hr, hb⟩ := randomPolygons_total env w h hW hH hR PolygonsPerIndividual s
  obtain ⟨cd, hcd⟩ := RenderImage_total env r.2 ⟨w, h, r.1, 0, none⟩ halloc (fun p hp => by
    have := (hb p hp).1
    omega)
  unfold RandomCandidate
  rw [hr]
  simp only
  rw [hcd]
  exact ⟨_, rfl⟩

/-! ## `Mate` and its unchecked preconditions -/

theorem mateSource_congr (m1 m2 m3 : Candidate) (c i : Nat) (h : m3.Polygons = m2.Polygons) :
    mateSource m1 m3 c i = mateSource m1 m2 c i := by
  unfold mateSource
  rw [h]

theorem mateStep_congr (env : Env) (m1 m2 m3 : Candidate) (c i : Nat) (s : St)
    (h : m3.Polygons = m2.Polygons) :
    mateStep env m1 m3 c i s = mateStep env m1 m2 c i s := by
  unfold mateStep
  rw [mateSource_congr m1 m2 m3 c i h]

theorem mateLoop_congr (env : Env) (m1 m2 m3 : Candidate) (c : Nat)
    (h : m3.Polygons = m2.Polygons) :
    ∀ (n i : Nat) (s : St), mateLoop env m1 m3 c n i s = mateLoop env m1 m2 c n i s := by
  intro n
  induction n with
  | zero => exact fun _ _ => rfl
  | succ n ih =>
    intro i s
    rw [mateLoop, mateLoop, mateStep_congr env m1 m2 m3 c i s h]
    simp only [ih]

/-- The second parent enters `Mate` through its polygons only. -/
theorem Mate_congr (env : Env) (m1 m2 m3 : Candidate) (s : St)
    (h : m3.Polygons = m2.Polygons) : Mate env m1 m3 s = Mate env m1 m2 s := by
  unfold Mate MateTraced
  simp only [mateLoop_congr env m1 m2 m3 _ h]

theorem mateLoop_fatal (env : Env) (m1 m2 : Candidate) (c : Nat) (hW : 0 < m1.w)
    (hH : 0 < m1.h) :
    ∀ (n i : Nat) (s : St),
      (∀ k p, k < n → mateSource m1 m2 c (i + k) = some p →
        MinPolygonPoints ≤ p.Points.len ∧ p.Points.len ≤ MaxPolygonPoints) →
      (∃ k, k < n ∧ mateSource m1 m2 c (i + k) = none) →
      mateLoop env m1 m2 c n i s = .error .indexOutOfRange := by
  intro n
  induction n with
  | zero =>
    intro i s _ hnone
    obtain ⟨k, hk, -⟩ := hnone
    omega
  | succ n ih =>
    intro i s hv hnone
    rw [mateLoop]
    cases hsrc : mateSource m1 m2 c i with
    | none =>
      have : mateStep env m1 m2 c i s = .error .indexOutOfRange := by
        unfold mateStep
        rw [hsrc]
      rw [this]
    | some p =>
      obtain ⟨hlo, hhi⟩ := hv 0 p (Nat.succ_pos _) hsrc
      obtain ⟨r1, hr1, -⟩ := mateStep_total env m1 m2 c i s p hsrc hlo hhi hW hH
      rw [hr1]
      simp only
      obtain ⟨k, hk, hkn⟩ := hnone
      have hk0 : k ≠ 0 := by
        intro e
        rw [e, Nat.add_zero, hsrc] at hkn
        cases hkn
      have hrec := ih (i + 1) r1.2 (fun j q hj hq => by
        apply hv (j + 1) q (by omega)
        rw [show i + (j + 1) = i + 1 + j by omega]
        exact hq) ⟨k - 1, by omega, by
          rw [show i + 1 + (k - 1) = i + k by omega]
          exact hkn⟩
      rw [hrec]

theorem MateTraced_returns (env : Env) (m1 m2 : Candidate) (s : St)
    (hn : 0 < m1.Polygons.length)
    (hsrc : ∀ k, k < m1.Polygons.length →
      ∃ p, mateSource m1 m2 (env.rnd s.pos % m1.Polygons.length) (0 + k) = some p ∧
        MinPolygonPoints ≤ p.Points.len ∧ p.Points.len ≤ MaxPolygonPoints)
    (hW : 0 < m1.w) (hH : 0 < m1.h) (halloc : newRGBAok env m1.w m1.h) :
    ∃ r, MateTraced env m1 m2 s = .ok r := by
  have hmin : MinPolygonPoints = 3 := rfl
  obtain ⟨r, hr, hb⟩ := mateLoop_total env m1 m2 (env.rnd s.pos % m1.Polygons.length) hW hH
    m1.Polygons.length 0 s.advance hsrc
  obtain ⟨result, hres⟩ := RenderImage_total env r.2 ⟨m1.w, m1.h, r.1.map Prod.snd, 0, none⟩
    halloc (fun p hp => by
      obtain ⟨bp, hbp, rfl⟩ := List.mem_map.1 hp
      have := (hb bp hbp).1
      omega)
  refine ⟨((result, r.1.map Prod.fst), r.2), ?_⟩
  unfold MateTraced
  rw [Intn_len env _ s hn]
  simp only
  rw [hr]
  simp only
  rw [hres]

theorem mateSource_some (m1 m2 : Candidate) (c k : Nat)
    (h1 : ∀ p ∈ m1.Polygons, MinPolygonPoints ≤ p.Points.len ∧ p.Points.len ≤ MaxPolygonPoints)
    (h2 : ∀ p ∈ m2.Polygons, MinPolygonPoints ≤ p.Points.len ∧ p.Points.len ≤ MaxPolygonPoints)
    (p : Polygon) (hp : mateSource m1 m2 c k = some p) :
    MinPolygonPoints ≤ p.Points.len ∧ p.Points.len ≤ MaxPolygonPoints := by
  unfold mateSource at hp
  split at hp
  · exact h1 p (List.getElem?_mem hp)
  · exact h2 p (List.getElem?_mem hp)

/-! ## What a slice shows after a write -/

theorem view_getElem (s : St) (sl : Slice) (k : Nat) (h : k < (s.view sl).length) :
    (s.view sl)[k] = s.cells sl.arr (sl.off + k) := by
  simp [St.view]

theorem store_cells_same (s : St) (a start : Nat) (vs : List Point) (j : Nat) :
    (s.store a start vs).cells a j
      = if start ≤ j then (vs[j - start]?).getD (s.cells a j) else s.cells a j := by
  unfold St.store
  by_cases h : start ≤ j
  · simp only [h, and_self, if_true]
    cases vs[j - start]? <;> rfl
  · simp [h]

theorem store_cells_below (s : St) (a start : Nat) (vs : List Point) (j : Nat) (h : j < start) :
    (s.store a start vs).cells a j = s.cells a j := by
  rw [store_cells_same, if_neg (by omega)]

theorem store_cells_at (s : St) (a start : Nat) (vs : List Point) (k : Nat)
    (h : k < vs.length) : (s.store a start vs).cells a (start + k) = vs[k] := by
  rw [store_cells_same, if_pos (by omega), Nat.add_sub_cancel_left,
    List.getElem?_eq_getElem h]
  rfl

theorem store_cells_above (s : St) (a start : Nat) (vs : List Point) (j : Nat)
    (h : start + vs.length ≤ j) : (s.store a start vs).cells a j = s.cells a j := by
  rw [store_cells_same, if_pos (by omega), List.getElem?_eq_none (by omega)]
  rfl

/-- After `append(dst, src...)` the returned slice shows the points of `dst` followed by
`src`. -/
theorem goAppend_view (env : Env) (dst : Slice) (src : List Point) (s : St) :
    (goAppend env dst src s).2.view (goAppend env dst src s).1 = s.view dst ++ src := by
  apply List.ext_getElem
  · rw [view_length, goAppend_len, List.length_append, view_length]
  · intro k h1 h2
    rw [view_getElem]
    rw [view_length, goAppend_len] at h1
    unfold goAppend
    by_cases h : dst.len + src.length ≤ dst.cap
    · simp only [h, if_true]
      by_cases hk : k < dst.len
      · rw [store_cells_below _ _ _ _ _ (by omega),
          List.getElem_append_left (by rw [view_length]; exact hk), view_getElem]
      · have hks : k - dst.len < src.length := by omega
        rw [show dst.off + k = dst.off + dst.len + (k - dst.len) by omega,
          store_cells_at _ _ _ _ _ hks,
          List.getElem_append_right (by rw [view_length]; omega)]
        simp only [view_length]
    · simp only [h, if_false]
      have hk : k < (s.view dst ++ src).length := h2
      have := store_cells_at s s.next 0 (s.view dst ++ src) k hk
      rw [Nat.zero_add] at this
      rw [Nat.zero_add]
      exact this

theorem view_take (s : St) (sl : Slice) (i : Nat) (h : i ≤ sl.len) :
    s.view { sl with len := i } = (s.view sl).take i := by
  apply List.ext_getElem
  · rw [view_length, List.length_take, view_length]
    simp only
    omega
  · intro k h1 h2
    rw [view_getElem, List.getElem_take, view_getElem]

theorem view_drop (s : St) (sl : Slice) (k c : Nat) :
    s.view ⟨sl.arr, sl.off + k, sl.len - k, c⟩ = (s.view sl).drop k := by
  apply List.ext_getElem
  · rw [view_length, List.length_drop, view_length]
  · intro j h1 h2
    rw [view_getElem, List.getElem_drop, view_getElem]
    simp only [Nat.add_assoc]

theorem view_assign (s : St) (sl : Slice) (i : Nat) (v : Point) :
    (s.store sl.arr (sl.off + i) [v]).view sl = (s.view sl).set i v := by
  apply List.ext_getElem
  · rw [view_length, List.length_set, view_length]
  · intro k h1 h2
    rw [view_getElem, List.getElem_set]
    by_cases hk : i = k
    · subst hk
      rw [if_pos rfl]
      have := store_cells_at s sl.arr (sl.off + i) [v] 0 (by simp)
      simpa using this
    · rw [if_neg hk, view_getElem]
      by_cases hlt : k < i
      · exact store_cells_below _ _ _ _ _ (by omega)
      · exact store_cells_above _ _ _ _ _ (by simp only [List.length_singleton]; omega)

/-- `AddPoint(q)` leaves the points of the polygon followed by `q`. -/
theorem AddPoint_view (env : Env) (p : Polygon) (q : Point) (s : St) :
    (AddPoint env p q s).2.view (AddPoint env p q s).1.Points = s.view p.Points ++ [q] :=
  goAppend_view env p.Points [q] s

/-- Removing index `i` leaves the points of the polygon without the one at index `i`. -/
theorem deleteAt_view (env : Env) (p : Polygon) (i : Nat) (s : St) (h : i < p.Points.len) :
    (deleteAt env p i s).2.view (deleteAt env p i s).1.Points
      = (s.view p.Points).eraseIdx i := by
  unfold deleteAt
  simp only
  rw [goAppend_view, view_take s p.Points i (by omega), view_drop,
    List.eraseIdx_eq_take_drop_succ]

/-! ## What one mutation does to the points -/

theorem MutatePoint_result {env : Env} {o : Point} {maxW maxH : Int} {s : St} {r : Point × St}
    (h : MutatePoint env o maxW maxH s = .ok r) :
    (r.1.Y = o.Y ∧ 0 ≤ r.1.X ∧ r.1.X < maxW) ∨ (r.1.X = o.X ∧ 0 ≤ r.1.Y ∧ r.1.Y < maxH) := by
  unfold MutatePoint at h
  rw [Intn_two] at h
  simp only at h
  have h2 : env.rnd s.pos % 2 = 0 ∨ env.rnd s.pos % 2 = 1 := by omega
  rcases h2 with h2 | h2
  · rw [h2] at h
    simp only at h
    split at h
    · cases h
    · rename_i x s2 hx
      obtain ⟨hW, hx⟩ := Intn_ok hx
      cases hx
      cases h
      exact Or.inl ⟨rfl, Int.ofNat_nonneg _, toNat_mod_lt _ _ hW⟩
  · rw [h2] at h
    simp only at h
    split at h
    · cases h
    · rename_i y s2 hy
      obtain ⟨hH, hy⟩ := Intn_ok hy
      cases hy
      cases h
      exact Or.inr ⟨rfl, Int.ofNat_nonneg _, toNat_mod_lt _ _ hH⟩

/-- A returning point mutation rewrites the one cell of the drawn index and nothing else of the
polygon. -/
theorem mutatePointCase_effect {env : Env} {p : Polygon} {maxW maxH : Int} {s : St}
    {r : Polygon × St} (h : mutatePointCase env p maxW maxH s = .ok r) :
    r.1 = p ∧ ∃ i o q, i = env.rnd s.pos % p.Points.len ∧ i < p.Points.len ∧
      (s.view p.Points)[i]? = some o ∧
      r.2.view p.Points = (s.view p.Points).set i q ∧
      ((q.Y = o.Y ∧ 0 ≤ q.X ∧ q.X < maxW) ∨ (q.X = o.X ∧ 0 ≤ q.Y ∧ q.Y < maxH)) := by
  unfold mutatePointCase at h
  split at h
  · cases h
  · rename_i i s1 h1
    obtain ⟨hpos, h1⟩ := Intn_ok h1
    have hlen : 0 < p.Points.len := by exact_mod_cast hpos
    simp only [Int.toNat_ofNat] at h1
    cases h1
    have hi : env.rnd s.pos % p.Points.len < p.Points.len := Nat.mod_lt _ hlen
    simp only [St.index, if_pos hi] at h
    split at h
    · cases h
    · rename_i mutated s2 hm
      obtain ⟨hc, -⟩ := MutatePoint_ok hm
      have hres := MutatePoint_result hm
      simp only [St.assign, if_pos hi] at h
      cases h
      simp only [advance_cells] at hc hres
      refine ⟨rfl, _, _, mutated, rfl, hi, ?_, ?_, hres⟩
      · rw [List.getElem?_eq_getElem (by rw [view_length]; exact hi), view_getElem]
      · have e : s2.view p.Points = s.view p.Points := view_congr s s2 p.Points (fun j => by rw [hc])
        have := view_assign s2 p.Points (env.rnd s.pos % p.Points.len) mutated
        rw [e] at this
        exact this

theorem addRandomPoint_effect {env : Env} {p : Polygon} {maxW maxH : Int} {s : St}
    {r : Polygon × St} (h : addRandomPoint env p maxW maxH s = .ok r) :
    r.1.Color = p.Color ∧ r.1.Points.len = p.Points.len + 1 ∧
      ∃ q, inBounds maxW maxH q ∧ r.2.view r.1.Points = s.view p.Points ++ [q] := by
  unfold addRandomPoint at h
  split at h
  · cases h
  · rename_i q s1 h1
    obtain ⟨hW, hH⟩ := RandomPoint_ok h1
    rw [RandomPoint_eq env maxW maxH s hW hH] at h1
    cases h1
    cases h
    refine ⟨AddPoint_Color _ _ _ _, AddPoint_len _ _ _ _,
      ⟨((env.rnd s.pos % maxW.toNat : Nat) : Int), ((env.rnd (s.pos + 1) % maxH.toNat : Nat) : Int)⟩,
      ⟨Int.ofNat_nonneg _, toNat_mod_lt _ _ hW, Int.ofNat_nonneg _, toNat_mod_lt _ _ hH⟩, ?_⟩
    rw [AddPoint_view]
    rfl

theorem DeleteRandomPoint_effect {env : Env} {p : Polygon} {s : St}
    {r : Polygon × St} (h : DeleteRandomPoint env p s = .ok r) :
    r.1.Color = p.Color ∧ r.1.Points.len + 1 = p.Points.len ∧
      ∃ i, i = env.rnd s.pos % p.Points.len ∧ i < p.Points.len ∧
        r.2.view r.1.Points = (s.view p.Points).eraseIdx i := by
  have hlen : 0 < p.Points.len := by
    unfold DeleteRandomPoint at h
    split at h
    · cases h
    · rename_i i s1 h1
      exact_mod_cast (Intn_ok h1).1
  rw [DeleteRandomPoint_eq env p s hlen] at h
  cases h
  have hi : env.rnd s.pos % p.Points.len < p.Points.len := Nat.mod_lt _ hlen
  refine ⟨deleteAt_Color _ _ _ _, deleteAt_len _ _ _ _ hi, _, rfl, hi, ?_⟩
  rw [deleteAt_view env p _ _ hi]
  rfl

/-- A returning add-or-delete mutation keeps the colour and either appends one in-bounds point
(never at 6 points) or removes one index (never at 3 points). -/
theorem mutateAddOrDeleteCase_effect {env : Env} {p : Polygon} {maxW maxH : Int} {s : St}
    {r : Polygon × St} (h : mutateAddOrDeleteCase env p maxW maxH s = .ok r) :
    r.1.Color = p.Color ∧
    ((p.Points.len ≠ MaxPolygonPoints ∧ r.1.Points.len = p.Points.len + 1 ∧
        ∃ q, inBounds maxW maxH q ∧ r.2.view r.1.Points = s.view p.Points ++ [q]) ∨
     (p.Points.len ≠ MinPolygonPoints ∧ r.1.Points.len + 1 = p.Points.len ∧
        ∃ i, i < p.Points.len ∧ r.2.view r.1.Points = (s.view p.Points).eraseIdx i)) := by
  have h36 : MinPolygonPoints ≠ MaxPolygonPoints := by decide
  unfold mutateAddOrDeleteCase at h
  split at h
  · rename_i h3
    obtain ⟨hc, hl, hq⟩ := addRandomPoint_effect h
    exact ⟨hc, Or.inl ⟨by rw [h3]; exact h36, hl, hq⟩⟩
  · rename_i h3
    split at h
    · obtain ⟨hc, hl, i, -, hi, hv⟩ := DeleteRandomPoint_effect h
      exact ⟨hc, Or.inr ⟨h3, hl, i, hi, hv⟩⟩
    · rename_i h6
      rw [Intn_two] at h
      simp only at h
      have h2 : env.rnd s.pos % 2 = 0 ∨ env.rnd s.pos % 2 = 1 := by omega
      rcases h2 with h2 | h2
      · rw [h2] at h
        obtain ⟨hc, hl, hq⟩ := addRandomPoint_effect (s := s.advance) h
        exact ⟨hc, Or.inl ⟨h6, hl, hq⟩⟩
      · rw [h2] at h
        obtain ⟨hc, hl, i, -, hi, hv⟩ := DeleteRandomPoint_effect (s := s.advance) h
        exact ⟨hc, Or.inr ⟨h3, hl, i, hi, hv⟩⟩

theorem advance_view (s : St) (sl : Slice) : s.advance.view sl = s.view sl := rfl

/-- What a returning `Mutate` call did, by the kind drawn: a colour mutation leaves the slice
and its points; a point mutation leaves the struct and rewrites one index, replacing one
coordinate by an in-bounds value; an add-or-delete mutation keeps the colour and appends one
in-bounds point or removes one index. -/
theorem Mutate_effect {env : Env} {p : Polygon} {maxW maxH : Int} {s : St}
    {r : Polygon × St} (h : Mutate env p maxW maxH s = .ok r) :
    (env.rnd s.pos % 2 ^ 63 % 3 = MutationColor ∧ r.1.Points = p.Points ∧
        r.2.view p.Points = s.view p.Points) ∨
    (env.rnd s.pos % 2 ^ 63 % 3 = MutationPoint ∧ r.1 = p ∧
        ∃ i o q, i < p.Points.len ∧ (s.view p.Points)[i]? = some o ∧
          r.2.view p.Points = (s.view p.Points).set i q ∧
          ((q.Y = o.Y ∧ 0 ≤ q.X ∧ q.X < maxW) ∨ (q.X = o.X ∧ 0 ≤ q.Y ∧ q.Y < maxH))) ∨
    (env.rnd s.pos % 2 ^ 63 % 3 = MutationAddOrDeletePoint ∧ r.1.Color = p.Color ∧
        ((p.Points.len ≠ MaxPolygonPoints ∧ r.1.Points.len = p.Points.len + 1 ∧
            ∃ q, inBounds maxW maxH q ∧ r.2.view r.1.Points = s.view p.Points ++ [q]) ∨
         (p.Points.len ≠ MinPolygonPoints ∧ r.1.Points.len + 1 = p.Points.len ∧
            ∃ i, i < p.Points.len ∧ r.2.view r.1.Points = (s.view p.Points).eraseIdx i))) := by
  unfold Mutate at h
  rw [randomMutation_eq] at h
  simp only at h
  have hk : env.rnd s.pos % 2 ^ 63 % 3 = 0 ∨ env.rnd s.pos % 2 ^ 63 % 3 = 1
      ∨ env.rnd s.pos % 2 ^ 63 % 3 = 2 := by omega
  rcases hk with hk | hk | hk
  · rw [hk] at h
    simp only at h
    rw [mutateColorCase_eq] at h
    cases h
    exact Or.inl ⟨hk, rfl, rfl⟩
  · rw [hk] at h
    simp only at h
    obtain ⟨hp, i, o, q, -, hi, ho, hv, hq⟩ := mutatePointCase_effect h
    exact Or.inr (Or.inl ⟨hk, hp, i, o, q, hi, ho, hv, hq⟩)
  · rw [hk] at h
    simp only at h
    obtain ⟨hc, hcase⟩ := mutateAddOrDeleteCase_effect h
    exact Or.inr (Or.inr ⟨hk, hc, hcase⟩)

/-- On a polygon with at least one point and with positive bounds `Mutate` returns. -/
theorem Mutate_total (env : Env) (p : Polygon) (maxW maxH : Int) (s : St)
    (hn : 0 < p.Points.len) (hW : 0 < maxW) (hH : 0 < maxH) :
    ∃ r, Mutate env p maxW maxH s = .ok r := by
  unfold Mutate
  rw [randomMutation_eq]
  have hk : env.rnd s.pos % 2 ^ 63 % 3 = 0 ∨ env.rnd s.pos % 2 ^ 63 % 3 = 1
      ∨ env.rnd s.pos % 2 ^ 63 % 3 = 2 := by omega
  rcases hk with hk | hk | hk
  · rw [hk]
    exact ⟨_, mutateColorCase_eq env p _⟩
  · rw [hk]
    obtain ⟨q, hq, -⟩ := mutatePointCase_eq env p maxW maxH s.advance hn hW hH
    exact ⟨_, hq⟩
  · rw [hk]
    simp only
    unfold mutateAddOrDeleteCase
    split
    · exact ⟨_, addRandomPoint_eq env p maxW maxH _ hW hH⟩
    · split
      · exact ⟨_, DeleteRandomPoint_eq env p _ hn⟩
      · rw [Intn_two]
        have h2 : env.rnd s.advance.pos % 2 = 0 ∨ env.rnd s.advance.pos % 2 = 1 := by omega
        rcases h2 with h2 | h2
        · rw [h2]
          exact ⟨_, addRandomPoint_eq env p maxW maxH _ hW hH⟩
        · rw [h2]
          exact ⟨_, DeleteRandomPoint_eq env p _ hn⟩

/-- A returning `Mutate` call keeps all points of the polygon inside the bounds. -/
theorem Mutate_inBounds {env : Env} {p : Polygon} {maxW maxH : Int} {s : St}
    {r : Polygon × St} (h : Mutate env p maxW maxH s = .ok r)
    (hb : ∀ q ∈ s.view p.Points, inBounds maxW maxH q) :
    ∀ q ∈ r.2.view r.1.Points, inBounds maxW maxH q := by
  rcases Mutate_effect h with ⟨-, hP, hv⟩ | ⟨-, hp, i, o, q, -, ho, hv, hq⟩ | ⟨-, -, hcase⟩
  · rw [hP, hv]
    exact hb
  · rw [hp, hv]
    intro x hx
    rcases List.mem_or_eq_of_mem_set hx with hx | hx
    · exact hb x hx
    · have hob := hb o (List.getElem?_mem ho)
      unfold inBounds at hob ⊢
      rw [hx]
      rcases hq with ⟨e, h1, h2⟩ | ⟨e, h1, h2⟩
      · exact ⟨h1, h2, by rw [e]; exact hob.2.2.1, by rw [e]; exact hob.2.2.2⟩
      · exact ⟨by rw [e]; exact hob.1, by rw [e]; exact hob.2.1, h1, h2⟩
  · rcases hcase with ⟨-, -, q, hq, hv⟩ | ⟨-, -, i, -, hv⟩
    · rw [hv]
      intro x hx
      rcases List.mem_append.1 hx with hx | hx
      · exact hb x hx
      · rw [List.mem_singleton.1 hx]
        exact hq
    · rw [hv]
      intro x hx
      exact hb x (List.mem_of_mem_eraseIdx hx)

/-! ## Where a freshly built polygon lives -/

/-- Appending to a polygon that is still the nil slice, or whose array was allocated at or after
identifier `n0`, leaves it on an array allocated at or after `n0` and writes no older array. -/
theorem AddPoint_own (env : Env) (p : Polygon) (q : Point) (s : St) (n0 : Nat)
    (hn0 : n0 ≤ s.next)
    (hown : p.Points.cap = 0 ∨ (n0 ≤ p.Points.arr ∧ p.Points.arr < s.next)) :
    (n0 ≤ (AddPoint env p q s).1.Points.arr ∧
      (AddPoint env p q s).1.Points.arr < (AddPoint env p q s).2.next) ∧
    s.next ≤ (AddPoint env p q s).2.next ∧
    ∀ a j, a < n0 → (AddPoint env p q s).2.cells a j = s.cells a j := by
  unfold AddPoint goAppend
  by_cases h : p.Points.len + [q].length ≤ p.Points.cap
  · simp only [h, if_true]
    have hc : p.Points.cap ≠ 0 := by
      simp only [List.length_singleton] at h
      omega
    rcases hown with h0 | ⟨h1, h2⟩
    · exact absurd h0 hc
    · refine ⟨⟨h1, h2⟩, le_refl _, fun a j ha => ?_⟩
      exact store_cells_other s _ _ _ a j (by omega)
  · simp only [h, if_false]
    refine ⟨⟨hn0, Nat.lt_succ_self _⟩, Nat.le_succ _, fun a j ha => ?_⟩
    exact store_cells_other s _ _ _ a j (by omega)

theorem addRandomPoint_own {env : Env} {p : Polygon} {maxW maxH : Int} {s : St}
    {r : Polygon × St} (h : addRandomPoint env p maxW maxH s = .ok r) (n0 : Nat)
    (hn0 : n0 ≤ s.next)
    (hown : p.Points.cap = 0 ∨ (n0 ≤ p.Points.arr ∧ p.Points.arr < s.next)) :
    (n0 ≤ r.1.Points.arr ∧ r.1.Points.arr < r.2.next) ∧ s.next ≤ r.2.next ∧
    ∀ a j, a < n0 → r.2.cells a j = s.cells a j := by
  unfold addRandomPoint at h
  split at h
  · cases h
  · rename_i q s1 h1
    obtain ⟨hW, hH⟩ := RandomPoint_ok h1
    rw [RandomPoint_eq env maxW maxH s hW hH] at h1
    cases h1
    cases h
    exact AddPoint_own env p _ s.advance.advance n0 hn0 hown

/-- The loop of `RandomPolygon`: the points it appends are in bounds, the polygon ends on an
array allocated at or after `n0` (if anything was appended), and no older array is written. -/
theorem addRandomPoints_own (env : Env) (maxW maxH : Int) (n0 : Nat) :
    ∀ (n : Nat) (p : Polygon) (s : St) (r : Polygon × St),
      addRandomPoints env maxW maxH n p s = .ok r →
      n0 ≤ s.next →
      (p.Points.cap = 0 ∨ (n0 ≤ p.Points.arr ∧ p.Points.arr < s.next)) →
      (∀ q ∈ s.view p.Points, inBounds maxW maxH q) →
      ((n0 ≤ p.Points.arr ∧ p.Points.arr < s.next) ∨ 0 < n →
        n0 ≤ r.1.Points.arr ∧ r.1.Points.arr < r.2.next) ∧
      s.next ≤ r.2.next ∧
      (∀ a j, a < n0 → r.2.cells a j = s.cells a j) ∧
      (∀ q ∈ r.2.view r.1.Points, inBounds maxW maxH q) := by
  intro n
  induction n with
  | zero =>
    intro p s r h _ _ hb
    cases h
    refine ⟨fun ho => ?_, le_refl _, fun _ _ _ => rfl, hb⟩
    rcases ho with ho | ho
    · exact ho
    · omega
  | succ n ih =>
    intro p s r h hn0 hown hb
    rw [addRandomPoints] at h
    split at h
    · cases h
    · rename_i p1 s1 h1
      obtain ⟨ho1, hn1, hc1⟩ := addRandomPoint_own h1 n0 hn0 hown
      obtain ⟨-, -, q, hq, hv⟩ := addRandomPoint_effect h1
      simp only at ho1 hn1 hc1 hv
      have hb1 : ∀ x ∈ s1.view p1.Points, inBounds maxW maxH x := by
        rw [hv]
        intro x hx
        rcases List.mem_append.1 hx with hx | hx
        · exact hb x hx
        · rw [List.mem_singleton.1 hx]
          exact hq
      obtain ⟨ho2, hn2, hc2, hb2⟩ := ih p1 s1 r h (le_trans hn0 hn1) (Or.inr ho1) hb1
      exact ⟨fun _ => ho2 (Or.inl ho1), le_trans hn1 hn2,
        fun a j ha => (hc2 a j ha).trans (hc1 a j ha), hb2⟩

/-- A polygon returned by `RandomPolygon` has all its points in bounds, sits on an array the call
allocated (unless it is empty), and the call writes no array that existed before. -/
theorem RandomPolygon_own {env : Env} {maxW maxH : Int} {s : St} {r : Polygon × St}
    (h : RandomPolygon env maxW maxH s = .ok r) :
    (0 < r.1.Points.len → s.next ≤ r.1.Points.arr ∧ r.1.Points.arr < r.2.next) ∧
    s.next ≤ r.2.next ∧
    (∀ a j, a < s.next → r.2.cells a j = s.cells a j) ∧
    (∀ q ∈ r.2.view r.1.Points, inBounds maxW maxH q) := by
  obtain ⟨-, hlen⟩ := RandomPolygon_shape h
  unfold RandomPolygon at h
  rw [randomColor_eq] at h
  simp only at h
  obtain ⟨ho, hn, hc, hb⟩ := addRandomPoints_own env maxW maxH s.next _
    ⟨⟨0, 0, 0, 0⟩, _⟩ _ _ h (le_refl _) (Or.inl rfl) (fun q hq => by simp [St.view] at hq)
  refine ⟨fun hpos => ho (Or.inr ?_), hn, hc, hb⟩
  rw [hlen] at hpos
  exact hpos

/-- The polygons `RandomCandidate` builds: each has between 3 and 6 points when `RandomInt`
yields such counts and, in the final state, all its points in bounds; arrays that existed before
are not written. -/
theorem randomPolygons_own (env : Env) (w h : Int)
    (hR : ∀ d, (MinPolygonPoints : Int) ≤ env.RandomInt MinPolygonPoints MaxPolygonPoints d ∧
      env.RandomInt MinPolygonPoints MaxPolygonPoints d ≤ (MaxPolygonPoints : Int)) :
    ∀ (n : Nat) (s : St) (r : List Polygon × St),
      randomPolygons env w h n s = .ok r →
      s.next ≤ r.2.next ∧
      (∀ a j, a < s.next → r.2.cells a j = s.cells a j) ∧
      ∀ p ∈ r.1, MinPolygonPoints ≤ p.Points.len ∧ p.Points.len ≤ MaxPolygonPoints ∧
        ∀ q ∈ r.2.view p.Points, inBounds w h q := by
  have hmin : MinPolygonPoints = 3 := rfl
  intro n
  induction n with
  | zero =>
    intro s r hr
    cases hr
    exact ⟨le_refl _, fun _ _ _ => rfl, fun p hp => by simp at hp⟩
  | succ n ih =>
    intro s r hr
    rw [randomPolygons] at hr
    split at hr
    · cases hr
    · rename_i p s1 hp
      split at hr
      · cases hr
      · rename_i ps s2 hps
        cases hr
        obtain ⟨hown, hn1, hc1, hb1⟩ := RandomPolygon_own hp
        obtain ⟨-, hlen⟩ := RandomPolygon_shape hp
        obtain ⟨hn2, hc2, hall⟩ := ih s1 (ps, s2) hps
        simp only at hown hn1 hc1 hb1 hlen hn2 hc2 hall
        refine ⟨le_trans hn1 hn2, fun a j ha => (hc2 a j (lt_of_lt_of_le ha hn1)).trans
          (hc1 a j ha), ?_⟩
        intro x hx
        rcases List.mem_cons.1 hx with e | e
        · subst e
          have hr1 := hR (env.rnd (s.pos + 4))
          have hlo : MinPolygonPoints ≤ x.Points.len := by omega
          have hhi : x.Points.len ≤ MaxPolygonPoints := by omega
          refine ⟨hlo, hhi, ?_⟩
          obtain ⟨-, h2⟩ := hown (by omega)
          have hv : s2.view x.Points = s1.view x.Points :=
            view_congr s1 s2 x.Points (fun j => hc2 _ j h2)
          rw [hv]
          exact hb1
        · exact hall x e

theorem RandomCandidate_ok {env : Env} {w h : Int} {s : St} {r : Candidate × St}
    (hr : RandomCandidate env w h s = .ok r) :
    randomPolygons env w h PolygonsPerIndividual s = .ok (r.1.Polygons, r.2) := by
  unfold RandomCandidate at hr
  split at hr
  · cases hr
  · rename_i ps s1 hps
    split at hr
    · cases hr
    · rename_i cd hcd
      cases hr
      obtain ⟨-, -, hp, -⟩ := RenderImage_ok hcd
      simp only at hp
      rw [hps, hp]

/-! ## Rendering -/

theorem view_eq_nil (s : St) (sl : Slice) (h : sl.len = 0) : s.view sl = [] := by
  simp [St.view, h]

theorem renderPolygon_eq (s : St) (p : Polygon) (first : Point) (rest : List Point)
    (h : s.view p.Points = first :: rest) :
    renderPolygon s p = .ok (polygonCommands p.Color first rest) := by
  have hlen : 0 < p.Points.len := by
    have := congrArg List.length h
    rw [view_length] at this
    simp only [List.length_cons] at this
    omega
  have h0 : s.cells p.Points.arr (p.Points.off + 0) = first := by
    have := view_getElem s p.Points 0 (by rw [view_length]; exact hlen)
    rw [← this]
    simp only [h, List.getElem_cons_zero]
  unfold renderPolygon polygonCommands
  rw [St.index, if_pos hlen]
  simp only
  rw [h0, h]
  rfl

theorem renderPolygon_empty (s : St) (p : Polygon) (h : p.Points.len = 0) :
    renderPolygon s p = .error .indexOutOfRange := by
  unfold renderPolygon
  rw [St.index, if_neg (by omega)]

/-- On polygons that all have a point the loop of `RenderImage` issues exactly the commands the
specification lists for their contents. -/
theorem renderPolygons_eq (s : St) :
    ∀ ps : List Polygon, (∀ p ∈ ps, 0 < p.Points.len) →
      renderPolygons s ps = .ok (commandsOf (contents s ps)) := by
  intro ps
  induction ps with
  | nil => exact fun _ => rfl
  | cons p rest ih =>
    intro h
    have hp : 0 < p.Points.len := h p (List.mem_cons_self _ _)
    have hrest := ih (fun q hq => h q (List.mem_cons_of_mem _ hq))
    cases hv : s.view p.Points with
    | nil =>
      have := congrArg List.length hv
      rw [view_length] at this
      simp only [List.length_nil] at this
      omega
    | cons first more =>
      rw [renderPolygons, renderPolygon_eq s p first more hv]
      simp only
      rw [hrest]
      simp only [contents, List.map_cons, hv, commandsOf]

/-- If some polygon has no point the loop of `RenderImage` panics with index out of range. -/
theorem renderPolygons_fatal (s : St) :
    ∀ ps : List Polygon, (∃ p ∈ ps, p.Points.len = 0) →
      renderPolygons s ps = .error .indexOutOfRange := by
  intro ps
  induction ps with
  | nil =>
    rintro ⟨p, hp, -⟩
    simp at hp
  | cons p rest ih =>
    rintro ⟨q, hq, hq0⟩
    rw [renderPolygons]
    by_cases hp : p.Points.len = 0
    · rw [renderPolygon_empty s p hp]
    · cases hv : s.view p.Points with
      | nil =>
        have := congrArg List.length hv
        rw [view_length] at this
        simp only [List.length_nil] at this
        omega
      | cons first more =>
        rw [renderPolygon_eq s p first more hv]
        simp only
        rcases List.mem_cons.1 hq with e | e
        · rw [e] at hq0
          exact absurd hq0 hp
        · rw [ih ⟨q, e, hq0⟩]

theorem commandsOf_append (xs ys : List (RGBA × List Point)) :
    commandsOf (xs ++ ys) = commandsOf xs ++ commandsOf ys := by
  induction xs with
  | nil => rfl
  | cons x more ih =>
    obtain ⟨c, pts⟩ := x
    cases pts with
    | nil => simpa [commandsOf] using ih
    | cons first rest => simp [commandsOf, ih]

theorem contents_nonempty (s t : St) (ps qs : List Polygon)
    (h : contents t qs = contents s ps) (hp : ∀ p ∈ ps, 0 < p.Points.len) :
    ∀ q ∈ qs, 0 < q.Points.len := by
  intro q hq
  have hm : (q.Color, t.view q.Points) ∈ contents t qs :=
    List.mem_map.2 ⟨q, hq, rfl⟩
  rw [h] at hm
  obtain ⟨p, hpm, he⟩ := List.mem_map.1 hm
  have hl := congrArg (fun x => x.2.length) he
  simp only [view_length] at hl
  have := hp p hpm
  omega

theorem RenderImage_eq (env : Env) (s : St) (cd : Candidate)
    (halloc : newRGBAok env cd.w cd.h) (h : ∀ p ∈ cd.Polygons, 0 < p.Points.len) :
    RenderImage env s cd
      = .ok ⟨cd.w, cd.h, cd.Polygons, cd.Fitness,
          some ⟨cd.w, cd.h, GcCall.SetLineWidth 1 :: commandsOf (contents s cd.Polygons)⟩⟩ := by
  unfold RenderImage
  rw [if_pos halloc, renderPolygons_eq s cd.Polygons h]

theorem RenderImage_fatal (env : Env) (s : St) (cd : Candidate)
    (halloc : newRGBAok env cd.w cd.h) (h : ∃ p ∈ cd.Polygons, p.Points.len = 0) :
    RenderImage env s cd = .error .indexOutOfRange := by
  unfold RenderImage
  rw [if_pos halloc, renderPolygons_fatal s cd.Polygons h]

theorem empty_or_all_nonempty (ps : List Polygon) :
    (∃ p ∈ ps, p.Points.len = 0) ∨ ∀ p ∈ ps, 0 < p.Points.len := by
  by_cases h : ∃ p ∈ ps, p.Points.len = 0
  · exact Or.inl h
  · right
    intro p hp
    by_contra hlen
    exact h ⟨p, hp, by omega⟩

/-! ## Premultiplied colours -/

theorem hiByte_lt (x : Nat) : hiByte x < 256 := by
  unfold hiByte
  exact Nat.mod_lt _ (by norm_num)

/-- Premultiplying a byte channel by a byte alpha gives at most that alpha. -/
theorem premultiply_le (x a : Nat) (hx : x < 256) (ha : a < 256) :
    hiByte (widen x * a % 2 ^ 32 / 0xff) ≤ a := by
  rw [widen_eq x hx, hiByte_eq]
  have hmul : x * 257 * a ≤ 255 * 257 * a := Nat.mul_le_mul_right a (by omega)
  generalize x * 257 * a = y at hmul
  have h1 : y % 2 ^ 32 = y := Nat.mod_eq_of_lt (by omega)
  rw [h1]
  have h2 : y / 0xff ≤ 257 * a := by omega
  generalize y / 0xff = z at h2
  have h3 : z / 256 ≤ a := by omega
  have h4 : z / 256 % 256 ≤ z / 256 := Nat.mod_le _ _
  omega

/-- The premultiplied form of a byte quadruple has colour channels at most alpha, and the same
alpha. -/
theorem rgbaModel_valid (n : NRGBA) (hR : n.R < 256) (hG : n.G < 256) (hB : n.B < 256)
    (hA : n.A < 256) :
    (rgbaModel n).R ≤ (rgbaModel n).A ∧ (rgbaModel n).G ≤ (rgbaModel n).A ∧
      (rgbaModel n).B ≤ (rgbaModel n).A ∧ (rgbaModel n).A = n.A := by
  have hAeq : (rgbaModel n).A = n.A := hiByte_widen n.A hA
  refine ⟨?_, ?_, ?_, hAeq⟩
  · rw [hAeq]
    exact premultiply_le n.R n.A hR hA
  · rw [hAeq]
    exact premultiply_le n.G n.A hG hA
  · rw [hAeq]
    exact premultiply_le n.B n.A hB hA

/-- The non-premultiplied form of a byte quadruple is a byte quadruple with the same alpha. -/
theorem nrgbaModel_bytes (c : RGBA) (hb : c.isBytes) :
    (nrgbaModel c).R < 256 ∧ (nrgbaModel c).G < 256 ∧ (nrgbaModel c).B < 256 ∧
      (nrgbaModel c).A = c.A := by
  obtain ⟨-, -, -, hA⟩ := hb
  unfold nrgbaModel RGBA.RGBA
  simp only
  rw [widen_eq c.A hA]
  by_cases h1 : c.A * 257 = 0xffff
  · rw [if_pos h1]
    exact ⟨hiByte_lt _, hiByte_lt _, hiByte_lt _, by simp only; omega⟩
  · rw [if_neg h1]
    by_cases h2 : c.A * 257 = 0
    · rw [if_pos h2]
      exact ⟨by norm_num, by norm_num, by norm_num, by simp only; omega⟩
    · rw [if_neg h2]
      refine ⟨hiByte_lt _, hiByte_lt _, hiByte_lt _, ?_⟩
      simp only
      rw [← widen_eq c.A hA]
      exact hiByte_widen c.A hA

theorem setChannel_bytes (n : NRGBA) (i val : Nat) (hR : n.R < 256) (hG : n.G < 256)
    (hB : n.B < 256) (hA : n.A < 256) (hv : val < 256) :
    (setChannel n i val).R < 256 ∧ (setChannel n i val).G < 256 ∧
      (setChannel n i val).B < 256 ∧ (setChannel n i val).A < 256 ∧
      (i < 3 → (setChannel n i val).A = n.A) ∧ (i = 3 → (setChannel n i val).A = val) := by
  unfold setChannel
  split
  · exact ⟨hv, hG, hB, hA, fun _ => rfl, fun h => by omega⟩
  · exact ⟨hR, hv, hB, hA, fun _ => rfl, fun h => by omega⟩
  · exact ⟨hR, hG, hv, hA, fun _ => rfl, fun h => by omega⟩
  · exact ⟨hR, hG, hB, hv, fun h => by omega, fun _ => rfl⟩
  · rename_i h0 h1 h2 h3
    exact ⟨hR, hG, hB, hA, fun _ => rfl, fun h => absurd h h3⟩

/-- The colour `MutateColor` returns is a valid premultiplied colour whose alpha is the old
alpha, or the replacement byte when alpha was selected. -/
theorem MutateColorWith_valid (c : RGBA) (i val : Nat) (hb : c.isBytes) (hv : val < 256) :
    (MutateColorWith c i val).R ≤ (MutateColorWith c i val).A ∧
    (MutateColorWith c i val).G ≤ (MutateColorWith c i val).A ∧
    (MutateColorWith c i val).B ≤ (MutateColorWith c i val).A ∧
    (i < 3 → (MutateColorWith c i val).A = c.A) ∧
    (i = 3 → (MutateColorWith c i val).A = val) := by
  obtain ⟨hR, hG, hB, hA⟩ := nrgbaModel_bytes c hb
  have hA2 : (nrgbaModel c).A < 256 := by
    rw [hA]
    exact hb.2.2.2
  obtain ⟨sR, sG, sB, sA, s3, s4⟩ := setChannel_bytes (nrgbaModel c) i val hR hG hB hA2 hv
  obtain ⟨vR, vG, vB, vA⟩ := rgbaModel_valid (setChannel (nrgbaModel c) i val) sR sG sB sA
  unfold MutateColorWith
  refine ⟨vR, vG, vB, fun h => ?_, fun h => ?_⟩
  · rw [vA, s3 h, hA]
  · rw [vA, s4 h]

/-! ## Crossover without mutation -/

theorem mateLoop_unfired (env : Env) (m1 m2 : Candidate) (c n i : Nat) (s : St)
    (r : List (Bool × Polygon) × St) (h : mateLoop env m1 m2 c n i s = .ok r)
    (hf : ∀ f ∈ r.1.map Prod.fst, f = false) :
    (r.1.map Prod.snd).length = n ∧
    ∀ k, k < n → (r.1.map Prod.snd)[k]? = mateSource m1 m2 c (i + k) := by
  obtain ⟨hlen, hsrc, -, -⟩ := mateLoop_spec env m1 m2 c n i s r h
  refine ⟨by rw [List.length_map, hlen], fun k hk => ?_⟩
  have hkb : k < r.1.length := by omega
  have hfk : (r.1[k]).1 = false :=
    hf _ (List.mem_map.2 ⟨r.1[k], List.getElem_mem _, rfl⟩)
  have hbk : r.1[k]? = some (false, (r.1[k]).2) := by
    rw [List.getElem?_eq_getElem hkb, ← hfk]
  rw [hsrc k _ hbk, List.getElem?_map, List.getElem?_eq_getElem hkb]
  rfl

/-- A list that holds at every index the crossover source is the first `c + 1` polygons of the
first parent followed by the polygons of the second parent from index `c + 1` on. -/
theorem crossover_list (m1 m2 : Candidate) (c : Nat) (l : List Polygon)
    (hc : c < m1.Polygons.length) (h2 : m2.Polygons.length = m1.Polygons.length)
    (hl : l.length = m1.Polygons.length)
    (hk : ∀ k, k < m1.Polygons.length → l[k]? = mateSource m1 m2 c k) :
    l = m1.Polygons.take (c + 1) ++ m2.Polygons.drop (c + 1) := by
  apply List.ext_getElem?
  intro k
  have htl : (m1.Polygons.take (c + 1)).length = c + 1 := by
    rw [List.length_take]
    omega
  by_cases hkn : k < m1.Polygons.length
  · rw [hk k hkn]
    unfold mateSource
    by_cases hkc : k ≤ c
    · rw [if_pos hkc, List.getElem?_append_left (by omega),
        List.getElem?_take_of_lt (by omega)]
    · rw [if_neg hkc, List.getElem?_append_right (by omega), htl, List.getElem?_drop]
      congr 1
      omega
  · rw [List.getElem?_eq_none (by omega), List.getElem?_append_right (by omega), htl,
      List.getElem?_drop, List.getElem?_eq_none (by omega)]

/-! ## Allocation of the image buffer -/

/-- With an empty receiver `Mate` panics in `rand.Intn(0)`. -/
theorem Mate_empty (env : Env) (m1 m2 : Candidate) (s : St) (h : m1.Polygons.length = 0) :
    Mate env m1 m2 s = .error .intnNonPositive := by
  unfold Mate MateTraced
  rw [h, Intn_nonpos env _ s (by norm_num)]

/-- When every index of the loop has a source polygon with 3 to 6 points, the loop of `Mate`
completes; `Mate` then returns if the buffer can be allocated and panics in `image.NewRGBA`
if not. -/
theorem Mate_of_sources (env : Env) (m1 m2 : Candidate) (s : St)
    (hn : 0 < m1.Polygons.length)
    (hsrc : ∀ k, k < m1.Polygons.length →
      ∃ p, mateSource m1 m2 (env.rnd s.pos % m1.Polygons.length) (0 + k) = some p ∧
        MinPolygonPoints ≤ p.Points.len ∧ p.Points.len ≤ MaxPolygonPoints)
    (hW : 0 < m1.w) (hH : 0 < m1.h) :
    (∃ r, mateLoop env m1 m2 (env.rnd s.pos % m1.Polygons.length) m1.Polygons.length 0
        s.advance = .ok r) ∧
    (newRGBAok env m1.w m1.h → ∃ r, Mate env m1 m2 s = .ok r) ∧
    (¬ newRGBAok env m1.w m1.h → Mate env m1 m2 s = .error .newRGBA) := by
  obtain ⟨r, hr, -⟩ := mateLoop_total env m1 m2 (env.rnd s.pos % m1.Polygons.length) hW hH
    m1.Polygons.length 0 s.advance hsrc
  refine ⟨⟨r, hr⟩, fun halloc => ?_, fun halloc => ?_⟩
  · obtain ⟨t, ht⟩ := MateTraced_returns env m1 m2 s hn hsrc hW hH halloc
    refine ⟨(t.1.1, t.2), ?_⟩
    unfold Mate
    rw [ht]
  · unfold Mate MateTraced
    rw [Intn_len env _ s hn]
    simp only
    rw [hr]
    simp only
    rw [RenderImage_refused env r.2 ⟨m1.w, m1.h, r.1.map Prod.snd, 0, none⟩ halloc]

/-- The indices of the loop of `Mate` all have a source polygon unless the second parent is
shorter than the first and the crossover index is below the last index. -/
theorem mateSource_total (m1 m2 : Candidate) (c : Nat)
    (h1 : ∀ p ∈ m1.Polygons, MinPolygonPoints ≤ p.Points.len ∧ p.Points.len ≤ MaxPolygonPoints)
    (h2 : ∀ p ∈ m2.Polygons, MinPolygonPoints ≤ p.Points.len ∧ p.Points.len ≤ MaxPolygonPoints)
    (hnot : ¬ (m2.Polygons.length < m1.Polygons.length ∧ c + 1 < m1.Polygons.length)) :
    ∀ k, k < m1.Polygons.length →
      ∃ p, mateSource m1 m2 c (0 + k) = some p ∧
        MinPolygonPoints ≤ p.Points.len ∧ p.Points.len ≤ MaxPolygonPoints := by
  intro k hk
  rw [Nat.zero_add]
  unfold mateSource
  by_cases hc : k ≤ c
  · rw [if_pos hc, List.getElem?_eq_getElem hk]
    exact ⟨_, rfl, h1 _ (List.getElem_mem _)⟩
  · have hkb : k < m2.Polygons.length := by
      by_contra hge
      exact hnot ⟨by omega, by omega⟩
    rw [if_neg hc, List.getElem?_eq_getElem hkb]
    exact ⟨_, rfl, h2 _ (List.getElem_mem _)⟩

/-- When the buffer cannot be allocated `RandomCandidate` builds its polygons and then panics in
`image.NewRGBA`. -/
theorem RandomCandidate_refused (env : Env) (w h : Int) (s : St) (hW : 0 < w) (hH : 0 < h)
    (hR : ∀ d, (MinPolygonPoints : Int) ≤ env.RandomInt MinPolygonPoints MaxPolygonPoints d ∧
      env.RandomInt MinPolygonPoints MaxPolygonPoints d ≤ (MaxPolygonPoints : Int))
    (halloc : ¬ newRGBAok env w h) :
    RandomCandidate env w h s = .error .newRGBA := by
  obtain ⟨r, hr, -⟩ := randomPolygons_total env w h hW hH hR PolygonsPerIndividual s
  unfold RandomCandidate
  rw [hr]
  simp only
  rw [RenderImage_refused env r.2 ⟨w, h, r.1, 0, none⟩ halloc]

/-! ## Claims -/

/-- C1: for every polygon with between MinPolygonPoints (3) and MaxPolygonPoints (6) points,
positive bounds and every random stream, `Mutate` returns a polygon whose point count is again
in [3, 6], and so does any number of successive `Mutate` calls. -/
theorem C1_Mutate_preserves_point_count (env : Env) (p : Polygon) (maxW maxH : Int) (s : St)
    (hlo : MinPolygonPoints ≤ p.Points.len) (hhi : p.Points.len ≤ MaxPolygonPoints)
    (hW : 0 < maxW) (hH : 0 < maxH) :
    (∃ r : Polygon × St, Mutate env p maxW maxH s = .ok r ∧
        3 ≤ r.1.Points.len ∧ r.1.Points.len ≤ 6) ∧
    (∀ n : Nat, ∃ r : Polygon × St, mutateTimes env maxW maxH n p s = .ok r ∧
        3 ≤ r.1.Points.len ∧ r.1.Points.len ≤ 6) :=
  ⟨Mutate_count env p maxW maxH s hlo hhi hW hH,
   fun n => mutateTimes_count env maxW maxH hW hH n p s hlo hhi⟩

/-- C1 at a concrete input: the triangle `triangleA`, bounds 10 x 10, draws 2, 5, 6. -/
theorem C1_Mutate_preserves_point_count_witness :
    (MinPolygonPoints ≤ triangleA.Points.len ∧ triangleA.Points.len ≤ MaxPolygonPoints) ∧
    ((∃ r : Polygon × St, Mutate (replay [2, 5, 6]) triangleA 10 10 fourArrays = .ok r ∧
        3 ≤ r.1.Points.len ∧ r.1.Points.len ≤ 6) ∧
     (∀ n : Nat, ∃ r : Polygon × St,
        mutateTimes (replay [2, 5, 6]) 10 10 n triangleA fourArrays = .ok r ∧
        3 ≤ r.1.Points.len ∧ r.1.Points.len ≤ 6)) :=
  ⟨by decide,
   C1_Mutate_preserves_point_count (replay [2, 5, 6]) triangleA 10 10 fourArrays
     (by decide) (by decide) (by decide) (by decide)⟩

/-- C2 fails on the code: `Mate` copies the polygon struct but not its backing array, so a
mutation of the child writes into the parent.
First run, draws 0, 0, 1, 0, 0, 7 (crossover 0, mutate, kind point, index 0, axis X, value 7):
point 0 of the parent polygon `triangleA` changes from (1,1) to (7,1).
Second run, draws 0, 0, 2, 1, 0 (crossover 0, mutate, kind add-or-delete, delete, index 0):
the points of the 4-point parent polygon `quadA` become (2,2) (3,3) (4,4) (4,4). -/
theorem C2_Mate_writes_into_parent :
    fourArrays.view triangleA.Points = [⟨1, 1⟩, ⟨2, 2⟩, ⟨3, 3⟩] ∧
    pointsAfter (Mate (replay [0, 0, 1, 0, 0, 7]) parentA parentB fourArrays) triangleA
      = [⟨7, 1⟩, ⟨2, 2⟩, ⟨3, 3⟩] ∧
    fourArrays.view quadA.Points = [⟨1, 1⟩, ⟨2, 2⟩, ⟨3, 3⟩, ⟨4, 4⟩] ∧
    pointsAfter (Mate (replay [0, 0, 2, 1, 0]) parentA4 parentB fourArrays) quadA
      = [⟨2, 2⟩, ⟨3, 3⟩, ⟨4, 4⟩, ⟨4, 4⟩] := by
  refine ⟨by decide, by decide, by decide, by decide⟩

/-- C3: in a run of `a.Mate(b)` that returns, with crossover index `c` (the first draw modulo the
polygon count), the child polygon at every index `i` where no mutation event fired is the copied
struct of `a.Polygons[i]` when `i <= c` and of `b.Polygons[i]` when `i > c`: same slice header and
same colour, so the same points in the same order as that parent polygon after the call.  Its
points are also those the parent polygon had before the call, provided no mutation fired at an
index whose source polygon shares that backing array. -/
theorem C3_Mate_child_copies_parent (env : Env) (a b : Candidate) (s : St)
    (child : Candidate) (fired : List Bool) (t : St) (i : Nat)
    (h : MateTraced env a b s = .ok ((child, fired), t))
    (hi : i < a.Polygons.length) (hf : fired[i]? = some false) :
    env.rnd s.pos % a.Polygons.length < a.Polygons.length ∧
    ∃ q, child.Polygons[i]? = some q ∧
      (i ≤ env.rnd s.pos % a.Polygons.length → a.Polygons[i]? = some q) ∧
      (env.rnd s.pos % a.Polygons.length < i → b.Polygons[i]? = some q) ∧
      (q.Points.arr < s.next →
        (∀ k p, fired[k]? = some true →
          mateSource a b (env.rnd s.pos % a.Polygons.length) k = some p →
          p.Points.arr ≠ q.Points.arr) →
        t.view q.Points = s.view q.Points) := by
  obtain ⟨hpos, bps, hl, hP, hF, -, -⟩ := MateTraced_ok h
  simp only at hl hP hF
  obtain ⟨hlen, hsrc, -, hcells⟩ := mateLoop_spec env a b _ _ _ _ _ hl
  simp only at hlen hsrc hcells
  refine ⟨Nat.mod_lt _ hpos, ?_⟩
  have hib : i < bps.length := by omega
  have hfi : (bps[i]).1 = false := by
    rw [hF] at hf
    simpa [List.getElem?_eq_getElem hib] using hf
  have hbi : bps[i]? = some (false, (bps[i]).2) := by
    rw [List.getElem?_eq_getElem hib, ← hfi]
  have hq := hsrc i _ hbi
  rw [Nat.zero_add] at hq
  refine ⟨(bps[i]).2, ?_, ?_, ?_, ?_⟩
  · rw [hP]
    simp [List.getElem?_eq_getElem hib]
  · intro hle
    rw [← hq, mateSource, if_pos hle]
  · intro hlt
    rw [← hq, mateSource, if_neg (by omega)]
  · intro halloc hdisj
    apply view_congr
    intro j
    apply hcells _ halloc _ j
    intro k q0 p hk hs
    apply hdisj k p _ (by rw [Nat.zero_add] at hs; exact hs)
    rw [hF]
    simp [hk]

/-- C3 at a concrete run: parents with two polygons each, crossover 0, a colour mutation at
index 0 and none at index 1, where the child holds the second polygon of the second parent. -/
theorem C3_Mate_child_copies_parent_witness :
    (MateTraced (replay [0, 0, 0, 1, 77, 16777215]) parentAC parentBD fourArrays
        = .ok ((mateRun.1.1, mateRun.1.2), mateRun.2) ∧
      1 < parentAC.Polygons.length ∧ mateRun.1.2[1]? = some false) ∧
    ((replay [0, 0, 0, 1, 77, 16777215]).rnd fourArrays.pos % parentAC.Polygons.length
        < parentAC.Polygons.length ∧
    ∃ q, mateRun.1.1.Polygons[1]? = some q ∧
      (1 ≤ (replay [0, 0, 0, 1, 77, 16777215]).rnd fourArrays.pos % parentAC.Polygons.length →
        parentAC.Polygons[1]? = some q) ∧
      ((replay [0, 0, 0, 1, 77, 16777215]).rnd fourArrays.pos % parentAC.Polygons.length < 1 →
        parentBD.Polygons[1]? = some q) ∧
      (q.Points.arr < fourArrays.next →
        (∀ k p, mateRun.1.2[k]? = some true →
          mateSource parentAC parentBD
            ((replay [0, 0, 0, 1, 77, 16777215]).rnd fourArrays.pos % parentAC.Polygons.length) k
            = some p →
          p.Points.arr ≠ q.Points.arr) →
        mateRun.2.view q.Points = fourArrays.view q.Points)) :=
  ⟨⟨rfl, by decide, by decide⟩,
   C3_Mate_child_copies_parent (replay [0, 0, 0, 1, 77, 16777215]) parentAC parentBD fourArrays
     mateRun.1.1 mateRun.1.2 mateRun.2 1 rfl (by decide) (by decide)⟩

/-- C4 fails on the code as stated.  Mutating the alpha channel of the translucent colour
(100,100,100,200) to 100 gives (49,49,49,100): four channels differ.  Mutating channel G of
(10,20,30,255) to the byte 20 it already holds gives the same colour: no channel differs. -/
theorem C4_MutateColor_changes_not_exactly_one :
    (RGBA.isBytes ⟨100, 100, 100, 200⟩ ∧ 3 < 4 ∧ 100 < 256 ∧
      MutateColorWith ⟨100, 100, 100, 200⟩ 3 100 = ⟨49, 49, 49, 100⟩ ∧
      channelsChanged ⟨100, 100, 100, 200⟩ (MutateColorWith ⟨100, 100, 100, 200⟩ 3 100) = 4) ∧
    (RGBA.isBytes ⟨10, 20, 30, 255⟩ ∧ 1 < 4 ∧ 20 < 256 ∧
      channelsChanged ⟨10, 20, 30, 255⟩ (MutateColorWith ⟨10, 20, 30, 255⟩ 1 20) = 0) := by
  decide

/-- C4 as amended: `MutateColor` overwrites exactly the selected channel of the
non-premultiplied form of `c` with `val` and leaves the other three non-premultiplied channels
as converted, and returns the premultiplied conversion of that value.  For an opaque colour and
a selector for R, G or B the returned colour is `c` with that one channel replaced by `val`, so
it differs from `c` in exactly one channel when `val` is a new value and in none otherwise. -/
theorem C4_MutateColor_overwrites_one_channel (c : RGBA) (i val : Nat)
    (hb : c.isBytes) (hi : i < 4) (hv : val < 256) :
    (∃ n : NRGBA, MutateColorWith c i val = rgbaModel n ∧ n.channel i = val ∧
        ∀ k, k < 4 → k ≠ i → n.channel k = (nrgbaModel c).channel k) ∧
    (c.A = 255 → i < 3 →
      (MutateColorWith c i val).channel i = val ∧
      (∀ k, k < 4 → k ≠ i → (MutateColorWith c i val).channel k = c.channel k) ∧
      channelsChanged c (MutateColorWith c i val) = if c.channel i = val then 0 else 1) := by
  refine ⟨⟨setChannel (nrgbaModel c) i val, rfl, setChannel_channel _ i val hi⟩, ?_⟩
  intro hA hi3
  rw [MutateColorWith_alpha255 c i val hb hA hi3 hv]
  have h : i = 0 ∨ i = 1 ∨ i = 2 := by omega
  rcases h with h | h | h <;> subst h
  · refine ⟨rfl, fun k hk hne => ?_, ?_⟩
    · have hk4 : k = 1 ∨ k = 2 ∨ k = 3 := by omega
      rcases hk4 with e | e | e <;> subst e <;> rfl
    · simp only [channelsChanged, RGBA.channel]
      by_cases e : c.R = val <;> simp [e]
  · refine ⟨rfl, fun k hk hne => ?_, ?_⟩
    · have hk4 : k = 0 ∨ k = 2 ∨ k = 3 := by omega
      rcases hk4 with e | e | e <;> subst e <;> rfl
    · simp only [channelsChanged, RGBA.channel]
      by_cases e : c.G = val <;> simp [e]
  · refine ⟨rfl, fun k hk hne => ?_, ?_⟩
    · have hk4 : k = 0 ∨ k = 1 ∨ k = 3 := by omega
      rcases hk4 with e | e | e <;> subst e <;> rfl
    · simp only [channelsChanged, RGBA.channel]
      by_cases e : c.B = val <;> simp [e]

/-- C4 as amended, at the opaque colour (10,20,30,255) with channel G replaced by 77. -/
theorem C4_MutateColor_overwrites_one_channel_witness :
    (RGBA.isBytes ⟨10, 20, 30, 255⟩ ∧ 1 < 4 ∧ 77 < 256) ∧
    ((∃ n : NRGBA, MutateColorWith ⟨10, 20, 30, 255⟩ 1 77 = rgbaModel n ∧ n.channel 1 = 77 ∧
        ∀ k, k < 4 → k ≠ 1 → n.channel k = (nrgbaModel ⟨10, 20, 30, 255⟩).channel k) ∧
    ((⟨10, 20, 30, 255⟩ : RGBA).A = 255 → 1 < 3 →
      (MutateColorWith ⟨10, 20, 30, 255⟩ 1 77).channel 1 = 77 ∧
      (∀ k, k < 4 → k ≠ 1 →
        (MutateColorWith ⟨10, 20, 30, 255⟩ 1 77).channel k
          = (⟨10, 20, 30, 255⟩ : RGBA).channel k) ∧
      channelsChanged ⟨10, 20, 30, 255⟩ (MutateColorWith ⟨10, 20, 30, 255⟩ 1 77)
        = if (⟨10, 20, 30, 255⟩ : RGBA).channel 1 = 77 then 0 else 1)) :=
  ⟨by decide,
   C4_MutateColor_overwrites_one_channel ⟨10, 20, 30, 255⟩ 1 77 (by decide) (by decide)
     (by decide)⟩

/-- C5: for every point, positive bounds and every random stream, `MutatePoint` returns; on axis
draw 0 the result is `(x, p.Y)` with `x` the next draw reduced into `[0, maxW)`, on axis draw 1
it is `(p.X, y)` with `y` the next draw reduced into `[0, maxH)`. -/
theorem C5_MutatePoint_replaces_one_axis (env : Env) (p : Point) (maxW maxH : Int) (s : St)
    (hW : 0 < maxW) (hH : 0 < maxH) :
    ∃ r : Point × St, MutatePoint env p maxW maxH s = .ok r ∧
      ((env.rnd s.pos % 2 = 0 ∧ r.1.X = ((env.rnd (s.pos + 1) % maxW.toNat : Nat) : Int) ∧
          r.1.Y = p.Y ∧ 0 ≤ r.1.X ∧ r.1.X < maxW) ∨
       (env.rnd s.pos % 2 = 1 ∧ r.1.Y = ((env.rnd (s.pos + 1) % maxH.toNat : Nat) : Int) ∧
          r.1.X = p.X ∧ 0 ≤ r.1.Y ∧ r.1.Y < maxH)) := by
  have hr := MutatePoint_eq env p maxW maxH s hW hH
  have h : env.rnd s.pos % 2 = 0 ∨ env.rnd s.pos % 2 = 1 := by omega
  rcases h with h | h
  · rw [if_pos h] at hr
    exact ⟨_, hr, Or.inl ⟨h, rfl, rfl, Int.ofNat_nonneg _, toNat_mod_lt _ _ hW⟩⟩
  · rw [if_neg (by omega)] at hr
    exact ⟨_, hr, Or.inr ⟨h, rfl, rfl, Int.ofNat_nonneg _, toNat_mod_lt _ _ hH⟩⟩

/-- C5 at the point (4,9) with bounds 10 x 20 and draws 1, 47: the result is (4,7). -/
theorem C5_MutatePoint_replaces_one_axis_witness :
    ((0 : Int) < 10 ∧ (0 : Int) < 20) ∧
    ∃ r : Point × St, MutatePoint (replay [1, 47]) ⟨4, 9⟩ 10 20 fourArrays = .ok r ∧
      (((replay [1, 47]).rnd fourArrays.pos % 2 = 0 ∧
          r.1.X = (((replay [1, 47]).rnd (fourArrays.pos + 1) % (10 : Int).toNat : Nat) : Int) ∧
          r.1.Y = (⟨4, 9⟩ : Point).Y ∧ 0 ≤ r.1.X ∧ r.1.X < 10) ∨
       ((replay [1, 47]).rnd fourArrays.pos % 2 = 1 ∧
          r.1.Y = (((replay [1, 47]).rnd (fourArrays.pos + 1) % (20 : Int).toNat : Nat) : Int) ∧
          r.1.X = (⟨4, 9⟩ : Point).X ∧ 0 ≤ r.1.Y ∧ r.1.Y < 20)) :=
  ⟨by decide,
   C5_MutatePoint_replaces_one_axis (replay [1, 47]) ⟨4, 9⟩ 10 20 fourArrays (by decide)
     (by decide)⟩

/-- C6: when the kind drawn by `Mutate` is add-or-delete, a polygon with 3 points ends with 4,
one with 6 points ends with 5, and one with 4 or 5 points ends with one point more or one point
fewer, for positive bounds and every random stream. -/
theorem C6_Mutate_add_or_delete_count (env : Env) (p : Polygon) (maxW maxH : Int) (s s1 : St)
    (hk : randomMutation env s = .ok (MutationAddOrDeletePoint, s1))
    (hlo : MinPolygonPoints ≤ p.Points.len) (hW : 0 < maxW) (hH : 0 < maxH) :
    ∃ r : Polygon × St, Mutate env p maxW maxH s = .ok r ∧
      (p.Points.len = 3 → r.1.Points.len = 4) ∧
      (p.Points.len = 6 → r.1.Points.len = 5) ∧
      (p.Points.len = 4 ∨ p.Points.len = 5 →
        r.1.Points.len = p.Points.len + 1 ∨ r.1.Points.len + 1 = p.Points.len) := by
  have hmin : MinPolygonPoints = 3 := rfl
  have hmax : MaxPolygonPoints = 6 := rfl
  obtain ⟨r, hr, -, hc⟩ := mutateAddOrDeleteCase_count env p maxW maxH s1 hlo hW hH
  refine ⟨r, ?_, ?_, ?_, ?_⟩
  · unfold Mutate
    rw [hk]
    exact hr
  · intro h3
    omega
  · intro h6
    omega
  · intro _
    omega

/-- C6 at the triangle `triangleA` with bounds 10 x 10 and draws 2, 5, 6: a point is added. -/
theorem C6_Mutate_add_or_delete_count_witness :
    (randomMutation (replay [2, 5, 6]) fourArrays
        = .ok (MutationAddOrDeletePoint, fourArrays.advance) ∧
      MinPolygonPoints ≤ triangleA.Points.len ∧ (0 : Int) < 10) ∧
    ∃ r : Polygon × St, Mutate (replay [2, 5, 6]) triangleA 10 10 fourArrays = .ok r ∧
      (triangleA.Points.len = 3 → r.1.Points.len = 4) ∧
      (triangleA.Points.len = 6 → r.1.Points.len = 5) ∧
      (triangleA.Points.len = 4 ∨ triangleA.Points.len = 5 →
        r.1.Points.len = triangleA.Points.len + 1 ∨ r.1.Points.len + 1 = triangleA.Points.len) :=
  ⟨⟨rfl, by decide, by decide⟩,
   C6_Mutate_add_or_delete_count (replay [2, 5, 6]) triangleA 10 10 fourArrays
     fourArrays.advance rfl (by decide) (by decide) (by decide)⟩

/-- C7: for indices in range `Less(i, j)` is true exactly when `cds[i].Fitness < cds[j].Fitness`;
the relation is irreflexive and transitive, and two candidates are incomparable exactly when
their fitness is equal; a population in which no later element is `Less` than an earlier one has
ascending fitness, and if its fitness values are 5, 1, 3 in some order they are 1, 3, 5. -/
theorem C7_ByFitness_Less_orders_by_fitness (cds : List Candidate) (i j k : Nat)
    (hi : i < cds.length) (hj : j < cds.length) (hk : k < cds.length) :
    ByFitness.Less cds i j = .ok (decide (cds[i].Fitness < cds[j].Fitness)) ∧
    ByFitness.Less cds i i = .ok false ∧
    (ByFitness.Less cds i j = .ok true → ByFitness.Less cds j k = .ok true →
      ByFitness.Less cds i k = .ok true) ∧
    ((ByFitness.Less cds i j = .ok false ∧ ByFitness.Less cds j i = .ok false)
      ↔ cds[i].Fitness = cds[j].Fitness) ∧
    (Ranked cds → List.Sorted (fun x y : Int => x ≤ y) (fitnesses cds)) ∧
    (Ranked cds → (fitnesses cds).Perm [5, 1, 3] → fitnesses cds = [1, 3, 5]) := by
  refine ⟨Less_eq cds i j hi hj, ?_, ?_, ?_, Ranked_sorted cds, ?_⟩
  · rw [Less_false_iff cds i i hi hi]
  · rw [Less_true_iff cds i j hi hj, Less_true_iff cds j k hj hk, Less_true_iff cds i k hi hk]
    exact fun h1 h2 => lt_trans h1 h2
  · rw [Less_false_iff cds i j hi hj, Less_false_iff cds j i hj hi]
    constructor
    · rintro ⟨h1, h2⟩
      exact le_antisymm h2 h1
    · intro h
      exact ⟨le_of_eq h.symm, le_of_eq h⟩
  · intro hr hp
    have hs : List.Sorted (fun x y : Int => x ≤ y) [1, 3, 5] := by
      simp [List.Sorted]
    have hp2 : (fitnesses cds).Perm [1, 3, 5] := hp.trans (by decide)
    exact List.eq_of_perm_of_sorted hp2 (Ranked_sorted cds hr) hs

/-- C7 at the population with fitness values 1, 3, 5 and the indices 0, 1, 2. -/
theorem C7_ByFitness_Less_orders_by_fitness_witness :
    (0 < rankedThree.length ∧ 1 < rankedThree.length ∧ 2 < rankedThree.length ∧
      Ranked rankedThree ∧ (fitnesses rankedThree).Perm [5, 1, 3]) ∧
    ByFitness.Less rankedThree 0 1 = .ok true ∧
    ByFitness.Less rankedThree 0 0 = .ok false ∧
    fitnesses rankedThree = [1, 3, 5] :=
  have hr : Ranked rankedThree := by
    intro j hj i hij
    have hj3 : j < 3 := hj
    interval_cases j <;> interval_cases i <;> rfl
  have hp : (fitnesses rankedThree).Perm [5, 1, 3] := by decide
  have h := C7_ByFitness_Less_orders_by_fitness rankedThree 0 1 2 (by decide) (by decide)
    (by decide)
  ⟨⟨by decide, by decide, by decide, hr, hp⟩, h.1, h.2.1, h.2.2.2.2.2 hr hp⟩

/-- C8: a candidate returned by `RandomCandidate(w, h)` has exactly PolygonsPerIndividual (100)
polygons, width `w` and height `h`, and a child returned by `a.Mate(b)` has exactly
`len(a.Polygons)` polygons and the width and height of `a`, for every input and random stream.
Both calls do return when the image buffer can be allocated: `RandomCandidate` for a positive
size when `RandomInt(3, 6)` yields values in [3, 6], and `Mate` for parents with equal, non-zero
polygon counts whose polygons have 3 to 6 points and a positive size. -/
theorem C8_polygon_count_is_fixed (env : Env) (w h : Int) (a b : Candidate) (s : St) :
    (∀ r, RandomCandidate env w h s = .ok r →
      r.1.Polygons.length = 100 ∧ r.1.w = w ∧ r.1.h = h) ∧
    (∀ r, Mate env a b s = .ok r →
      r.1.Polygons.length = a.Polygons.length ∧ r.1.w = a.w ∧ r.1.h = a.h) ∧
    (0 < w → 0 < h →
      (∀ d, (MinPolygonPoints : Int) ≤ env.RandomInt MinPolygonPoints MaxPolygonPoints d ∧
        env.RandomInt MinPolygonPoints MaxPolygonPoints d ≤ (MaxPolygonPoints : Int)) →
      newRGBAok env w h →
      ∃ r, RandomCandidate env w h s = .ok r ∧
        r.1.Polygons.length = 100 ∧ r.1.w = w ∧ r.1.h = h) ∧
    (0 < a.Polygons.length → a.Polygons.length = b.Polygons.length →
      (∀ p ∈ a.Polygons, MinPolygonPoints ≤ p.Points.len ∧ p.Points.len ≤ MaxPolygonPoints) →
      (∀ p ∈ b.Polygons, MinPolygonPoints ≤ p.Points.len ∧ p.Points.len ≤ MaxPolygonPoints) →
      0 < a.w → 0 < a.h → newRGBAok env a.w a.h →
      ∃ r, Mate env a b s = .ok r ∧
        r.1.Polygons.length = a.Polygons.length ∧ r.1.w = a.w ∧ r.1.h = a.h) := by
  refine ⟨fun r hr => RandomCandidate_shape hr, fun r hr => Mate_shape hr, ?_, ?_⟩
  · intro hW hH hR halloc
    obtain ⟨r, hr⟩ := RandomCandidate_total env w h s hW hH hR halloc
    exact ⟨r, hr, RandomCandidate_shape hr⟩
  · intro hn hlen h1 h2 hW hH halloc
    obtain ⟨r, hr⟩ := Mate_total env a b s hn (le_of_eq hlen) h1 h2 hW hH halloc
    exact ⟨r, hr, Mate_shape hr⟩

/-- C8 at a concrete input: `RandomCandidate(10, 10)` and `parentAC.Mate(parentBD)` return, with
100 and 2 polygons. -/
theorem C8_polygon_count_is_fixed_witness :
    (newRGBAok (replay [7, 8, 9]) 10 10 ∧ newRGBAok (replay [7, 8, 9]) parentAC.w parentAC.h) ∧
    (∃ r, RandomCandidate (replay [7, 8, 9]) 10 10 fourArrays = .ok r ∧
        r.1.Polygons.length = 100 ∧ r.1.w = 10 ∧ r.1.h = 10) ∧
    (∃ r, Mate (replay [7, 8, 9]) parentAC parentBD fourArrays = .ok r ∧
        r.1.Polygons.length = parentAC.Polygons.length ∧ r.1.w = parentAC.w ∧
        r.1.h = parentAC.h) :=
  have h := C8_polygon_count_is_fixed (replay [7, 8, 9]) 10 10 parentAC parentBD fourArrays
  ⟨⟨by decide, by decide⟩,
   h.2.2.1 (by decide) (by decide) (fun d => by
      simp only [replay, MinPolygonPoints, MaxPolygonPoints]
      omega) (by decide),
   h.2.2.2 (by decide) (by decide) (by decide) (by decide) (by decide) (by decide)
     (by decide)⟩

/-- C9 fails on the code: each colour channel of a polygon returned by `RandomPolygon` is
`uint8(rand.Intn(0xff))`, a value in [0, 254]; the byte 255 is never produced, whatever the
random stream. -/
theorem C9_RandomPolygon_channel_never_255 (env : Env) (maxW maxH : Int) (s : St)
    (r : Polygon × St) (h : RandomPolygon env maxW maxH s = .ok r) :
    r.1.Color.R ≤ 254 ∧ r.1.Color.G ≤ 254 ∧ r.1.Color.B ≤ 254 ∧ r.1.Color.A ≤ 254 := by
  obtain ⟨hc, -⟩ := RandomPolygon_shape h
  rw [hc]
  simp only
  omega

/-- C9 at a concrete run: with the four colour draws equal to 255 the colour is (0,0,0,0). -/
theorem C9_RandomPolygon_channel_never_255_witness :
    RandomPolygon (replay [255, 255, 255, 255, 0, 1, 2, 3, 4, 5, 6]) 10 10 fourArrays
        = .ok polygonRun ∧
    polygonRun.1.Color = ⟨0, 0, 0, 0⟩ ∧
    (polygonRun.1.Color.R ≤ 254 ∧ polygonRun.1.Color.G ≤ 254 ∧ polygonRun.1.Color.B ≤ 254 ∧
      polygonRun.1.Color.A ≤ 254) :=
  ⟨rfl, by decide,
   C9_RandomPolygon_channel_never_255 (replay [255, 255, 255, 255, 0, 1, 2, 3, 4, 5, 6]) 10 10
     fourArrays polygonRun rfl⟩

/-- C10 fails on the code as stated: `Mate` returns a child for parents of different size
(10 x 10 and 20 x 30), and for parents with different polygon counts (2 and 1 polygons, crossover
index 1; 1 and 2 polygons). -/
theorem C10_Mate_returns_despite_mismatch :
    (parentA.w ≠ parentWide.w ∧ parentA.h ≠ parentWide.h ∧
      ∃ r, Mate (replay []) parentA parentWide fourArrays = .ok r) ∧
    (parentAC.Polygons.length ≠ parentB.Polygons.length ∧
      ∃ r, Mate (replay [1]) parentAC parentB fourArrays = .ok r) ∧
    (parentA.Polygons.length ≠ parentBD.Polygons.length ∧
      ∃ r, Mate (replay []) parentA parentBD fourArrays = .ok r) :=
  ⟨⟨by decide, by decide, _, rfl⟩, ⟨by decide, _, rfl⟩, ⟨by decide, _, rfl⟩⟩

/-- C10 as amended: `Mate` checks no precondition.  The width and height of `b` are never read,
so the outcome is the same whatever they are.  For parents whose polygons have 3 to 6 points and
a positive size of `a`: with no polygon in `a` the call panics in `rand.Intn(0)`; otherwise it
panics with index out of range on `b.Polygons` when `b` has fewer polygons than `a` and the
crossover index drawn is below `len(a.Polygons) - 1`; otherwise it panics in `image.NewRGBA`
when the buffer of `a`'s size cannot be allocated; and in every remaining case, unequal polygon
counts included, it returns a child. -/
theorem C10_Mate_checks_no_precondition (env : Env) (a b : Candidate) (s : St)
    (h1 : ∀ p ∈ a.Polygons, MinPolygonPoints ≤ p.Points.len ∧ p.Points.len ≤ MaxPolygonPoints)
    (h2 : ∀ p ∈ b.Polygons, MinPolygonPoints ≤ p.Points.len ∧ p.Points.len ≤ MaxPolygonPoints)
    (hW : 0 < a.w) (hH : 0 < a.h) :
    (∀ w h : Int, Mate env a { b with w := w, h := h } s = Mate env a b s) ∧
    (a.Polygons.length = 0 → Mate env a b s = .error .intnNonPositive) ∧
    (0 < a.Polygons.length →
      (b.Polygons.length < a.Polygons.length ∧
        env.rnd s.pos % a.Polygons.length + 1 < a.Polygons.length) →
      Mate env a b s = .error .indexOutOfRange) ∧
    (0 < a.Polygons.length →
      ¬ (b.Polygons.length < a.Polygons.length ∧
        env.rnd s.pos % a.Polygons.length + 1 < a.Polygons.length) →
      ¬ newRGBAok env a.w a.h → Mate env a b s = .error .newRGBA) ∧
    (0 < a.Polygons.length →
      ¬ (b.Polygons.length < a.Polygons.length ∧
        env.rnd s.pos % a.Polygons.length + 1 < a.Polygons.length) →
      newRGBAok env a.w a.h → ∃ r, Mate env a b s = .ok r) := by
  refine ⟨fun w h => Mate_congr env a b _ s rfl, Mate_empty env a b s, ?_, ?_, ?_⟩
  · rintro hn ⟨hlt, hc⟩
    have hloop := mateLoop_fatal env a b (env.rnd s.pos % a.Polygons.length) hW hH
      a.Polygons.length 0 s.advance
      (fun k p _ hp => mateSource_some a b _ _ h1 h2 p hp)
      ⟨max (env.rnd s.pos % a.Polygons.length + 1) b.Polygons.length, by omega, by
        rw [Nat.zero_add]
        unfold mateSource
        rw [if_neg (by omega)]
        exact List.getElem?_eq_none (by omega)⟩
    unfold Mate MateTraced
    rw [Intn_len env _ s hn]
    simp only
    rw [hloop]
  · intro hn hnot halloc
    exact (Mate_of_sources env a b s hn (mateSource_total a b _ h1 h2 hnot) hW hH).2.2 halloc
  · intro hn hnot halloc
    exact (Mate_of_sources env a b s hn (mateSource_total a b _ h1 h2 hnot) hW hH).2.1 halloc

/-- C10 as amended, at concrete parents of size 10 x 10: `parentAC` (2 polygons) with
`parentB` (1 polygon) and crossover draw 0 panics with index out of range; the same parents
with crossover draw 1 return a child; a receiver without polygons panics in `rand.Intn(0)`;
and the size of `parentB` does not matter. -/
theorem C10_Mate_checks_no_precondition_witness :
    (0 < parentAC.w ∧ 0 < parentAC.h ∧ 0 < parentAC.Polygons.length ∧
      parentB.Polygons.length < parentAC.Polygons.length ∧
      (replay [0]).rnd fourArrays.pos % parentAC.Polygons.length + 1
        < parentAC.Polygons.length ∧
      newRGBAok (replay [1]) parentAC.w parentAC.h) ∧
    Mate (replay [0]) parentAC parentB fourArrays = .error .indexOutOfRange ∧
    (∃ r, Mate (replay [1]) parentAC parentB fourArrays = .ok r) ∧
    Mate (replay [0]) noPolygons parentB fourArrays = .error .intnNonPositive ∧
    (∀ w h : Int, Mate (replay [0]) parentAC { parentB with w := w, h := h } fourArrays
      = Mate (replay [0]) parentAC parentB fourArrays) :=
  have h := C10_Mate_checks_no_precondition (replay [0]) parentAC parentB fourArrays
    (by decide) (by decide) (by decide) (by decide)
  have h1 := C10_Mate_checks_no_precondition (replay [1]) parentAC parentB fourArrays
    (by decide) (by decide) (by decide) (by decide)
  have h0 := C10_Mate_checks_no_precondition (replay [0]) noPolygons parentB fourArrays
    (by decide) (by decide) (by decide) (by decide)
  ⟨⟨by decide, by decide, by decide, by decide, by decide, by decide⟩,
   h.2.2.1 (by decide) ⟨by decide, by decide⟩,
   h1.2.2.2.2 (by decide) (by decide) (by decide),
   h0.2.1 (by decide), h.1⟩

/-- C11: `AddPoint(q)` leaves the points of the polygon equal to the former points followed by
`q`; on a polygon with at least one point `DeleteRandomPoint` returns, and with drawn index `i`
(the draw reduced modulo the point count, so `i` is below it) leaves the former points with
exactly the element at index `i` removed, the others keeping their values and order. -/
theorem C11_AddPoint_appends_DeleteRandomPoint_removes (env : Env) (p : Polygon) (q : Point)
    (s : St) :
    (AddPoint env p q s).2.view (AddPoint env p q s).1.Points = s.view p.Points ++ [q] ∧
    (0 < p.Points.len →
      env.rnd s.pos % p.Points.len < (s.view p.Points).length ∧
      ∃ r : Polygon × St, DeleteRandomPoint env p s = .ok r ∧
        r.2.view r.1.Points = (s.view p.Points).eraseIdx (env.rnd s.pos % p.Points.len)) := by
  refine ⟨AddPoint_view env p q s, fun h => ?_⟩
  have hi : env.rnd s.pos % p.Points.len < p.Points.len := Nat.mod_lt _ h
  refine ⟨by rw [view_length]; exact hi, _, DeleteRandomPoint_eq env p s h, ?_⟩
  exact deleteAt_view env p _ s.advance hi

/-- C11 at the triangle `triangleA` with points (1,1) (2,2) (3,3): adding (9,9) gives the four
points (1,1) (2,2) (3,3) (9,9), and deleting with draw 4 (index 1) gives (1,1) (3,3). -/
theorem C11_AddPoint_appends_DeleteRandomPoint_removes_witness :
    0 < triangleA.Points.len ∧
    (AddPoint (replay [4]) triangleA ⟨9, 9⟩ fourArrays).2.view
        (AddPoint (replay [4]) triangleA ⟨9, 9⟩ fourArrays).1.Points
      = [⟨1, 1⟩, ⟨2, 2⟩, ⟨3, 3⟩, ⟨9, 9⟩] ∧
    (∃ r : Polygon × St, DeleteRandomPoint (replay [4]) triangleA fourArrays = .ok r ∧
        r.2.view r.1.Points = [⟨1, 1⟩, ⟨3, 3⟩]) :=
  have h := C11_AddPoint_appends_DeleteRandomPoint_removes (replay [4]) triangleA ⟨9, 9⟩
    fourArrays
  ⟨by decide, h.1.trans (by decide), (h.2 (by decide)).2.imp
    (fun _ hr => ⟨hr.1, hr.2.trans (by decide)⟩)⟩

/-- C12: for positive bounds `RandomPoint` returns a point with `0 <= X < maxW` and
`0 <= Y < maxH`; and when all points of a polygon lie inside these bounds, all points of the
polygon after a returning `Mutate(maxW, maxH)` do too, for every random stream; `Mutate` does
return when the polygon has at least one point. -/
theorem C12_points_stay_in_bounds (env : Env) (p : Polygon) (maxW maxH : Int) (s : St)
    (hW : 0 < maxW) (hH : 0 < maxH) (hb : ∀ q ∈ s.view p.Points, inBounds maxW maxH q) :
    (∃ r : Point × St, RandomPoint env maxW maxH s = .ok r ∧
        0 ≤ r.1.X ∧ r.1.X < maxW ∧ 0 ≤ r.1.Y ∧ r.1.Y < maxH) ∧
    (∀ r : Polygon × St, Mutate env p maxW maxH s = .ok r →
        ∀ q ∈ r.2.view r.1.Points, 0 ≤ q.X ∧ q.X < maxW ∧ 0 ≤ q.Y ∧ q.Y < maxH) ∧
    (0 < p.Points.len → ∃ r : Polygon × St, Mutate env p maxW maxH s = .ok r ∧
        ∀ q ∈ r.2.view r.1.Points, 0 ≤ q.X ∧ q.X < maxW ∧ 0 ≤ q.Y ∧ q.Y < maxH) := by
  refine ⟨⟨_, RandomPoint_eq env maxW maxH s hW hH, Int.ofNat_nonneg _, toNat_mod_lt _ _ hW,
    Int.ofNat_nonneg _, toNat_mod_lt _ _ hH⟩, fun r hr => Mutate_inBounds hr hb, fun hn => ?_⟩
  obtain ⟨r, hr⟩ := Mutate_total env p maxW maxH s hn hW hH
  exact ⟨r, hr, Mutate_inBounds hr hb⟩

/-- C12 at the triangle `triangleA` with bounds 10 x 10 and the draws 1, 0, 1, 25 (a point
mutation of index 0 that sets Y to 5). -/
theorem C12_points_stay_in_bounds_witness :
    ((0 : Int) < 10 ∧ ∀ q ∈ fourArrays.view triangleA.Points, inBounds 10 10 q) ∧
    (∃ r : Point × St, RandomPoint (replay [1, 0, 1, 25]) 10 10 fourArrays = .ok r ∧
        0 ≤ r.1.X ∧ r.1.X < 10 ∧ 0 ≤ r.1.Y ∧ r.1.Y < 10) ∧
    (∃ r : Polygon × St, Mutate (replay [1, 0, 1, 25]) triangleA 10 10 fourArrays = .ok r ∧
        ∀ q ∈ r.2.view r.1.Points, 0 ≤ q.X ∧ q.X < 10 ∧ 0 ≤ q.Y ∧ q.Y < 10) :=
  have h := C12_points_stay_in_bounds (replay [1, 0, 1, 25]) triangleA 10 10 fourArrays
    (by decide) (by decide) (by decide)
  ⟨⟨by decide, by decide⟩, h.1, h.2.2 (by decide)⟩

/-- C13: for a positive size, every random stream, and a helper `RandomInt` that returns values
in [MinPolygonPoints, MaxPolygonPoints] when called with these bounds, the loop of
`RandomCandidate(w, h)` builds 100 polygons, each of which has between 3 and 6 points, all of
them inside `[0, w) x [0, h)`; every candidate `RandomCandidate(w, h)` returns has 100 such
polygons; and `RandomCandidate(w, h)` returns when the image buffer can be allocated (it panics
in `image.NewRGBA` otherwise, after the polygons are built). -/
theorem C13_RandomCandidate_polygons_valid (env : Env) (w h : Int) (s : St)
    (hW : 0 < w) (hH : 0 < h)
    (hR : ∀ d, (MinPolygonPoints : Int) ≤ env.RandomInt MinPolygonPoints MaxPolygonPoints d ∧
      env.RandomInt MinPolygonPoints MaxPolygonPoints d ≤ (MaxPolygonPoints : Int)) :
    (∃ r : List Polygon × St, randomPolygons env w h PolygonsPerIndividual s = .ok r ∧
      r.1.length = 100 ∧
      ∀ p ∈ r.1, 3 ≤ p.Points.len ∧ p.Points.len ≤ 6 ∧
        ∀ q ∈ r.2.view p.Points, 0 ≤ q.X ∧ q.X < w ∧ 0 ≤ q.Y ∧ q.Y < h) ∧
    (∀ r : Candidate × St, RandomCandidate env w h s = .ok r →
      r.1.Polygons.length = 100 ∧
      ∀ p ∈ r.1.Polygons, 3 ≤ p.Points.len ∧ p.Points.len ≤ 6 ∧
        ∀ q ∈ r.2.view p.Points, 0 ≤ q.X ∧ q.X < w ∧ 0 ≤ q.Y ∧ q.Y < h) ∧
    (newRGBAok env w h →
      ∃ r : Candidate × St, RandomCandidate env w h s = .ok r ∧
        r.1.Polygons.length = 100 ∧
        ∀ p ∈ r.1.Polygons, 3 ≤ p.Points.len ∧ p.Points.len ≤ 6 ∧
          ∀ q ∈ r.2.view p.Points, 0 ≤ q.X ∧ q.X < w ∧ 0 ≤ q.Y ∧ q.Y < h) ∧
    (¬ newRGBAok env w h → RandomCandidate env w h s = .error .newRGBA) := by
  have hvalid : ∀ r : Candidate × St, RandomCandidate env w h s = .ok r →
      r.1.Polygons.length = 100 ∧
      ∀ p ∈ r.1.Polygons, 3 ≤ p.Points.len ∧ p.Points.len ≤ 6 ∧
        ∀ q ∈ r.2.view p.Points, 0 ≤ q.X ∧ q.X < w ∧ 0 ≤ q.Y ∧ q.Y < h := by
    intro r hr
    obtain ⟨-, -, hall⟩ := randomPolygons_own env w h hR _ _ _ (RandomCandidate_ok hr)
    exact ⟨(RandomCandidate_shape hr).1, hall⟩
  refine ⟨?_, hvalid, fun halloc => ?_, RandomCandidate_refused env w h s hW hH hR⟩
  · obtain ⟨r, hr, -⟩ := randomPolygons_total env w h hW hH hR PolygonsPerIndividual s
    obtain ⟨-, -, hall⟩ := randomPolygons_own env w h hR _ _ _ hr
    exact ⟨r, hr, randomPolygons_length env w h _ _ _ hr, hall⟩
  · obtain ⟨r, hr⟩ := RandomCandidate_total env w h s hW hH hR halloc
    exact ⟨r, hr, hvalid r hr⟩

/-- C13 at `RandomCandidate(10, 10)` with `RandomInt lo hi` drawn as `lo + draw mod
(hi - lo + 1)`. -/
theorem C13_RandomCandidate_polygons_valid_witness :
    ((0 : Int) < 10 ∧ newRGBAok (replay [3, 1, 4, 1, 5, 9, 2, 6]) 10 10 ∧
      ∀ d, (MinPolygonPoints : Int)
          ≤ (replay [3, 1, 4, 1, 5, 9, 2, 6]).RandomInt MinPolygonPoints MaxPolygonPoints d ∧
        (replay [3, 1, 4, 1, 5, 9, 2, 6]).RandomInt MinPolygonPoints MaxPolygonPoints d
          ≤ (MaxPolygonPoints : Int)) ∧
    ∃ r : Candidate × St, RandomCandidate (replay [3, 1, 4, 1, 5, 9, 2, 6]) 10 10 fourArrays
        = .ok r ∧
      r.1.Polygons.length = 100 ∧
      ∀ p ∈ r.1.Polygons, 3 ≤ p.Points.len ∧ p.Points.len ≤ 6 ∧
        ∀ q ∈ r.2.view p.Points, 0 ≤ q.X ∧ q.X < 10 ∧ 0 ≤ q.Y ∧ q.Y < 10 :=
  have hR : ∀ d, (MinPolygonPoints : Int)
        ≤ (replay [3, 1, 4, 1, 5, 9, 2, 6]).RandomInt MinPolygonPoints MaxPolygonPoints d ∧
      (replay [3, 1, 4, 1, 5, 9, 2, 6]).RandomInt MinPolygonPoints MaxPolygonPoints d
        ≤ (MaxPolygonPoints : Int) := fun d => by
    simp only [replay, MinPolygonPoints, MaxPolygonPoints]
    omega
  ⟨⟨by decide, by decide, hR⟩,
   (C13_RandomCandidate_polygons_valid (replay [3, 1, 4, 1, 5, 9, 2, 6]) 10 10 fourArrays
     (by decide) (by decide) hR).2.2.1 (by decide)⟩

/-- C14: for a candidate whose polygons all have at least one point, the image `RenderImage`
stores when it returns is the `w x h` rectangle with the commands `SetLineWidth(1)` followed,
for each polygon in candidate order, by `SetStrokeColor`, `SetFillColor`, `MoveTo` the first
point, `LineTo` each remaining point in order, `Close`, `FillStroke`; and it returns when the
buffer can be allocated.  The commands depend on the colours and points of the polygon sequence
only: any candidate of the same size with the same contents, in any state and environment, gets
the same image; and the commands of a sequence split in two are those of the first part followed
by those of the second. -/
theorem C14_RenderImage_command_sequence (env : Env) (s : St) (cd : Candidate)
    (h : ∀ p ∈ cd.Polygons, 0 < p.Points.len) :
    (∀ result, RenderImage env s cd = .ok result →
      result.img = some ⟨cd.w, cd.h,
        GcCall.SetLineWidth 1 :: commandsOf (contents s cd.Polygons)⟩) ∧
    (newRGBAok env cd.w cd.h →
      ∃ result, RenderImage env s cd = .ok result ∧
        result.img = some ⟨cd.w, cd.h,
          GcCall.SetLineWidth 1 :: commandsOf (contents s cd.Polygons)⟩) ∧
    (∀ (env2 : Env) (t : St) (cd2 : Candidate),
      contents t cd2.Polygons = contents s cd.Polygons → cd2.w = cd.w → cd2.h = cd.h →
      ∀ result2, RenderImage env2 t cd2 = .ok result2 →
        result2.img = some ⟨cd.w, cd.h,
          GcCall.SetLineWidth 1 :: commandsOf (contents s cd.Polygons)⟩) ∧
    (∀ ps1 ps2, cd.Polygons = ps1 ++ ps2 →
      commandsOf (contents s cd.Polygons)
        = commandsOf (contents s ps1) ++ commandsOf (contents s ps2)) := by
  refine ⟨fun result hr => ?_, fun halloc => ⟨_, RenderImage_eq env s cd halloc h, rfl⟩, ?_, ?_⟩
  · rw [RenderImage_eq env s cd (RenderImage_ok_alloc hr) h] at hr
    cases hr
    rfl
  · intro env2 t cd2 hc hw hh result2 hr
    have h2 := contents_nonempty s t cd.Polygons cd2.Polygons hc h
    rw [RenderImage_eq env2 t cd2 (RenderImage_ok_alloc hr) h2] at hr
    cases hr
    simp only [hc, hw, hh]
  · intro ps1 ps2 hp
    rw [hp, contents, List.map_append, commandsOf_append]
    rfl

/-- C14 at the candidate `parentAC` in the store `fourArrays`: the commands for its two
triangles. -/
theorem C14_RenderImage_command_sequence_witness :
    ((∀ p ∈ parentAC.Polygons, 0 < p.Points.len) ∧
      newRGBAok (replay []) parentAC.w parentAC.h) ∧
    ∃ result, RenderImage (replay []) fourArrays parentAC = .ok result ∧
      result.img = some ⟨10, 10,
        [GcCall.SetLineWidth 1,
         GcCall.SetStrokeColor ⟨10, 20, 30, 255⟩, GcCall.SetFillColor ⟨10, 20, 30, 255⟩,
         GcCall.MoveTo 1 1, GcCall.LineTo 2 2, GcCall.LineTo 3 3, GcCall.Close,
         GcCall.FillStroke,
         GcCall.SetStrokeColor ⟨1, 2, 3, 4⟩, GcCall.SetFillColor ⟨1, 2, 3, 4⟩,
         GcCall.MoveTo 9 9, GcCall.LineTo 10 10, GcCall.LineTo 11 11, GcCall.Close,
         GcCall.FillStroke]⟩ :=
  ⟨⟨by decide, by decide⟩,
   ((C14_RenderImage_command_sequence (replay []) fourArrays parentAC (by decide)).2.1
      (by decide)).imp
     (fun _ hr => ⟨hr.1, hr.2.trans (by decide)⟩)⟩

/-- C15: `randomMutation` returns one of the three kinds for every draw, so `Mutate` is exactly
one of its three cases and never the fall-through of the `switch`.  In a returning call, a colour
mutation leaves the slice and the points; a point mutation leaves the colour, the point count
and every point except the one at the drawn index; an add-or-delete mutation leaves the colour
and either appends one point to the unchanged points or removes one index, the other points
keeping values and order.  In every case only the backing array of the polygon, or an array
allocated by the call, is written. -/
theorem C15_Mutate_applies_exactly_one_kind (env : Env) (p : Polygon) (maxW maxH : Int)
    (s : St) :
    (∃ k, randomMutation env s = .ok (k, s.advance) ∧
      (k = MutationColor ∨ k = MutationPoint ∨ k = MutationAddOrDeletePoint) ∧
      ((k = MutationColor ∧ Mutate env p maxW maxH s = mutateColorCase env p s.advance) ∨
       (k = MutationPoint ∧
          Mutate env p maxW maxH s = mutatePointCase env p maxW maxH s.advance) ∨
       (k = MutationAddOrDeletePoint ∧
          Mutate env p maxW maxH s = mutateAddOrDeleteCase env p maxW maxH s.advance))) ∧
    (∀ r : Polygon × St, Mutate env p maxW maxH s = .ok r →
      ((env.rnd s.pos % 2 ^ 63 % 3 = MutationColor ∧ r.1.Points = p.Points ∧
          r.2.view r.1.Points = s.view p.Points) ∨
       (env.rnd s.pos % 2 ^ 63 % 3 = MutationPoint ∧ r.1.Color = p.Color ∧
          r.1.Points.len = p.Points.len ∧
          ∃ i, i < p.Points.len ∧
            ∀ j, j ≠ i → (r.2.view r.1.Points)[j]? = (s.view p.Points)[j]?) ∨
       (env.rnd s.pos % 2 ^ 63 % 3 = MutationAddOrDeletePoint ∧ r.1.Color = p.Color ∧
          ((∃ q, r.2.view r.1.Points = s.view p.Points ++ [q]) ∨
           (∃ i, i < p.Points.len ∧
              r.2.view r.1.Points = (s.view p.Points).eraseIdx i)))) ∧
      ∀ a j, a ≠ p.Points.arr → a < s.next → r.2.cells a j = s.cells a j) := by
  constructor
  · refine ⟨_, randomMutation_eq env s, ?_⟩
    have hk : env.rnd s.pos % 2 ^ 63 % 3 = 0 ∨ env.rnd s.pos % 2 ^ 63 % 3 = 1
        ∨ env.rnd s.pos % 2 ^ 63 % 3 = 2 := by omega
    unfold Mutate
    rw [randomMutation_eq]
    rcases hk with hk | hk | hk
    · rw [hk]
      exact ⟨Or.inl rfl, Or.inl ⟨rfl, rfl⟩⟩
    · rw [hk]
      exact ⟨Or.inr (Or.inl rfl), Or.inr (Or.inl ⟨rfl, rfl⟩)⟩
    · rw [hk]
      exact ⟨Or.inr (Or.inr rfl), Or.inr (Or.inr ⟨rfl, rfl⟩)⟩
  · intro r hr
    refine ⟨?_, (Mutate_frame hr).2⟩
    rcases Mutate_effect hr with ⟨hk, hP, hv⟩ | ⟨hk, hp, i, o, q, hi, -, hv, -⟩ | ⟨hk, hc, hcase⟩
    · exact Or.inl ⟨hk, hP, by rw [hP]; exact hv⟩
    · refine Or.inr (Or.inl ⟨hk, by rw [hp], by rw [hp], i, hi, fun j hj => ?_⟩)
      rw [hp, hv, List.getElem?_set_ne (Ne.symm hj)]
    · refine Or.inr (Or.inr ⟨hk, hc, ?_⟩)
      rcases hcase with ⟨-, -, q, -, hv⟩ | ⟨-, -, i, hi, hv⟩
      · exact Or.inl ⟨q, hv⟩
      · exact Or.inr ⟨i, hi, hv⟩

/-- C15 at the triangle `triangleA` with draws 1, 0, 1, 25: the kind drawn is the point
mutation; the call returns with the colour and point count of `triangleA`, point 0 moved to
(1,5), and no cell outside array 0 written. -/
theorem C15_Mutate_applies_exactly_one_kind_witness :
    (∃ k, randomMutation (replay [1, 0, 1, 25]) fourArrays = .ok (k, fourArrays.advance) ∧
      (k = MutationColor ∨ k = MutationPoint ∨ k = MutationAddOrDeletePoint)) ∧
    randomMutation (replay [1, 0, 1, 25]) fourArrays = .ok (MutationPoint, fourArrays.advance) ∧
    Mutate (replay [1, 0, 1, 25]) triangleA 10 10 fourArrays
      = .ok (triangleA, (fourArrays.advance.advance.advance.advance).store 0 0 [⟨1, 5⟩]) ∧
    ((fourArrays.advance.advance.advance.advance).store 0 0 [⟨1, 5⟩]).view triangleA.Points
      = [⟨1, 5⟩, ⟨2, 2⟩, ⟨3, 3⟩] ∧
    (∀ a j, a ≠ triangleA.Points.arr → a < fourArrays.next →
      ((fourArrays.advance.advance.advance.advance).store 0 0 [⟨1, 5⟩]).cells a j
        = fourArrays.cells a j) :=
  have h := C15_Mutate_applies_exactly_one_kind (replay [1, 0, 1, 25]) triangleA 10 10
    fourArrays
  ⟨h.1.imp (fun _ hk => ⟨hk.1, hk.2.1⟩), rfl, rfl, by decide,
   (h.2 (triangleA, (fourArrays.advance.advance.advance.advance).store 0 0 [⟨1, 5⟩]) rfl).2⟩

/-- C16 fails on the code as stated: `RenderImage` allocates the image buffer before it looks at
the polygons.  For the size 2^40 x 2^40 the byte length 2^82 of the buffer does not fit an
`int`, and `image.NewRGBA` panics: a candidate whose only polygon is a triangle fails although
no polygon is empty, and a candidate with an empty polygon fails with that panic, not with
index out of range. -/
theorem C16_RenderImage_fails_before_polygons :
    ¬ (pixelBytes hugeSide hugeSide < 2 ^ 63) ∧
    ((∀ p ∈ hugeTriangle.Polygons,
        MinPolygonPoints ≤ p.Points.len ∧ p.Points.len ≤ MaxPolygonPoints) ∧
      RenderImage (replay []) fourArrays hugeTriangle = .error .newRGBA) ∧
    ((∃ p ∈ hugeEmpty.Polygons, p.Points.len = 0) ∧
      RenderImage (replay []) fourArrays hugeEmpty = .error .newRGBA ∧
      RenderImage (replay []) fourArrays hugeEmpty ≠ .error .indexOutOfRange) := by
  refine ⟨by decide, ⟨by decide, rfl⟩, ⟨⟨⟨1, 0, 0, 4⟩, ⟨9, 8, 7, 255⟩⟩, by decide, by decide⟩,
    rfl, ?_⟩
  intro h
  have h2 : RenderImage (replay []) fourArrays hugeEmpty = .error .newRGBA := rfl
  rw [h2] at h
  cases h

/-- C16 as amended: `RenderImage` first allocates the buffer and panics in `image.NewRGBA` when
that is not possible, whatever the polygons are.  When the buffer can be allocated it panics
with index out of range exactly when some polygon of the candidate has no point, and returns
exactly when every polygon has at least one.  For every size, a polygon with a single point is
drawn as `MoveTo` that point with no `LineTo`, and a candidate whose polygons all have 3 to 6
points never panics with index out of range and is rendered when the buffer can be
allocated. -/
theorem C16_RenderImage_fatal_iff_empty_polygon (env : Env) (s : St) (cd : Candidate) :
    (¬ newRGBAok env cd.w cd.h → RenderImage env s cd = .error .newRGBA) ∧
    (newRGBAok env cd.w cd.h →
      (RenderImage env s cd = .error .indexOutOfRange ↔
        ∃ p ∈ cd.Polygons, p.Points.len = 0) ∧
      ((∃ e, RenderImage env s cd = .error e) ↔ ∃ p ∈ cd.Polygons, p.Points.len = 0) ∧
      ((∃ result, RenderImage env s cd = .ok result) ↔
        ∀ p ∈ cd.Polygons, 0 < p.Points.len)) ∧
    (RenderImage env s cd = .error .indexOutOfRange ↔
      newRGBAok env cd.w cd.h ∧ ∃ p ∈ cd.Polygons, p.Points.len = 0) ∧
    (∀ p : Polygon, p.Points.len = 1 →
      renderPolygon s p
        = .ok (polygonCommands p.Color (s.cells p.Points.arr p.Points.off) [])) ∧
    ((∀ p ∈ cd.Polygons, MinPolygonPoints ≤ p.Points.len ∧ p.Points.len ≤ MaxPolygonPoints) →
      RenderImage env s cd ≠ .error .indexOutOfRange ∧
      (newRGBAok env cd.w cd.h → ∃ result, RenderImage env s cd = .ok result)) := by
  have hmin : MinPolygonPoints = 3 := rfl
  have hiff : newRGBAok env cd.w cd.h →
      (RenderImage env s cd = .error .indexOutOfRange ↔
        ∃ p ∈ cd.Polygons, p.Points.len = 0) := by
    intro halloc
    refine ⟨fun he => ?_, RenderImage_fatal env s cd halloc⟩
    rcases empty_or_all_nonempty cd.Polygons with h | h
    · exact h
    · rw [RenderImage_eq env s cd halloc h] at he
      cases he
  refine ⟨RenderImage_refused env s cd, fun halloc => ⟨hiff halloc, ⟨fun he => ?_,
    fun h => ⟨_, RenderImage_fatal env s cd halloc h⟩⟩,
    ⟨fun hr => ?_, fun h => ⟨_, RenderImage_eq env s cd halloc h⟩⟩⟩, ⟨fun he => ?_,
    fun h => (hiff h.1).2 h.2⟩, ?_, ?_⟩
  · rcases empty_or_all_nonempty cd.Polygons with h | h
    · exact h
    · obtain ⟨e, he⟩ := he
      rw [RenderImage_eq env s cd halloc h] at he
      cases he
  · rcases empty_or_all_nonempty cd.Polygons with h | h
    · obtain ⟨r, hr⟩ := hr
      rw [RenderImage_fatal env s cd halloc h] at hr
      cases hr
    · exact h
  · by_cases halloc : newRGBAok env cd.w cd.h
    · exact ⟨halloc, (hiff halloc).1 he⟩
    · rw [RenderImage_refused env s cd halloc] at he
      cases he
  · intro p hp
    apply renderPolygon_eq
    rw [St.view, hp]
    rfl
  · intro h
    have hne : ∀ p ∈ cd.Polygons, 0 < p.Points.len := fun p hp => by
      have := (h p hp).1
      omega
    refine ⟨fun he => ?_, fun halloc => ⟨_, RenderImage_eq env s cd halloc hne⟩⟩
    by_cases halloc : newRGBAok env cd.w cd.h
    · rw [RenderImage_eq env s cd halloc hne] at he
      cases he
    · rw [RenderImage_refused env s cd halloc] at he
      cases he

/-- C16 as amended, at concrete candidates of size 10 x 10: one whose second polygon is empty
panics with index out of range, one whose only polygon has a single point is rendered, and
`parentAC` (two triangles) is rendered; the triangle of size 2^40 x 2^40 panics in
`image.NewRGBA`. -/
theorem C16_RenderImage_fatal_iff_empty_polygon_witness :
    (newRGBAok (replay []) emptyPolygonCandidate.w emptyPolygonCandidate.h ∧
      ¬ newRGBAok (replay []) hugeTriangle.w hugeTriangle.h) ∧
    RenderImage (replay []) fourArrays emptyPolygonCandidate = .error .indexOutOfRange ∧
    (∃ result, RenderImage (replay []) fourArrays onePointCandidate = .ok result) ∧
    (∃ result, RenderImage (replay []) fourArrays parentAC = .ok result) ∧
    RenderImage (replay []) fourArrays hugeTriangle = .error .newRGBA :=
  ⟨⟨by decide, by decide⟩,
   ((C16_RenderImage_fatal_iff_empty_polygon (replay []) fourArrays emptyPolygonCandidate).2.1
      (by decide)).1.2 ⟨⟨⟨1, 0, 0, 4⟩, ⟨9, 8, 7, 255⟩⟩, by decide, by decide⟩,
   ((C16_RenderImage_fatal_iff_empty_polygon (replay []) fourArrays onePointCandidate).2.1
      (by decide)).2.2.2 (by decide),
   ((C16_RenderImage_fatal_iff_empty_polygon (replay []) fourArrays parentAC).2.2.2.2
      (by decide)).2 (by decide),
   (C16_RenderImage_fatal_iff_empty_polygon (replay []) fourArrays hugeTriangle).1
      (by decide)⟩

/-- C17 fails on the code as stated: parents of size 2^40 x 2^40 with one polygon each, a
triangle and a quadrilateral, satisfy all conditions of the claim, and `Mate` panics in the
`image.NewRGBA` call of `RenderImage`, after its loop has completed. -/
theorem C17_Mate_panics_on_huge_size :
    (0 < hugeTriangle.Polygons.length ∧
      hugeTriangle.Polygons.length = hugeQuad.Polygons.length ∧
      (∀ p ∈ hugeTriangle.Polygons,
        MinPolygonPoints ≤ p.Points.len ∧ p.Points.len ≤ MaxPolygonPoints) ∧
      (∀ p ∈ hugeQuad.Polygons,
        MinPolygonPoints ≤ p.Points.len ∧ p.Points.len ≤ MaxPolygonPoints) ∧
      0 < hugeTriangle.w ∧ 0 < hugeTriangle.h ∧ 0 < hugeQuad.w ∧ 0 < hugeQuad.h) ∧
    ¬ (pixelBytes hugeTriangle.w hugeTriangle.h < 2 ^ 63) ∧
    Mate (replay [0, 16777215]) hugeTriangle hugeQuad fourArrays = .error .newRGBA := by
  refine ⟨by decide, by decide, rfl⟩

/-- C17 as amended: for parents with the same number `n >= 1` of polygons, all of whose polygons
have 3 to 6 points, and a positive width and height of `a`, the crossover index lies in
`[0, n)`, every index the loop reads from a parent is in range, and the loop of `Mate` completes
for every random stream: no index is out of range and no `rand.Intn` argument is non-positive
on the way.  `a.Mate(b)` then returns a child, and never fails, when the buffer of `a`'s size
can be allocated, and panics in `image.NewRGBA` when it cannot. -/
theorem C17_Mate_completes_on_valid_parents (env : Env) (a b : Candidate) (s : St)
    (hn : 0 < a.Polygons.length) (hlen : a.Polygons.length = b.Polygons.length)
    (h1 : ∀ p ∈ a.Polygons, MinPolygonPoints ≤ p.Points.len ∧ p.Points.len ≤ MaxPolygonPoints)
    (h2 : ∀ p ∈ b.Polygons, MinPolygonPoints ≤ p.Points.len ∧ p.Points.len ≤ MaxPolygonPoints)
    (hW : 0 < a.w) (hH : 0 < a.h) :
    env.rnd s.pos % a.Polygons.length < a.Polygons.length ∧
    (∀ i, i < a.Polygons.length →
      ∃ p, mateSource a b (env.rnd s.pos % a.Polygons.length) i = some p) ∧
    (∃ r, mateLoop env a b (env.rnd s.pos % a.Polygons.length) a.Polygons.length 0
        s.advance = .ok r) ∧
    (newRGBAok env a.w a.h →
      (∃ r, Mate env a b s = .ok r) ∧ ∀ e, Mate env a b s ≠ .error e) ∧
    (¬ newRGBAok env a.w a.h → Mate env a b s = .error .newRGBA) := by
  have hsrc := mateSource_total a b (env.rnd s.pos % a.Polygons.length) h1 h2 (by omega)
  obtain ⟨hloop, hret, hrefused⟩ := Mate_of_sources env a b s hn hsrc hW hH
  refine ⟨Nat.mod_lt _ hn, fun i hi => ?_, hloop, fun halloc => ?_, hrefused⟩
  · obtain ⟨p, hp, -⟩ := hsrc i hi
    rw [Nat.zero_add] at hp
    exact ⟨p, hp⟩
  · obtain ⟨r, hr⟩ := hret halloc
    refine ⟨⟨r, hr⟩, fun e he => ?_⟩
    rw [hr] at he
    cases he

/-- C17 as amended, at the parents `parentAC` and `parentBD` of size 10 x 10 with the draws
1, 0, 2, 1, 2, 0, 1, 3. -/
theorem C17_Mate_completes_on_valid_parents_witness :
    (0 < parentAC.Polygons.length ∧ parentAC.Polygons.length = parentBD.Polygons.length ∧
      0 < parentAC.w ∧ 0 < parentAC.h ∧
      newRGBAok (replay [1, 0, 2, 1, 2, 0, 1, 3]) parentAC.w parentAC.h) ∧
    (replay [1, 0, 2, 1, 2, 0, 1, 3]).rnd fourArrays.pos % parentAC.Polygons.length
      < parentAC.Polygons.length ∧
    (∃ r, Mate (replay [1, 0, 2, 1, 2, 0, 1, 3]) parentAC parentBD fourArrays = .ok r) :=
  have h := C17_Mate_completes_on_valid_parents (replay [1, 0, 2, 1, 2, 0, 1, 3]) parentAC
    parentBD fourArrays (by decide) (by decide) (by decide) (by decide) (by decide) (by decide)
  ⟨⟨by decide, by decide, by decide, by decide, by decide⟩, h.1, (h.2.2.2.1 (by decide)).1⟩

/-- C18: for every byte quadruple `c`, also one with a colour channel above alpha, every channel
selector (0 to 3 included) and every replacement byte, the colour `MutateColor` returns has R, G and B at
most A; its A is that of `c` when R, G or B was selected and the replacement byte when alpha
was selected.  `MutateColor` returns for every random stream, with such a colour. -/
theorem C18_MutateColor_returns_premultiplied (env : Env) (c : RGBA) (i val : Nat) (s : St)
    (hb : c.isBytes) (hv : val < 256) :
    ((MutateColorWith c i val).R ≤ (MutateColorWith c i val).A ∧
      (MutateColorWith c i val).G ≤ (MutateColorWith c i val).A ∧
      (MutateColorWith c i val).B ≤ (MutateColorWith c i val).A ∧
      (i < 3 → (MutateColorWith c i val).A = c.A) ∧
      (i = 3 → (MutateColorWith c i val).A = val)) ∧
    (∃ r : RGBA × St, MutateColor env c s = .ok r ∧
      r.1.R ≤ r.1.A ∧ r.1.G ≤ r.1.A ∧ r.1.B ≤ r.1.A ∧ r.1.A < 256) := by
  refine ⟨MutateColorWith_valid c i val hb hv, _, MutateColor_eq env c s, ?_⟩
  have hv2 : env.rnd (s.pos + 1) % 256 % 256 < 256 := Nat.mod_lt _ (by norm_num)
  obtain ⟨vR, vG, vB, -, -⟩ :=
    MutateColorWith_valid c (env.rnd s.pos % 4) (env.rnd (s.pos + 1) % 256 % 256) hb hv2
  refine ⟨vR, vG, vB, ?_⟩
  unfold MutateColorWith rgbaModel
  exact hiByte_lt _

/-- C18 at the colour (200,0,0,100), whose R exceeds its alpha: mutating G to 5 gives
(100,1,0,100). -/
theorem C18_MutateColor_returns_premultiplied_witness :
    (RGBA.isBytes ⟨200, 0, 0, 100⟩ ∧ 5 < 256) ∧
    MutateColorWith ⟨200, 0, 0, 100⟩ 1 5 = ⟨100, 1, 0, 100⟩ ∧
    ((MutateColorWith ⟨200, 0, 0, 100⟩ 1 5).R ≤ (MutateColorWith ⟨200, 0, 0, 100⟩ 1 5).A ∧
      (MutateColorWith ⟨200, 0, 0, 100⟩ 1 5).G ≤ (MutateColorWith ⟨200, 0, 0, 100⟩ 1 5).A ∧
      (MutateColorWith ⟨200, 0, 0, 100⟩ 1 5).B ≤ (MutateColorWith ⟨200, 0, 0, 100⟩ 1 5).A ∧
      (1 < 3 → (MutateColorWith ⟨200, 0, 0, 100⟩ 1 5).A = (⟨200, 0, 0, 100⟩ : RGBA).A) ∧
      (1 = 3 → (MutateColorWith ⟨200, 0, 0, 100⟩ 1 5).A = 5)) :=
  ⟨by decide, by decide,
   (C18_MutateColor_returns_premultiplied (replay []) ⟨200, 0, 0, 100⟩ 1 5 fourArrays
     (by decide) (by decide)).1⟩

/-- C19: in a run of `a.Mate(b)` on parents with the same number `n` of polygons in which no
mutation fired, with crossover index `c`, the child's polygons are the first `c + 1` polygons of
`a` followed by the polygons of `b` from index `c + 1` on: `c + 1` polygons (between 1 and `n`)
come from `a` and `n - 1 - c` from `b`.  Polygon 0 of the child is that of `a`; for `c = n - 1`
the child is made of the polygons of `a` alone; and as `c + 1 >= 1` no draw leaves `a` out. -/
theorem C19_Mate_crossover_is_asymmetric (env : Env) (a b : Candidate) (s : St)
    (child : Candidate) (fired : List Bool) (t : St)
    (h : MateTraced env a b s = .ok ((child, fired), t))
    (hlen : b.Polygons.length = a.Polygons.length) (hnone : ∀ f ∈ fired, f = false) :
    0 < a.Polygons.length ∧
    env.rnd s.pos % a.Polygons.length < a.Polygons.length ∧
    child.Polygons = a.Polygons.take (env.rnd s.pos % a.Polygons.length + 1)
      ++ b.Polygons.drop (env.rnd s.pos % a.Polygons.length + 1) ∧
    (a.Polygons.take (env.rnd s.pos % a.Polygons.length + 1)).length
      = env.rnd s.pos % a.Polygons.length + 1 ∧
    1 ≤ env.rnd s.pos % a.Polygons.length + 1 ∧
    env.rnd s.pos % a.Polygons.length + 1 ≤ a.Polygons.length ∧
    (b.Polygons.drop (env.rnd s.pos % a.Polygons.length + 1)).length
      = a.Polygons.length - 1 - env.rnd s.pos % a.Polygons.length ∧
    child.Polygons[0]? = a.Polygons[0]? ∧
    (env.rnd s.pos % a.Polygons.length = a.Polygons.length - 1 →
      child.Polygons = a.Polygons) := by
  obtain ⟨hpos, bps, hl, hP, hF, -, -⟩ := MateTraced_ok h
  simp only at hl hP hF
  have hc : env.rnd s.pos % a.Polygons.length < a.Polygons.length := Nat.mod_lt _ hpos
  obtain ⟨hlen2, hsrc⟩ := mateLoop_unfired env a b _ _ _ _ _ hl (by rw [← hF]; exact hnone)
  simp only at hlen2 hsrc
  have hlist := crossover_list a b (env.rnd s.pos % a.Polygons.length) child.Polygons hc hlen
    (by rw [hP]; exact hlen2) (fun k hk => by
      rw [hP, hsrc k hk, Nat.zero_add])
  have htl : (a.Polygons.take (env.rnd s.pos % a.Polygons.length + 1)).length
      = env.rnd s.pos % a.Polygons.length + 1 := by
    rw [List.length_take]
    omega
  refine ⟨hpos, hc, hlist, htl, by omega, by omega, ?_, ?_, ?_⟩
  · rw [List.length_drop, hlen]
    omega
  · rw [hlist, List.getElem?_append_left (by omega), List.getElem?_take_of_lt (by omega)]
  · intro he
    rw [hlist, List.take_of_length_le (by omega), List.drop_of_length_le (by omega),
      List.append_nil]

/-- C19 at a concrete run: parents with two polygons each, crossover 0 and no mutation; the
child holds the first polygon of `parentAC` and the second of `parentBD`. -/
theorem C19_Mate_crossover_is_asymmetric_witness :
    (MateTraced (replay [0, 16777215, 16777215]) parentAC parentBD fourArrays
        = .ok ((plainRun.1.1, plainRun.1.2), plainRun.2) ∧
      parentBD.Polygons.length = parentAC.Polygons.length ∧
      ∀ f ∈ plainRun.1.2, f = false) ∧
    plainRun.1.1.Polygons = [triangleA, quadD] ∧
    plainRun.1.1.Polygons[0]? = parentAC.Polygons[0]? :=
  have h := C19_Mate_crossover_is_asymmetric (replay [0, 16777215, 16777215]) parentAC parentBD
    fourArrays plainRun.1.1 plainRun.1.2 plainRun.2 rfl (by decide) (by decide)
  ⟨⟨rfl, by decide, by decide⟩, h.2.2.1.trans (by decide), h.2.2.2.2.2.2.2.1⟩

end Polygen
